import Mathlib

/-!
# jp2a: JPEG to ASCII conversion (`src/jp2a.c`)

A shallow embedding of the option parser, the aspect ratio resolver, the
scanline accumulator, the normalizer and the palette renderer of `jp2a.c`,
followed by theorems about them.

Modelling conventions.

* C `int` values are `Int`.  Where the program can leave the 32-bit range the
  result is the one of the x86-64 code: a `float` outside the range of `int`
  converts to `INT_MIN` (`int_of_float`), `++width` and `++height` wrap
  (`wrap_int`), and the size passed to `malloc` is computed in `int` and then
  in `size_t` (`malloc_image`).
* The unsigned `JDIMENSION` fields of the JPEG descriptor are `Nat`; the JPEG
  library delivers no dimension above `JPEG_MAX_DIMENSION`, and the one
  unsigned subtraction the program performs on them is reduced modulo `2^32`.
* The scales of the image and the dimensions derived from the aspect ratio
  are computed in single precision (`CFloat`): a value is a finite binary32
  number or not finite, and every conversion, product, quotient and sum of
  `calc_aspect_ratio`, `init_image` and `process_scanline` is rounded to
  nearest, ties to even (`f32`), one operation at a time (no fused
  multiply-add).
* The cell intensities of the grid (`pixel`) are exact rationals, the values
  which the single-precision cells of the program approximate; the conversion
  `(int) x` of such a value truncates toward zero.
* The heap arrays `pixel`, `yadds` and `lookup_resx` are maps from the C index
  to the stored value, and `malloc_image` records the size of each block.
  The model follows the runs in which `malloc` grants the three requests; on
  a refusal the program exits with status 1 before a scanline is read.
* `stdout` is the list of lines written; every line the program writes ends
  with a line break, which is left implicit.
-/

namespace Jp2a

/-! ## Primitive operations -/

/-- The C conversion `(int) x` of a floating value: truncation toward zero. -/
def c_int (x : ℚ) : Int := if 0 ≤ x then ⌊x⌋ else ⌈x⌉

/-- `#define ROUND(x) (int) ( 0.5f + x )` on an exact operand, as the
renderer applies it to a cell intensity. -/
def ROUND (x : ℚ) : Int := c_int (1 / 2 + x)

/-- Rounding of a rational to the nearest integer, ties to the even one. -/
def round_half_even (q : ℚ) : Int :=
  let f := ⌊q⌋
  if q - f < 1 / 2 then f
  else if 1 / 2 < q - f then f + 1
  else if f % 2 = 0 then f else f + 1

/-- The number of binary digits of `n`, computed with `fuel >= n`. -/
def bit_length : Nat → Nat → Nat
  | 0, _ => 0
  | fuel + 1, n => if n = 0 then 0 else bit_length fuel (n / 2) + 1

/-- The binary exponent `e` of a non-zero rational: `2^e <= |x| < 2^(e+1)`. -/
def binade (x : ℚ) : Int :=
  let e0 : Int := (bit_length x.num.natAbs x.num.natAbs : Int) - (bit_length x.den x.den : Int)
  if (2 : ℚ) ^ e0 ≤ |x| then e0 else e0 - 1

/-- Rounding to single precision (IEEE 754 binary32, round to nearest, ties
to even): the significand has 24 bits and the exponent is not below -126, so
the spacing of the values around `x` is `2^(e - 23)`. -/
def f32 (x : ℚ) : ℚ :=
  if x = 0 then 0
  else
    let ulp : ℚ := 2 ^ (max (binade x) (-126) - 23)
    round_half_even (x / ulp) * ulp

/-- A C `float`: `some x` is the finite single-precision value `x`, `none`
stands for an infinity or a NaN. -/
abbrev CFloat := Option ℚ

/-- The largest finite single-precision value. -/
def FLT_MAX : ℚ := (2 ^ 24 - 1) * 2 ^ 104

/-- The single-precision result of an operation whose exact result is `x`:
the rounded value, or an infinity when that exceeds `FLT_MAX`. -/
def round32 (x : ℚ) : CFloat := if |f32 x| ≤ FLT_MAX then some (f32 x) else none

/-- The least `int`. -/
def INT_MIN : Int := -2 ^ 31

/-- The greatest `int`. -/
def INT_MAX : Int := 2 ^ 31 - 1

/-- The conversion `(float) n` of an integer. -/
def float_of_int (n : Int) : CFloat := round32 (n : ℚ)

/-- The single-precision product `a * b`. -/
def float_mul (a b : CFloat) : CFloat :=
  match a, b with
  | some x, some y => round32 (x * y)
  | _, _ => none

/-- The single-precision sum `a + b`. -/
def float_add (a b : CFloat) : CFloat :=
  match a, b with
  | some x, some y => round32 (x + y)
  | _, _ => none

/-- The single-precision quotient `a / b`; division by zero gives an infinity
or a NaN.  Every divisor in the program is the conversion of an integer. -/
def float_div (a b : CFloat) : CFloat :=
  match a, b with
  | some x, some y => if y = 0 then none else round32 (x / y)
  | _, _ => none

/-- The conversion `(int) a` of a `float`: truncation toward zero.  C leaves
the conversion undefined when the truncated value is no `int` or `a` is not
finite; the x86-64 conversion instruction then delivers `INT_MIN`. -/
def int_of_float (a : CFloat) : Int :=
  match a with
  | some x => if INT_MIN ≤ c_int x ∧ c_int x ≤ INT_MAX then c_int x else INT_MIN
  | none => INT_MIN

/-- `ROUND(x)` for a single-precision operand `x`, as `calc_aspect_ratio` and
`process_scanline` evaluate it: `(int) ( 0.5f + x )` with the sum rounded to
single precision. -/
def ROUND_float (x : CFloat) : Int := int_of_float (float_add (some (1 / 2)) x)

/-- An `int` result reduced to 32 bits in two's complement. -/
def wrap_int (x : Int) : Int := (x + 2 ^ 31) % 2 ^ 32 - 2 ^ 31

/-- The conversion of an `int` to the 64-bit `size_t`. -/
def size_of_int (x : Int) : Nat := (x % 2 ^ 64).toNat

/-- The compound assignment `a[idx] op= ...` on an array seen as a map. -/
def modify_at {α : Type} (a : Int → α) (idx : Int) (f : α → α) : Int → α :=
  fun k => if k = idx then f (a k) else a k

/-- The string terminator. -/
def NUL : Char := Char.ofNat 0

/-- The text `printf("%s")` and `puts` write for a character buffer: the
characters before the first terminator. -/
def c_str (buf : List Char) : List Char := buf.takeWhile (fun c => c ≠ NUL)

/-- Reading `scanline[i]` from the sample buffer of the current scanline. -/
def sample (scanline : List Nat) (i : Int) : Nat :=
  if 0 ≤ i then scanline.getD i.toNat 0 else 0

/-! ## Data model -/

/-- `typedef struct Image_` -/
structure Image where
  width : Int
  height : Int
  pixel : Int → ℚ
  yadds : Int → Int
  resize_y : CFloat
  resize_x : CFloat
  lookup_resx : Int → Int

/-- The file-scope option variables with their defaults, together with the
function-static `lasty` of `process_scanline`. -/
structure Globals where
  verbose : Int := 0
  auto_height : Int := 1
  auto_width : Int := 0
  width : Int := 78
  height : Int := 0
  progress_barlength : Int := 56
  border : Int := 0
  invert : Int := 0
  flipx : Int := 0
  flipy : Int := 0
  html : Int := 0
  html_fontsize : Int := 4
  debug : Int := 0
  ascii_palette : List Char := []
  lasty : Int := 0
  deriving DecidableEq

/-- The largest image dimension the JPEG library accepts
(`JPEG_MAX_DIMENSION` of `jmorecfg.h`); it refuses a larger image when it
reads the header. -/
def JPEG_MAX_DIMENSION : Nat := 65500

/-- The fields of `struct jpeg_decompress_struct` that the program reads.
The output dimensions are within `JPEG_MAX_DIMENSION`. -/
structure JpegInfo where
  output_width : Nat
  output_height : Nat
  out_color_components : Int
  output_components : Int
  output_scanline : Nat := 0
  dimensions : output_width ≤ JPEG_MAX_DIMENSION ∧ output_height ≤ JPEG_MAX_DIMENSION := by
    decide
  deriving DecidableEq

/-- A decoded image as the JPEG library delivers it: the descriptor and the
scanlines, top to bottom, each a buffer of samples. -/
structure Source where
  jpg : JpegInfo
  scanlines : List (List Nat)
  deriving DecidableEq

/-- `const char* default_palette` -/
def default_palette : List Char := "   ...',;:clodxkO0KXNWM".toList

/-! ## Option parser -/

/-- C `isspace` in the "C" locale. -/
def isspace (c : Char) : Bool :=
  c.toNat = 32 || (9 ≤ c.toNat && c.toNat ≤ 13)

/-- The `%d` conversion of `sscanf`: leading white space is skipped, then an
optional sign and a non-empty run of decimal digits are read.  The result is
the value and the unread input; `none` is a matching failure.  The value is
not reduced to the range of `int` (C leaves an overflowing conversion
undefined). -/
def scan_int (s : List Char) : Option (Int × List Char) :=
  let s := s.dropWhile isspace
  let signed : Bool × List Char :=
    match s with
    | '-' :: t => (true, t)
    | '+' :: t => (false, t)
    | _ => (false, s)
  let digits := signed.2.takeWhile Char.isDigit
  if digits.isEmpty then none
  else
    let n : Nat := digits.foldl (fun n c => 10 * n + (c.toNat - 48)) 0
    some (if signed.1 then -(n : Int) else (n : Int), signed.2.dropWhile Char.isDigit)

/-- Matching the literal text of a `sscanf` format against the input. -/
def scan_lit (lit s : List Char) : Option (List Char) :=
  if lit.isPrefixOf s then some (s.drop lit.length) else none

/-- `sscanf(s, "<lit>%d", &var) == 1`: the value stored in `var`, if any. -/
def sscanf_d (lit s : List Char) : Option Int :=
  match scan_lit lit s with
  | none => none
  | some rest =>
    match scan_int rest with
    | none => none
    | some (v, _) => some v

/-- `sscanf(s, "--size=%dx%d", &var1, &var2)`: the values stored in `var1`
and `var2`; the first one is stored even when the call then fails to reach
the second. -/
def sscanf_size (s : List Char) : Option Int × Option Int :=
  match scan_lit "--size=".toList s with
  | none => (none, none)
  | some rest =>
    match scan_int rest with
    | none => (none, none)
    | some (v1, rest1) =>
      match scan_lit ['x'] rest1 with
      | none => (some v1, none)
      | some rest2 =>
        match scan_int rest2 with
        | none => (some v1, none)
        | some (v2, _) => (some v1, some v2)

/-- `ASCII_PALETTE_SIZE` -/
def ASCII_PALETTE_SIZE : Nat := 256

/-- The way one pass through the body of the argument loop ends. -/
inductive LoopStep where
  | continue_ (files : Int) (g : Globals)
  | return_ (code : Int) (g : Globals)
  deriving DecidableEq

/-- The body of the argument loop of `parse_options` for the argument `s`.
`strlen_before` is the value of `strlen(s-8)`, which the program compares with
the palette capacity: it is measured from eight bytes before the argument and
so is fixed by the memory around it, not by the argument. -/
def parse_argument (strlen_before : Nat) (s : List Char) (files : Int) (g : Globals) :
    LoopStep :=
  if s.head? ≠ some '-' then .continue_ (files + 1) g
  else if s = "-".toList then .continue_ (files + 1) g
  else if s = "-h".toList ∨ s = "--help".toList then .return_ 0 g
  else if s = "-v".toList ∨ s = "--verbose".toList then .continue_ files { g with verbose := 1 }
  else if s = "-d".toList ∨ s = "--debug".toList then .continue_ files { g with debug := 1 }
  else if s = "--html".toList then .continue_ files { g with html := 1 }
  else if s = "-b".toList ∨ s = "--border".toList then .continue_ files { g with border := 1 }
  else if s = "-i".toList ∨ s = "--invert".toList then .continue_ files { g with invert := 1 }
  else if s = "--flipx".toList then .continue_ files { g with flipx := 1 }
  else if s = "--flipy".toList then .continue_ files { g with flipy := 1 }
  else if s = "-V".toList ∨ s = "--version".toList then .return_ 0 g
  else
    match sscanf_d "--width=".toList s with
    | some v => .continue_ files { g with width := v, auto_height := g.auto_height + 1 }
    | none =>
    match sscanf_d "--height=".toList s with
    | some v => .continue_ files { g with height := v, auto_width := g.auto_width + 1 }
    | none =>
    match sscanf_d "--html-fontsize=".toList s with
    | some v => .continue_ files { g with html_fontsize := v }
    | none =>
    match sscanf_size s with
    | (some v1, some v2) =>
      .continue_ files { g with width := v1, height := v2, auto_width := 0, auto_height := 0 }
    | (r1, _) =>
      let g1 := match r1 with
        | some v1 => { g with width := v1 }
        | none => g
      if "--chars=".toList.isPrefixOf s then
        if strlen_before > ASCII_PALETTE_SIZE then .return_ 1 g1
        else .continue_ files { g1 with ascii_palette := s.drop 8 }
      else .return_ 1 g1

/-- The argument loop of `parse_options` from argument index `n` on. -/
def parse_arguments (strlen_before : Nat → Nat) :
    Nat → List (List Char) → Int → Globals → LoopStep
  | _, [], files, g => .continue_ files g
  | n, s :: rest, files, g =>
    match parse_argument (strlen_before n) s files g with
    | .return_ code g1 => .return_ code g1
    | .continue_ files1 g1 => parse_arguments strlen_before (n + 1) rest files1 g1

/-- `parse_options`: the return code (`-1` for parsing OK) and the option
variables it leaves.  `argv` includes the program name `argv[0]`. -/
def parse_options (strlen_before : Nat → Nat) (argv : List String) (g : Globals) :
    Int × Globals :=
  match parse_arguments strlen_before 1 ((argv.drop 1).map String.toList) 0 g with
  | .return_ code g1 => (code, g1)
  | .continue_ files g1 =>
    if files = 0 then (1, g1)
    else
      let g2 := if g1.auto_width = 1 ∧ g1.auto_height = 1 then { g1 with auto_height := 0 } else g1
      let g3 :=
        if g2.auto_width = 2 ∧ g2.auto_height = 1 then { g2 with auto_width := 0, auto_height := 0 }
        else g2
      if g3.ascii_palette.length < 2 then (1, g3)
      else if (g3.width < 1 ∧ g3.auto_width = 0) ∨ (g3.height < 1 ∧ g3.auto_height = 0) then (1, g3)
      else (-1, g3)

/-- The option variables when `main` calls `parse_options`: the defaults,
with the default palette copied into `ascii_palette`. -/
def initial_globals : Globals := { ascii_palette := default_palette }

/-! ## Aspect ratio resolver -/

/-- The width `calc_aspect_ratio` derives from the height:
`ROUND(2.0f * (float) height * (float) jpeg_width / (float) jpeg_height)`. -/
def derived_width (height jpeg_width jpeg_height : Int) : Int :=
  ROUND_float
    (float_div
      (float_mul (float_mul (some 2) (float_of_int height)) (float_of_int jpeg_width))
      (float_of_int jpeg_height))

/-- The height `calc_aspect_ratio` derives from the width:
`ROUND(0.5f * (float) width * (float) jpeg_height / (float) jpeg_width)`. -/
def derived_height (width jpeg_width jpeg_height : Int) : Int :=
  ROUND_float
    (float_div
      (float_mul (float_mul (some (1 / 2)) (float_of_int width)) (float_of_int jpeg_height))
      (float_of_int jpeg_width))

mutual
/-- `calc_aspect_ratio`: the recursion and its two `while` loops, bounded by
fuel; `none` means the fuel ran out. -/
def calc_aspect_ratio : Nat → Int → Int → Globals → Option Globals
  | 0, _, _, _ => none
  | fuel + 1, jpeg_width, jpeg_height, g =>
    let r1 :=
      if g.auto_width ≠ 0 ∧ g.auto_height = 0 then
        calc_while_width fuel jpeg_width jpeg_height
          { g with width := derived_width g.height jpeg_width jpeg_height }
      else some g
    match r1 with
    | none => none
    | some g1 =>
      if g1.auto_width = 0 ∧ g1.auto_height ≠ 0 then
        calc_while_height fuel jpeg_width jpeg_height
          { g1 with height := derived_height g1.width jpeg_width jpeg_height }
      else some g1
/-- The loop `while ( width==0 ) { ++height; calc_aspect_ratio(...); }`. -/
def calc_while_width : Nat → Int → Int → Globals → Option Globals
  | 0, _, _, _ => none
  | fuel + 1, jpeg_width, jpeg_height, g =>
    if g.width = 0 then
      match calc_aspect_ratio fuel jpeg_width jpeg_height
          { g with height := wrap_int (g.height + 1) } with
      | none => none
      | some g1 => calc_while_width fuel jpeg_width jpeg_height g1
    else some g
/-- The loop `while ( height==0 ) { ++width; calc_aspect_ratio(...); }`. -/
def calc_while_height : Nat → Int → Int → Globals → Option Globals
  | 0, _, _, _ => none
  | fuel + 1, jpeg_width, jpeg_height, g =>
    if g.height = 0 then
      match calc_aspect_ratio fuel jpeg_width jpeg_height
          { g with width := wrap_int (g.width + 1) } with
      | none => none
      | some g1 => calc_while_height fuel jpeg_width jpeg_height g1
    else some g
end

/-! ## Renderer -/

/-- `print_html_start`: the lines of the one `printf` call, with
`html_fontsize` printed by `%d`. -/
def print_html_start (g : Globals) : List (List Char) :=
  [ "<?xml version='1.0' encoding='ISO-8859-1'?>".toList,
    ("<!DOCTYPE html PUBLIC '-//W3C//DTD XHTML 1.0 Strict//EN'" ++
      "  'http://www.w3.org/TR/xhtml1/DTD/xhtml1-strict.dtd'>").toList,
    "<html xmlns='http://www.w3.org/1999/xhtml' lang='en' xml:lang='en'>".toList,
    "<head>".toList,
    "<title>jp2a converted image</title>".toList,
    "<style type='text/css'>".toList,
    ".ascii \x7b".toList,
    "   font-size:".toList ++ (toString g.html_fontsize).toList ++ "pt;".toList,
    "\x7d".toList,
    "</style>".toList,
    "</head>".toList,
    "<body>".toList,
    "<div class='ascii'>".toList,
    "<pre>".toList ]

/-- `print_html_end` -/
def print_html_end : List (List Char) :=
  [ "</pre>".toList, "</div>".toList, "</body>".toList, "</html>".toList ]

/-- `print_border`: the buffer is filled with `width+2` dashes, its first and
last character are overwritten with `+`, and it is written with `puts`. -/
def print_border (width : Int) : List Char :=
  let bord := List.replicate (width + 2).toNat '-' ++ [NUL]
  let bord := bord.set (width + 1).toNat '+'
  let bord := bord.set 0 '+'
  let bord := bord.set (width + 2).toNat NUL
  c_str bord

/-- Reading `ascii_palette[idx]`: a character of the palette, or the
terminator outside it. -/
def palette_at (g : Globals) (idx : Int) : Char :=
  if 0 ≤ idx then g.ascii_palette.getD idx.toNat NUL else NUL

/-- The palette index `print_image` computes for output row `y` and source
column `x`: the subscript of `ascii_palette` in the inner loop. -/
def palette_index (g : Globals) (i : Image) (chars : Int) (y x : Int) : Int :=
  let w := i.width
  let h := i.height
  let intensity := i.pixel ((if g.flipy = 0 then y else h - y - 1) * w + x)
  let pos := ROUND ((chars : ℚ) * intensity)
  if g.invert = 0 then chars - pos else pos

/-- The inner loop of `print_image` for output row `y`: the contents of the
buffer `line` once every column has been written. -/
def print_image_line (g : Globals) (i : Image) (chars : Int) (y : Int) : List Char :=
  let w := i.width
  (List.range w.toNat).foldl
    (fun line (x : Nat) =>
      line.set (if g.flipx = 0 then (x : Int) else w - x - 1).toNat
        (palette_at g (palette_index g i chars y x)))
    (List.replicate w.toNat NUL)

/-- `print_image`: one line per row, wrapped in bars when `border` is set. -/
def print_image (g : Globals) (i : Image) (chars : Int) : List (List Char) :=
  (List.range i.height.toNat).map fun (y : Nat) =>
    let line := c_str (print_image_line g i chars y)
    if g.border = 0 then line else '|' :: line ++ ['|']

/-! ## Accumulator and normalizer -/

/-- `clear`: both arrays are zeroed. -/
def clear (i : Image) : Image :=
  { i with pixel := fun _ => 0, yadds := fun _ => 0 }

/-- `normalize`: every cell of a row with a non-zero count is divided by the
count.  The running offset `yoffs` is `y * w` throughout the loop. -/
def normalize (i : Image) : Image :=
  let w := i.width
  let h := i.height
  let pixel :=
    (List.range h.toNat).foldl
      (fun px (y : Nat) =>
        let yoffs := (y : Int) * w
        (List.range w.toNat).foldl
          (fun px (x : Nat) =>
            if i.yadds y ≠ 0 then modify_at px (yoffs + x) (fun v => v / (i.yadds y : ℚ))
            else px)
          px)
      i.pixel
  { i with pixel := pixel }

/-- `store_intensity`: the new value of `*dest`. -/
def store_intensity (source : Int → Nat) (dest : ℚ) (components : Int) : ℚ :=
  let v := (List.range (components - 1).toNat).foldl
    (fun v (k : Nat) => v + (source ((k : Int) + 1) : ℚ)) (source 0 : ℚ)
  dest + v / (255 * (components : ℚ))

/-- One iteration of the `while` loop of `process_scanline` at cursor
`lasty`: the row is accumulated and its count incremented. -/
def process_row (jpg : JpegInfo) (scanline : List Nat) (image : Image) (lasty : Int) : Image :=
  let y_w := lasty * image.width
  let pixel :=
    (List.range image.width.toNat).foldl
      (fun px (x : Nat) =>
        modify_at px (y_w + x) fun d =>
          store_intensity (fun c => sample scanline (image.lookup_resx x + c)) d
            jpg.out_color_components)
      image.pixel
  { image with pixel := pixel, yadds := modify_at image.yadds lasty (fun n => n + 1) }

/-- The loop `while ( lasty <= y )` run for `n` iterations from cursor
`lasty`; it returns the cursor and the image. -/
def process_rows (jpg : JpegInfo) (scanline : List Nat) : Nat → Int → Image → Int × Image
  | 0, lasty, image => (lasty, image)
  | n + 1, lasty, image =>
    process_rows jpg scanline n (lasty + 1) (process_row jpg scanline image lasty)

/-- The destination row `y` that `process_scanline` computes from the number
of the scanline just read (`output_scanline - 1`, an unsigned subtraction):
`ROUND(image->resize_y * (float) (jpg->output_scanline-1))`. -/
def scanline_row (jpg : JpegInfo) (image : Image) : Int :=
  ROUND_float
    (float_mul image.resize_y
      (float_of_int (((jpg.output_scanline + 2 ^ 32 - 1) % 2 ^ 32 : Nat) : Int)))

/-- `process_scanline` on the pair of the static cursor `lasty` and the
image.  The loop `while ( lasty <= y )` runs `y + 1 - lasty` times when
`lasty <= y` and not at all otherwise; afterwards the cursor is set to `y`. -/
def process_scanline (jpg : JpegInfo) (scanline : List Nat) (st : Int × Image) : Int × Image :=
  let lasty := st.1
  let image := st.2
  let y := scanline_row jpg image
  (y, (process_rows jpg scanline (y + 1 - lasty).toNat lasty image).2)

/-- The sizes in bytes of the three blocks `malloc_image` obtains. -/
structure Allocation where
  pixel : Nat
  yadds : Nat
  lookup_resx : Nat
  deriving DecidableEq

/-- `malloc_image`: the image takes the configured size, and the three
arrays are requested with `malloc(width * height * sizeof(float))`,
`malloc(height * sizeof(int))` and `malloc(width * sizeof(int))`.  The
product `width * height` is an `int`, reduced to 32 bits; each factor is then
converted to `size_t` and multiplied by the element size 4 modulo `2^64`.
The arrays are fresh; their contents are set by `clear` and `init_image`. -/
def malloc_image (g : Globals) : Image × Allocation :=
  ({ width := g.width, height := g.height, pixel := fun _ => 0, yadds := fun _ => 0,
     resize_y := some 0, resize_x := some 0, lookup_resx := fun _ => 0 },
   { pixel := size_of_int (wrap_int (g.width * g.height)) * 4 % 2 ^ 64,
     yadds := size_of_int g.height * 4 % 2 ^ 64,
     lookup_resx := size_of_int g.width * 4 % 2 ^ 64 })

/-- `init_image`: the two scales and the column map, in single precision:
`resize_y = (float) (height - 1) / (float) (output_height-1)` with the
unsigned subtraction in the divisor, `resize_x = (float) output_width /
(float) width`, and `lookup_resx[dst_x] = (int)( (float) dst_x * resize_x )`
multiplied by the number of components. -/
def init_image (i : Image) (jpg : JpegInfo) : Image :=
  let resize_y := float_div (float_of_int (i.height - 1))
    (float_of_int (((jpg.output_height + 2 ^ 32 - 1) % 2 ^ 32 : Nat) : Int))
  let resize_x := float_div (float_of_int (jpg.output_width : Int)) (float_of_int i.width)
  let lookup_resx :=
    (List.range i.width.toNat).foldl
      (fun tbl (dst_x : Nat) =>
        modify_at
          (modify_at tbl dst_x
            (fun _ => int_of_float (float_mul (float_of_int (dst_x : Int)) resize_x)))
          dst_x (fun v => v * jpg.out_color_components))
      i.lookup_resx
  { i with resize_y := resize_y, resize_x := resize_x, lookup_resx := lookup_resx }

/-- The read loop of `decompress`: `jpeg_read_scanlines` delivers scanline
`s` and advances `output_scanline` to `s + 1`, then `process_scanline` runs. -/
def read_scanlines (src : Source) (n : Nat) (st : Int × Image) : Int × Image :=
  (List.range n).foldl
    (fun st s =>
      process_scanline { src.jpg with output_scanline := s + 1 } (src.scanlines.getD s []) st)
    st

/-- The accumulation stage of `decompress` under the resolved configuration
`g`: the image is allocated, cleared and initialised, and every scanline is
processed, the static cursor starting from `g.lasty`.  The result is the
cursor left behind and the grid of sums. -/
def accumulate (src : Source) (g : Globals) : Int × Image :=
  let image := init_image (clear (malloc_image g).1) src.jpg
  read_scanlines src src.jpg.output_height (g.lasty, image)

/-- The cursor and the grid of `decompress` after `normalize`. -/
def decompress_image (src : Source) (g : Globals) : Int × Image :=
  let st := accumulate src g
  (st.1, normalize st.2)

/-- `decompress`: the configuration left behind and the lines written to
`stdout`; `none` means the fuel of `calc_aspect_ratio` ran out. -/
def decompress (fuel : Nat) (src : Source) (g : Globals) : Option (Globals × List (List Char)) :=
  match calc_aspect_ratio fuel src.jpg.output_width src.jpg.output_height g with
  | none => none
  | some g1 =>
    let st := decompress_image src g1
    let image := st.2
    let g2 := { g1 with lasty := st.1 }
    let html_start := if g2.html ≠ 0 then print_html_start g2 else []
    let border := if g2.border ≠ 0 then [print_border image.width] else []
    let body := print_image g2 image ((g2.ascii_palette.length : Int) - 1)
    let html_end := if g2.html ≠ 0 then print_html_end else []
    some (g2, html_start ++ border ++ body ++ border ++ html_end)

/-! ## Driver -/

/-- What `main` finds outside the program: the decoded image behind standard
input and behind each file name, `none` where `fopen` fails.  Decoding is the
JPEG library's work and is not part of the model; the optional download of
URLs (`FEAT_CURL`) is compiled out. -/
structure Env where
  stdin : Source
  fopen : List Char → Option Source

/-- The file loop of `main` over the arguments after `argv[0]`: the exit code
and, for each call of `decompress` in order, the lines it wrote.  `decompress`
always returns 0, so the loop goes on after every image. -/
def main_loop (fuel : Nat) (env : Env) :
    List (List Char) → Globals → List (List (List Char)) →
      Option (Int × List (List (List Char)))
  | [], _, out => some (0, out)
  | s :: rest, g, out =>
    if s.head? = some '-' ∧ s.tail ≠ [] then main_loop fuel env rest g out
    else if s = ['-'] then
      match decompress fuel env.stdin g with
      | none => none
      | some (g1, lines) => main_loop fuel env rest g1 (out ++ [lines])
    else
      match env.fopen s with
      | some src =>
        match decompress fuel src g with
        | none => none
        | some (g1, lines) => main_loop fuel env rest g1 (out ++ [lines])
      | none => some (1, out)

/-- `main`: the exit code and the output of each call of `decompress`.  The
option variables start from their initialisers with the default palette
copied in; when `parse_options` returns a code `>= 0` that code is returned
at once. -/
def main (strlen_before : Nat → Nat) (fuel : Nat) (env : Env) (argv : List String) :
    Option (Int × List (List (List Char))) :=
  let r := parse_options strlen_before argv initial_globals
  if r.1 ≥ 0 then some (r.1, [])
  else main_loop fuel env ((argv.drop 1).map String.toList) r.2 []

/-! ## Evaluation on concrete runs -/

/-- An all-white source of 8 by 8 pixels with one component per pixel. -/
def white_8x8 : Source :=
  { jpg := { output_width := 8, output_height := 8, out_color_components := 1,
             output_components := 1 },
    scanlines := List.replicate 8 (List.replicate 8 255) }

/-- The configuration `--size=4x4 --chars=01` with no other flag. -/
def config_4x4 : Globals :=
  { width := 4, height := 4, auto_width := 0, auto_height := 0, ascii_palette := ['0', '1'] }

/-- A source one pixel wide and two high: a white pixel above a black one. -/
def white_over_black : Source :=
  { jpg := { output_width := 1, output_height := 2, out_color_components := 1,
             output_components := 1 },
    scanlines := [[255], [0]] }

/-- The configuration `--size=1x2 --chars=01` with no other flag. -/
def config_1x2 : Globals :=
  { width := 1, height := 2, auto_width := 0, auto_height := 0, ascii_palette := ['0', '1'] }

/-- A grid 3 wide and 2 high: the top left cell is white, the cell right of
it mid-grey, every other cell black. -/
def spot_3x2 : Image :=
  { width := 3, height := 2, pixel := fun k => if k = 0 then 1 else if k = 1 then 1 / 2 else 0,
    yadds := fun _ => 1, resize_y := some 1, resize_x := some 1, lookup_resx := fun _ => 0 }

/-- A source four pixels wide and two high: a black row above a white one. -/
def black_over_white_4x2 : Source :=
  { jpg := { output_width := 4, output_height := 2, out_color_components := 1,
             output_components := 1 },
    scanlines := [[0, 0, 0, 0], [255, 255, 255, 255]] }

/-- The configuration `--width=4 --chars=01` once the height is resolved
to 1. -/
def config_4x1 : Globals :=
  { width := 4, height := 1, auto_width := 0, auto_height := 2, ascii_palette := ['0', '1'] }

/-- An environment with one file, `a.jpg`, holding the all-white 8x8 image. -/
def one_file_env : Env :=
  { stdin := white_8x8,
    fopen := fun name => if name = "a.jpg".toList then some white_8x8 else none }

/-- A black source one pixel wide and 130 high. -/
def black_1x130 : Source :=
  { jpg := { output_width := 1, output_height := 130, out_color_components := 1,
             output_components := 1 },
    scanlines := List.replicate 130 [0] }

/-- The configuration `--size=1x8454210 --chars=01` with no other flag. -/
def config_1x8454210 : Globals :=
  { width := 1, height := 8454210, auto_width := 0, auto_height := 0,
    ascii_palette := ['0', '1'] }

/-- A black source one pixel wide and 132 high. -/
def black_1x132 : Source :=
  { jpg := { output_width := 1, output_height := 132, out_color_components := 1,
             output_components := 1 },
    scanlines := List.replicate 132 [0] }

/-- The configuration `--size=1x4292729 --chars=01` with no other flag. -/
def config_1x4292729 : Globals :=
  { width := 1, height := 4292729, auto_width := 0, auto_height := 0,
    ascii_palette := ['0', '1'] }

/-- A black source one pixel wide and 23 high. -/
def black_1x23 : Source :=
  { jpg := { output_width := 1, output_height := 23, out_color_components := 1,
             output_components := 1 },
    scanlines := List.replicate 23 [0] }

/-- The configuration `--size=1x14 --chars=01` with no other flag. -/
def config_1x14 : Globals :=
  { width := 1, height := 14, auto_width := 0, auto_height := 0, ascii_palette := ['0', '1'] }

/-- A white source two pixels wide and two high. -/
def white_2x2 : Source :=
  { jpg := { output_width := 2, output_height := 2, out_color_components := 1,
             output_components := 1 },
    scanlines := [[255, 255], [255, 255]] }

/-- The configuration `--size=82x2 --chars=01` with no other flag. -/
def config_82x2 : Globals :=
  { width := 82, height := 2, auto_width := 0, auto_height := 0, ascii_palette := ['0', '1'] }

/-- A white source two pixels wide and one high. -/
def white_2x1 : Source :=
  { jpg := { output_width := 2, output_height := 1, out_color_components := 1,
             output_components := 1 },
    scanlines := [[255, 255]] }

/-- The configuration `--size=2x1 --chars=01` with no other flag. -/
def config_2x1 : Globals :=
  { width := 2, height := 1, auto_width := 0, auto_height := 0, ascii_palette := ['0', '1'] }

/-- The lines `decompress` writes, when it returns. -/
def decompress_lines (fuel : Nat) (src : Source) (g : Globals) : Option (List String) :=
  (decompress fuel src g).map fun r => r.2.map String.mk

/-! ## Vocabulary of the statements -/

/-- The grid cells of an image lie in [0,1]. -/
def cells_in_unit (i : Image) : Prop :=
  ∀ r c : Int, 0 ≤ r → r < i.height → 0 ≤ c → c < i.width →
    0 ≤ i.pixel (r * i.width + c) ∧ i.pixel (r * i.width + c) ≤ 1

/-- The intensity `store_intensity` adds to a cell of destination column `x`
from the scanline `scanline`, for the column map `lookup_resx`. -/
def column_intensity (jpg : JpegInfo) (scanline : List Nat) (lookup_resx : Int → Int)
    (x : Int) : ℚ :=
  store_intensity (fun c => sample scanline (lookup_resx x + c)) 0 jpg.out_color_components

/-- The fields of an image that the accumulator never writes. -/
def same_frame (a b : Image) : Prop :=
  a.width = b.width ∧ a.height = b.height ∧ a.resize_y = b.resize_y ∧
    a.resize_x = b.resize_x ∧ a.lookup_resx = b.lookup_resx

/-- Every cell sum of the grid lies between 0 and the count of its row. -/
def sums_bounded (i : Image) : Prop :=
  ∀ r c : Int, 0 ≤ c ∧ c < i.width →
    0 ≤ i.pixel (r * i.width + c) ∧ i.pixel (r * i.width + c) ≤ (i.yadds r : ℚ)

/-- Every sample of every scanline of the source is an 8-bit value. -/
def samples_8bit (src : Source) : Prop :=
  ∀ scanline ∈ src.scanlines, ∀ v ∈ scanline, v ≤ 255

instance (src : Source) : Decidable (samples_8bit src) := by
  unfold samples_8bit
  infer_instance

/-- The destination row `process_scanline` computes for source row `s` under
the row scale `resize_y`. -/
def row_of (resize_y : CFloat) (s : Nat) : Int :=
  ROUND_float (float_mul resize_y (float_of_int (s : Int)))

/-- The value of the cursor `lasty` when source row `s` is processed, for a
cursor that starts from `l0` at the first row. -/
def cursor_before (resize_y : CFloat) (l0 : Int) (s : Nat) : Int :=
  if s = 0 then l0 else row_of resize_y (s - 1)

/-- Source row `s` is accumulated into destination row `r`. -/
def contributes (resize_y : CFloat) (l0 : Int) (s : Nat) (r : Int) : Prop :=
  cursor_before resize_y l0 s ≤ r ∧ r ≤ row_of resize_y s

instance (resize_y : CFloat) (l0 : Int) (s : Nat) (r : Int) :
    Decidable (contributes resize_y l0 s r) := by
  unfold contributes
  infer_instance

/-- The intensity of the source pixel at row `r`, column `c`: what
`store_intensity` computes from the samples of that pixel. -/
def source_intensity (src : Source) (r c : Nat) : ℚ :=
  store_intensity
    (fun k => sample (src.scanlines.getD r []) ((c : Int) * src.jpg.out_color_components + k))
    0 src.jpg.out_color_components

/-- Any sequence of `process_scanline` calls, each with its own descriptor
and scanline buffer, run in order from a cursor and an image. -/
def process_scanlines (calls : List (JpegInfo × List Nat)) (st : Int × Image) : Int × Image :=
  calls.foldl (fun st call => process_scanline call.1 call.2 st) st

/-- The cursor and the image when source row `s` is about to be processed,
while `accumulate` consumes the scanlines in order. -/
def state_before (src : Source) (g : Globals) (s : Nat) : Int × Image :=
  read_scanlines src s (g.lasty, init_image (clear (malloc_image g).1) src.jpg)

/-- Row `r` is written by the call of `process_scanline` from the state `st`:
the call changes `yadds[r]`.  Every pass of the loop `while ( lasty <= y )`
stores to the cells `pixel[lasty * width + x]` of its row `lasty` and then
increments `yadds[lasty]`, and nothing else touches `yadds`. -/
def row_written (jpg : JpegInfo) (scanline : List Nat) (st : Int × Image) (r : Int) : Prop :=
  (process_scanline jpg scanline st).2.yadds r ≠ st.2.yadds r

instance (jpg : JpegInfo) (scanline : List Nat) (st : Int × Image) (r : Int) :
    Decidable (row_written jpg scanline st r) := by
  unfold row_written
  infer_instance

/-! ## Rounding -/

theorem c_int_of_nonneg {x : ℚ} (h : 0 ≤ x) : c_int x = ⌊x⌋ := by
  simp [c_int, h]

theorem ROUND_of_nonneg {x : ℚ} (h : 0 ≤ x) : ROUND x = ⌊x + 1 / 2⌋ := by
  have h2 : (0 : ℚ) ≤ 1 / 2 + x := by positivity
  rw [ROUND, c_int_of_nonneg h2, add_comm]

theorem ROUND_nonneg {x : ℚ} (h : 0 ≤ x) : 0 ≤ ROUND x := by
  rw [ROUND_of_nonneg h]
  exact Int.floor_nonneg.mpr (by positivity)

theorem ROUND_mono {x y : ℚ} (hx : 0 ≤ x) (hxy : x ≤ y) : ROUND x ≤ ROUND y := by
  rw [ROUND_of_nonneg hx, ROUND_of_nonneg (hx.trans hxy)]
  exact Int.floor_mono (by linarith)

theorem ROUND_intCast {n : Int} (h : 0 ≤ n) : ROUND (n : ℚ) = n := by
  have h0 : (0 : ℚ) ≤ (n : ℚ) := by exact_mod_cast h
  rw [ROUND_of_nonneg h0, Int.floor_eq_iff]
  constructor <;> linarith

theorem ROUND_le_of_le {x : ℚ} {n : Int} (h : 0 ≤ x) (hx : x ≤ n) : ROUND x ≤ n := by
  have hn : (0 : ℚ) ≤ (n : ℚ) := h.trans hx
  have hn2 : 0 ≤ n := by exact_mod_cast hn
  calc ROUND x ≤ ROUND (n : ℚ) := ROUND_mono h hx
    _ = n := ROUND_intCast hn2

/-! ## Single precision -/

theorem bit_length_zero (fuel : Nat) : bit_length fuel 0 = 0 := by
  cases fuel <;> simp [bit_length]

theorem bit_length_spec (fuel n : Nat) (h : n ≤ fuel) (hn : n ≠ 0) :
    2 ^ (bit_length fuel n - 1) ≤ n ∧ n < 2 ^ bit_length fuel n := by
  induction fuel generalizing n with
  | zero => omega
  | succ f ih =>
    rw [bit_length, if_neg hn]
    by_cases h2 : n / 2 = 0
    · have h1 : n = 1 := by omega
      subst h1
      simp [bit_length_zero]
    · obtain ⟨ih1, ih2⟩ := ih (n / 2) (by omega) h2
      have hL : 1 ≤ bit_length f (n / 2) := by
        by_contra hc
        have h0 : bit_length f (n / 2) = 0 := by omega
        rw [h0] at ih2
        omega
      obtain ⟨L, hL'⟩ : ∃ L, bit_length f (n / 2) = L + 1 := ⟨bit_length f (n / 2) - 1, by omega⟩
      rw [hL'] at ih1 ih2 ⊢
      simp only [Nat.add_sub_cancel] at ih1 ⊢
      rw [pow_succ] at ih2 ⊢
      rw [pow_succ]
      constructor <;> omega

theorem binade_le {x : ℚ} (hx : x ≠ 0) : (2 : ℚ) ^ binade x ≤ |x| := by
  have ha : x.num.natAbs ≠ 0 := by
    simpa using hx
  have hb : x.den ≠ 0 := x.den_nz
  obtain ⟨ha1, -⟩ := bit_length_spec _ _ (le_refl _) ha
  obtain ⟨-, hb2⟩ := bit_length_spec _ _ (le_refl _) hb
  unfold binade
  simp only
  split_ifs with h
  · exact h
  · have hla : 1 ≤ bit_length x.num.natAbs x.num.natAbs := by
      by_contra hc
      have h0 : bit_length x.num.natAbs x.num.natAbs = 0 := by omega
      have := (bit_length_spec _ _ (le_refl _) ha).2
      rw [h0] at this
      omega
    have habs : |x| = (x.num.natAbs : ℚ) / (x.den : ℚ) := by
      rw [Rat.abs_def, Rat.divInt_eq_div]
      simp [Nat.cast_natAbs]
    have e1 : ((bit_length x.num.natAbs x.num.natAbs : ℕ) : ℤ) - (bit_length x.den x.den : ℕ) - 1
        = ((bit_length x.num.natAbs x.num.natAbs - 1 : ℕ) : ℤ) - ((bit_length x.den x.den : ℕ) : ℤ) := by
      omega
    rw [e1, zpow_sub₀ (by norm_num), zpow_natCast, zpow_natCast, habs]
    have h1 : ((2 : ℚ) ^ (bit_length x.num.natAbs x.num.natAbs - 1)) ≤ (x.num.natAbs : ℚ) := by
      exact_mod_cast ha1
    have h2 : (x.den : ℚ) ≤ (2 : ℚ) ^ (bit_length x.den x.den) := by
      exact_mod_cast hb2.le
    have h3 : (0 : ℚ) < x.den := by exact_mod_cast Nat.pos_of_ne_zero hb
    exact div_le_div₀ (by positivity) h1 h3 h2

theorem round_half_even_err (q : ℚ) : |(round_half_even q : ℚ) - q| ≤ 1 / 2 := by
  have h1 := Int.floor_le q
  have h2 := Int.lt_floor_add_one q
  unfold round_half_even
  simp only
  rw [abs_le]
  split_ifs <;> push_cast <;> constructor <;> linarith

theorem round_half_even_intCast (n : Int) : round_half_even (n : ℚ) = n := by
  unfold round_half_even
  simp

theorem round_half_even_nonneg {q : ℚ} (h : 0 ≤ q) : 0 ≤ round_half_even q := by
  have h1 : 0 ≤ ⌊q⌋ := Int.floor_nonneg.mpr h
  unfold round_half_even
  simp only
  split_ifs <;> omega

theorem f32_zero : f32 0 = 0 := by simp [f32]

theorem f32_nonneg {x : ℚ} (h : 0 ≤ x) : 0 ≤ f32 x := by
  unfold f32
  split_ifs
  · exact le_refl _
  · simp only
    have : (0 : ℚ) ≤ (round_half_even (x / 2 ^ (max (binade x) (-126) - 23)) : ℚ) := by
      exact_mod_cast round_half_even_nonneg (by positivity)
    positivity

/-- The rounding error is at most half a unit in the last place. -/
theorem f32_err (x : ℚ) : |f32 x - x| ≤ |x| / 2 ^ 24 + 1 / 2 ^ 150 := by
  by_cases hx : x = 0
  · subst hx
    simp [f32_zero]
  · unfold f32
    rw [if_neg hx]
    simp only
    set e := max (binade x) (-126) with he
    have hu : (0 : ℚ) < 2 ^ (e - 23) := by positivity
    have h1 := round_half_even_err (x / 2 ^ (e - 23))
    have h2 : (round_half_even (x / 2 ^ (e - 23)) : ℚ) * 2 ^ (e - 23) - x
        = ((round_half_even (x / 2 ^ (e - 23)) : ℚ) - x / 2 ^ (e - 23)) * 2 ^ (e - 23) := by
      field_simp
    rw [h2, abs_mul, abs_of_pos hu]
    have h3 : (2 : ℚ) ^ (e - 23) / 2 ≤ |x| / 2 ^ 24 + 1 / 2 ^ 150 := by
      have e2 : (2 : ℚ) ^ (e - 23) / 2 = 2 ^ e / 2 ^ 24 := by
        rw [zpow_sub₀ (by norm_num)]
        norm_num
        ring
      rw [e2]
      rcases max_cases (binade x) (-126) with ⟨hm, -⟩ | ⟨hm, -⟩
      · rw [he, hm]
        have := binade_le hx
        have : (2 : ℚ) ^ binade x / 2 ^ 24 ≤ |x| / 2 ^ 24 := by gcongr
        have : (0 : ℚ) ≤ 1 / 2 ^ 150 := by positivity
        linarith
      · rw [he, hm]
        have : (2 : ℚ) ^ (-126 : ℤ) / 2 ^ 24 = 1 / 2 ^ 150 := by norm_num
        rw [this]
        have : (0 : ℚ) ≤ |x| / 2 ^ 24 := by positivity
        linarith
    calc |(round_half_even (x / 2 ^ (e - 23)) : ℚ) - x / 2 ^ (e - 23)| * 2 ^ (e - 23)
        ≤ 1 / 2 * 2 ^ (e - 23) := by gcongr
      _ = 2 ^ (e - 23) / 2 := by ring
      _ ≤ _ := h3

/-- In the normal range the rounding error is relative. -/
theorem f32_rel {x : ℚ} (hx : 1 / 2 ^ 126 ≤ |x|) : |f32 x - x| ≤ |x| / 2 ^ 24 := by
  have hx0 : x ≠ 0 := by
    intro h
    rw [h] at hx
    norm_num at hx
  unfold f32
  rw [if_neg hx0]
  simp only
  set e := max (binade x) (-126) with he
  have hu : (0 : ℚ) < 2 ^ (e - 23) := by positivity
  have h1 := round_half_even_err (x / 2 ^ (e - 23))
  have h2 : (round_half_even (x / 2 ^ (e - 23)) : ℚ) * 2 ^ (e - 23) - x
      = ((round_half_even (x / 2 ^ (e - 23)) : ℚ) - x / 2 ^ (e - 23)) * 2 ^ (e - 23) := by
    field_simp
  rw [h2, abs_mul, abs_of_pos hu]
  have h3 : (2 : ℚ) ^ (e - 23) / 2 ≤ |x| / 2 ^ 24 := by
    have e2 : (2 : ℚ) ^ (e - 23) / 2 = 2 ^ e / 2 ^ 24 := by
      rw [zpow_sub₀ (by norm_num)]
      norm_num
      ring
    rw [e2]
    rcases max_cases (binade x) (-126) with ⟨hm, -⟩ | ⟨hm, -⟩
    · rw [he, hm]
      have := binade_le hx0
      gcongr
    · rw [he, hm]
      have : (2 : ℚ) ^ (-126 : ℤ) = 1 / 2 ^ 126 := by norm_num
      rw [this]
      gcongr
  calc |(round_half_even (x / 2 ^ (e - 23)) : ℚ) - x / 2 ^ (e - 23)| * 2 ^ (e - 23)
      ≤ 1 / 2 * 2 ^ (e - 23) := by gcongr
    _ = 2 ^ (e - 23) / 2 := by ring
    _ ≤ _ := h3

/-- A value `m / 2^j` with a significand of at most 24 bits is not rounded. -/
theorem f32_exact (m : Int) (j : Nat) (hm : |m| < 2 ^ 24) (hj : j ≤ 100) :
    f32 ((m : ℚ) / 2 ^ j) = (m : ℚ) / 2 ^ j := by
  by_cases hx : (m : ℚ) / 2 ^ j = 0
  · rw [hx, f32_zero]
  · unfold f32
    rw [if_neg hx]
    simp only
    set x := (m : ℚ) / 2 ^ j with hxdef
    set e := max (binade x) (-126) with he
    have hb := binade_le hx
    have hxlt : |x| < (2 : ℚ) ^ ((24 : ℤ) - j) := by
      rw [hxdef, abs_div, abs_of_pos (by positivity : (0:ℚ) < 2 ^ j), zpow_sub₀ (by norm_num),
        zpow_natCast]
      have : |(m : ℚ)| < 2 ^ 24 := by exact_mod_cast hm
      have h24 : (2 : ℚ) ^ (24 : ℤ) = 2 ^ 24 := by norm_num
      rw [h24]
      gcongr
    have hblt : binade x < 24 - j := by
      have := lt_of_le_of_lt hb hxlt
      exact (zpow_lt_zpow_iff_right₀ (by norm_num : (1 : ℚ) < 2)).mp this
    have hele : e ≤ 23 - j := by
      rw [he]
      apply max_le <;> omega
    obtain ⟨k, hk⟩ : ∃ k : ℕ, (23 : ℤ) - j - e = k := ⟨(23 - j - e).toNat, by omega⟩
    have hdiv : x / 2 ^ (e - 23) = ((m * 2 ^ k : Int) : ℚ) := by
      have e3 : e - 23 = -((j : ℤ) + k) := by omega
      rw [e3, zpow_neg, hxdef, zpow_add₀ (by norm_num), zpow_natCast, zpow_natCast]
      push_cast
      field_simp
      ring
    rw [hdiv, round_half_even_intCast, ← hdiv]
    have hu : (2 : ℚ) ^ (e - 23) ≠ 0 := by positivity
    exact div_mul_cancel₀ x hu

/-- The binary exponent is the true one: `|x| < 2^(e+1)`. -/
theorem binade_lt {x : ℚ} (hx : x ≠ 0) : |x| < (2 : ℚ) ^ (binade x + 1) := by
  have ha : x.num.natAbs ≠ 0 := by
    simpa using hx
  have hb : x.den ≠ 0 := x.den_nz
  obtain ⟨-, ha2⟩ := bit_length_spec _ _ (le_refl _) ha
  obtain ⟨hb1, hb2⟩ := bit_length_spec _ _ (le_refl _) hb
  unfold binade
  simp only
  split_ifs with h
  · have hlb : 1 ≤ bit_length x.den x.den := by
      by_contra hc
      have h0 : bit_length x.den x.den = 0 := by omega
      rw [h0] at hb2
      omega
    have habs : |x| = (x.num.natAbs : ℚ) / (x.den : ℚ) := by
      rw [Rat.abs_def, Rat.divInt_eq_div]
      simp [Nat.cast_natAbs]
    have e1 : ((bit_length x.num.natAbs x.num.natAbs : ℕ) : ℤ) - (bit_length x.den x.den : ℕ) + 1
        = ((bit_length x.num.natAbs x.num.natAbs : ℕ) : ℤ) - ((bit_length x.den x.den - 1 : ℕ) : ℤ) := by
      omega
    rw [e1, zpow_sub₀ (by norm_num), zpow_natCast, zpow_natCast, habs]
    have h1 : (x.num.natAbs : ℚ) < (2 : ℚ) ^ (bit_length x.num.natAbs x.num.natAbs) := by
      exact_mod_cast ha2
    have h2 : (2 : ℚ) ^ (bit_length x.den x.den - 1) ≤ (x.den : ℚ) := by
      exact_mod_cast hb1
    have h3 : (0 : ℚ) < (2 : ℚ) ^ (bit_length x.den x.den - 1) := by positivity
    exact div_lt_div₀ h1 h2 (by positivity) h3
  · rw [sub_add_cancel]
    exact not_le.mp h

theorem f32_abs_le (x : ℚ) : |f32 x| ≤ |x| + |x| / 2 ^ 24 + 1 / 2 ^ 150 := by
  have h := f32_err x
  have h2 : |f32 x| ≤ |f32 x - x| + |x| := by
    have := abs_add (f32 x - x) x
    simpa using this
  linarith

theorem round32_eq {x : ℚ} (h : |x| ≤ 2 ^ 100) : round32 x = some (f32 x) := by
  unfold round32
  rw [if_pos]
  have h1 := f32_abs_le x
  have h2 : |x| / 2 ^ 24 ≤ 2 ^ 100 := by
    have : (0 : ℚ) ≤ |x| := abs_nonneg x
    rw [div_le_iff₀ (by positivity)]
    nlinarith
  unfold FLT_MAX
  have h3 : (1 : ℚ) / 2 ^ 150 ≤ 1 := by
    rw [div_le_one (by positivity)]
    exact one_le_pow₀ (by norm_num)
  have h4 : (2 : ℚ) ^ 100 + 2 ^ 100 + 1 ≤ (2 ^ 24 - 1) * 2 ^ 104 := by norm_num
  linarith

theorem round32_exact (m : Int) (j : Nat) (hm : |m| < 2 ^ 24) (hj : j ≤ 100) :
    round32 ((m : ℚ) / 2 ^ j) = some ((m : ℚ) / 2 ^ j) := by
  rw [round32_eq, f32_exact m j hm hj]
  rw [abs_div, abs_of_pos (by positivity : (0 : ℚ) < 2 ^ j)]
  have h1 : |(m : ℚ)| < 2 ^ 24 := by exact_mod_cast hm
  have h2 : (1 : ℚ) ≤ 2 ^ j := one_le_pow₀ (by norm_num)
  have h3 : |(m : ℚ)| / 2 ^ j ≤ |(m : ℚ)| := div_le_self (abs_nonneg _) h2
  have h4 : (2 : ℚ) ^ 24 ≤ 2 ^ 100 := by norm_num
  linarith

theorem round32_intCast (n : Int) (h : |n| < 2 ^ 24) : round32 (n : ℚ) = some (n : ℚ) := by
  have := round32_exact n 0 h (by omega)
  simpa using this

theorem float_of_int_exact (n : Int) (h : |n| < 2 ^ 24) : float_of_int n = some (n : ℚ) :=
  round32_intCast n h

theorem round32_zero : round32 0 = some 0 := by
  have := round32_intCast 0 (by norm_num)
  simpa using this

/-- A result in the normal range is rounded with a relative error of at most
`2^-24`. -/
theorem round32_spec {x : ℚ} (h0 : x = 0 ∨ 1 / 2 ^ 126 ≤ x) (h1 : x ≤ 2 ^ 100) :
    ∃ y, round32 x = some y ∧ x * (1 - 1 / 2 ^ 24) ≤ y ∧ y ≤ x * (1 + 1 / 2 ^ 24) := by
  rcases h0 with h0 | h0
  · subst h0
    exact ⟨0, round32_zero, by norm_num, by norm_num⟩
  · have hpos : (0 : ℚ) < x := lt_of_lt_of_le (by positivity) h0
    have habs : |x| = x := abs_of_pos hpos
    refine ⟨f32 x, round32_eq (by rw [habs]; exact h1), ?_, ?_⟩
    · have := f32_rel (by rw [habs]; exact h0)
      rw [habs, abs_le] at this
      linarith [this.1]
    · have := f32_rel (by rw [habs]; exact h0)
      rw [habs, abs_le] at this
      linarith [this.2]

theorem int_of_float_floor {x : ℚ} (h0 : 0 ≤ x) (h1 : x < 2 ^ 31) :
    int_of_float (some x) = ⌊x⌋ := by
  have hc : c_int x = ⌊x⌋ := by simp [c_int, h0]
  have hf0 : 0 ≤ ⌊x⌋ := Int.floor_nonneg.mpr h0
  have hf1 : ⌊x⌋ < 2 ^ 31 := by
    have : ⌊x⌋ < ((2 ^ 31 : Int)) := Int.floor_lt.mpr (by push_cast; exact h1)
    exact this
  unfold int_of_float
  simp only [hc]
  rw [if_pos]
  unfold INT_MIN INT_MAX
  constructor <;> omega

theorem wrap_int_id (x : Int) (h0 : -2 ^ 31 ≤ x) (h1 : x < 2 ^ 31) : wrap_int x = x := by
  unfold wrap_int
  omega

/-- `ROUND` of a finite single-precision value within the range of `int`. -/
theorem ROUND_float_some {v : ℚ} (h0 : 0 ≤ v) (h1 : v ≤ 2 ^ 31 - 2 ^ 9) :
    0 ≤ ROUND_float (some v) ∧
      (ROUND_float (some v) : ℚ) ≤ (1 / 2 + v) * (1 + 1 / 2 ^ 24) ∧
      (1 / 2 + v) * (1 - 1 / 2 ^ 24) - 1 < (ROUND_float (some v) : ℚ) := by
  obtain ⟨a, ha, hlo, hhi⟩ := round32_spec (x := 1 / 2 + v)
    (Or.inr (by
      have : (1 : ℚ) / 2 ^ 126 ≤ 1 / 2 := by norm_num
      linarith))
    (by
      have : (2 : ℚ) ^ 31 ≤ 2 ^ 100 - 1 := by norm_num
      linarith)
  have ha0 : 0 ≤ a := by
    have : (0 : ℚ) ≤ (1 / 2 + v) * (1 - 1 / 2 ^ 24) := by
      apply mul_nonneg
      · linarith
      · norm_num
    linarith
  have ha1 : a < 2 ^ 31 := by
    have e : (1 / 2 + v) * (1 + 1 / 2 ^ 24) ≤ (1 / 2 + (2 ^ 31 - 2 ^ 9)) * (1 + 1 / 2 ^ 24) := by
      apply mul_le_mul_of_nonneg_right
      · linarith
      · norm_num
    have e2 : ((1 : ℚ) / 2 + (2 ^ 31 - 2 ^ 9)) * (1 + 1 / 2 ^ 24) < 2 ^ 31 := by norm_num
    linarith
  have hr : ROUND_float (some v) = ⌊a⌋ := by
    unfold ROUND_float float_add
    simp only
    rw [ha, int_of_float_floor ha0 ha1]
  rw [hr]
  refine ⟨Int.floor_nonneg.mpr ha0, ?_, ?_⟩
  · have := Int.floor_le a
    linarith
  · have := Int.lt_floor_add_one a
    linarith

/-! ## Theorems on concrete runs -/

/-- C1: on an all-white 8x8 source with target 4x4, palette "01" and no flag,
`decompress` writes four lines "0000": a white pixel is rendered with the
leftmost palette character, not with the rightmost one. -/
theorem white_renders_leftmost :
    decompress_lines 1 white_8x8 config_4x4 = some ["0000", "0000", "0000", "0000"] := by
  decide!

/-- C4: converting the same 1x2 image twice in one run under `--size=1x2
--chars=01` writes "0", "1" the first time and "1", "1" the second time: the
row cursor left by the first conversion changes the second. -/
theorem second_image_differs :
    decompress_lines 1 white_over_black config_1x2 = some ["0", "1"] ∧
      ((decompress 1 white_over_black config_1x2).bind fun r =>
          decompress_lines 1 white_over_black r.1) = some ["1", "1"] := by
  decide!

/-- C5: on the arguments `--width=0 --height=0 a.jpg`, which name a file and set
both target dimensions explicitly to 0, `parse_options` returns -1 (parsing OK)
and leaves both automatic flags non-zero. -/
theorem parse_options_accepts_zero_width_height (strlen_before : Nat → Nat) :
    (parse_options strlen_before ["jp2a", "--width=0", "--height=0", "a.jpg"] initial_globals)
      = (-1, { initial_globals with width := 0, height := 0, auto_width := 1, auto_height := 2 }) := by
  rfl

/-- C6 as stated fails: for target width 3 the border line is "+---+", with
three dashes, and not "+-----+". -/
theorem print_border_3_not_five_dashes :
    print_border 3 = "+---+".toList ∧ print_border 3 ≠ "+-----+".toList := by
  decide

/-- For a white source one row high under `--size=2x1 --chars=01` the row
scale is not finite and the destination row is `INT_MIN`: no row is
accumulated, and both cells are written as intensity 0. -/
theorem single_row_source_lines :
    decompress_lines 1 white_2x1 config_2x1 = some ["11"] := by
  decide!

/-- For a target of 65536 by 65536 cells the `int` product of the dimensions
wraps to 0, and `malloc_image` requests 0 bytes for the cells. -/
theorem malloc_image_product_wraps :
    (malloc_image { initial_globals with width := 65536, height := 65536 }).2.pixel = 0 := by
  decide

/-! ## Aspect ratio resolver -/

theorem calc_while_width_done (fuel : Nat) (jw jh : Int) (g : Globals) (h : g.width ≠ 0) :
    calc_while_width (fuel + 1) jw jh g = some g := by
  simp [calc_while_width, h]

theorem calc_while_height_done (fuel : Nat) (jw jh : Int) (g : Globals) (h : g.height ≠ 0) :
    calc_while_height (fuel + 1) jw jh g = some g := by
  simp [calc_while_height, h]

theorem calc_aspect_ratio_explicit (fuel : Nat) (jw jh : Int) (g : Globals)
    (h1 : ¬ (g.auto_width ≠ 0 ∧ g.auto_height = 0))
    (h2 : ¬ (g.auto_width = 0 ∧ g.auto_height ≠ 0)) :
    calc_aspect_ratio (fuel + 1) jw jh g = some g := by
  simp only [calc_aspect_ratio, if_neg h1, if_neg h2]

theorem calc_aspect_ratio_auto_width (jw jh : Int) (k : Nat) :
    ∀ (g : Globals) (fuel : Nat), g.auto_width ≠ 0 → g.auto_height = 0 →
      -2 ^ 31 ≤ g.height → g.height + k < 2 ^ 31 →
      (∀ j : Nat, j < k → derived_width (g.height + j) jw jh = 0) →
      derived_width (g.height + k) jw jh ≠ 0 →
      2 * k + 2 ≤ fuel →
      calc_aspect_ratio fuel jw jh g =
        some { g with height := g.height + k,
                      width := derived_width (g.height + k) jw jh } := by
  induction k with
  | zero =>
    intro g fuel haw hah _ _ _ hk hf
    obtain ⟨f, rfl⟩ : ∃ f, fuel = f + 2 := ⟨fuel - 2, by omega⟩
    simp only [Nat.cast_zero, add_zero] at hk ⊢
    simp only [calc_aspect_ratio, haw, hah, ne_eq, not_false_eq_true, and_self, if_true]
    rw [calc_while_width_done f jw jh _ hk]
    simp [haw]
  | succ k ih =>
    intro g fuel haw hah hlo hhi hz hk hf
    obtain ⟨f, rfl⟩ : ∃ f, fuel = f + 3 := ⟨fuel - 3, by omega⟩
    have h0 := hz 0 (by omega)
    simp only [Nat.cast_zero, add_zero] at h0
    have hwrap : wrap_int (g.height + 1) = g.height + 1 :=
      wrap_int_id _ (by omega) (by push_cast at hhi; omega)
    have hk1 : derived_width (g.height + 1 + k) jw jh ≠ 0 := by
      simpa [add_assoc, add_comm 1 (k : Int)] using hk
    have hstep := ih { g with width := 0, height := g.height + 1 } (f + 1) haw hah
      (by dsimp only; omega) (by dsimp only; push_cast at hhi; omega)
      (by
        intro j hj
        have := hz (j + 1) (by omega)
        simpa [add_assoc, add_comm 1 (j : Int)] using this)
      hk1 (by omega)
    simp only [calc_aspect_ratio, haw, hah, ne_eq, not_false_eq_true, and_self, if_true, h0]
    rw [calc_while_width]
    dsimp only at hstep ⊢
    simp only [hah] at hstep
    rw [if_pos rfl, hwrap, hstep]
    dsimp only
    rw [calc_while_width_done f jw jh _ hk1]
    simp [haw, hah, add_assoc, add_comm 1 (k : Int)]

theorem calc_aspect_ratio_auto_height (jw jh : Int) (k : Nat) :
    ∀ (g : Globals) (fuel : Nat), g.auto_width = 0 → g.auto_height ≠ 0 →
      -2 ^ 31 ≤ g.width → g.width + k < 2 ^ 31 →
      (∀ j : Nat, j < k → derived_height (g.width + j) jw jh = 0) →
      derived_height (g.width + k) jw jh ≠ 0 →
      2 * k + 2 ≤ fuel →
      calc_aspect_ratio fuel jw jh g =
        some { g with width := g.width + k,
                      height := derived_height (g.width + k) jw jh } := by
  induction k with
  | zero =>
    intro g fuel haw hah _ _ _ hk hf
    obtain ⟨f, rfl⟩ : ∃ f, fuel = f + 2 := ⟨fuel - 2, by omega⟩
    simp only [Nat.cast_zero, add_zero] at hk ⊢
    simp only [calc_aspect_ratio, haw, hah, ne_eq, not_true_eq_false, false_and, if_false,
      not_false_eq_true, and_self, if_true]
    rw [calc_while_height_done f jw jh _ hk]
  | succ k ih =>
    intro g fuel haw hah hlo hhi hz hk hf
    obtain ⟨f, rfl⟩ : ∃ f, fuel = f + 3 := ⟨fuel - 3, by omega⟩
    have h0 := hz 0 (by omega)
    simp only [Nat.cast_zero, add_zero] at h0
    have hwrap : wrap_int (g.width + 1) = g.width + 1 :=
      wrap_int_id _ (by omega) (by push_cast at hhi; omega)
    have hk1 : derived_height (g.width + 1 + k) jw jh ≠ 0 := by
      simpa [add_assoc, add_comm 1 (k : Int)] using hk
    have hstep := ih { g with height := 0, width := g.width + 1 } (f + 1) haw hah
      (by dsimp only; omega) (by dsimp only; push_cast at hhi; omega)
      (by
        intro j hj
        have := hz (j + 1) (by omega)
        simpa [add_assoc, add_comm 1 (j : Int)] using this)
      hk1 (by omega)
    simp only [calc_aspect_ratio, haw, hah, ne_eq, not_true_eq_false, false_and, if_false,
      not_false_eq_true, and_self, if_true, h0]
    rw [calc_while_height]
    dsimp only at hstep ⊢
    simp only [haw] at hstep
    rw [if_pos rfl, hwrap, hstep]
    dsimp only
    rw [calc_while_height_done f jw jh _ hk1]
    simp [haw, add_assoc, add_comm 1 (k : Int)]

/-- `ROUND` of the single-precision quotient `a * b / c` of a value `a` that
is not rounded and two integers within the JPEG dimension limit: the result
lies within the rounding errors of the product, the quotient and the sum. -/
theorem ROUND_float_quotient (a : ℚ) (b c : Int) (ha : a = 0 ∨ 1 / 2 ≤ a) (ha2 : a ≤ 2 ^ 24)
    (hb1 : 1 ≤ b) (hb2 : b ≤ 65500) (hc1 : 1 ≤ c) (hc2 : c ≤ 65500)
    (hX : a * (b : ℚ) / (c : ℚ) ≤ 2 ^ 31 - 2 ^ 10) :
    0 ≤ ROUND_float (float_div (float_mul (some a) (float_of_int b)) (float_of_int c)) ∧
      (ROUND_float (float_div (float_mul (some a) (float_of_int b)) (float_of_int c)) : ℚ) ≤
        (1 / 2 + a * (b : ℚ) / (c : ℚ) * (1 + 1 / 2 ^ 24) ^ 2) * (1 + 1 / 2 ^ 24) ∧
      (1 / 2 + a * (b : ℚ) / (c : ℚ) * (1 - 1 / 2 ^ 24) ^ 2) * (1 - 1 / 2 ^ 24) - 1 <
        (ROUND_float (float_div (float_mul (some a) (float_of_int b)) (float_of_int c)) : ℚ) := by
  have hbq1 : (1 : ℚ) ≤ (b : ℚ) := by exact_mod_cast hb1
  have hbq2 : (b : ℚ) ≤ 65500 := by exact_mod_cast hb2
  have hcq1 : (1 : ℚ) ≤ (c : ℚ) := by exact_mod_cast hc1
  have hcq2 : (c : ℚ) ≤ 65500 := by exact_mod_cast hc2
  have hcpos : (0 : ℚ) < (c : ℚ) := by linarith
  have ha0 : 0 ≤ a := by
    rcases ha with h | h
    · rw [h]
    · linarith
  have hfb : float_of_int b = some (b : ℚ) := float_of_int_exact b (by rw [abs_lt]; omega)
  have hfc : float_of_int c = some (c : ℚ) := float_of_int_exact c (by rw [abs_lt]; omega)
  have hab0 : 0 ≤ a * (b : ℚ) := by positivity
  obtain ⟨p, hp, hplo, hphi⟩ := round32_spec (x := a * (b : ℚ))
    (by
      rcases ha with h | h
      · left
        rw [h, zero_mul]
      · right
        have : (1 : ℚ) / 2 ^ 126 ≤ 1 / 2 := by norm_num
        nlinarith)
    (by
      have : a * (b : ℚ) ≤ 2 ^ 24 * 65500 := by nlinarith
      have : (2 : ℚ) ^ 24 * 65500 ≤ 2 ^ 100 := by norm_num
      linarith)
  have hp0 : 0 ≤ p := by
    have : (0 : ℚ) ≤ a * (b : ℚ) * (1 - 1 / 2 ^ 24) := mul_nonneg hab0 (by norm_num)
    linarith
  have hpc0 : 0 ≤ p / (c : ℚ) := by positivity
  have hpclo : a * (b : ℚ) / (c : ℚ) * (1 - 1 / 2 ^ 24) ≤ p / (c : ℚ) := by
    rw [div_mul_eq_mul_div]
    exact div_le_div_of_nonneg_right hplo hcpos.le
  have hpchi : p / (c : ℚ) ≤ a * (b : ℚ) / (c : ℚ) * (1 + 1 / 2 ^ 24) := by
    rw [div_mul_eq_mul_div]
    exact div_le_div_of_nonneg_right hphi hcpos.le
  have hX0 : 0 ≤ a * (b : ℚ) / (c : ℚ) := by positivity
  obtain ⟨v, hv, hvlo, hvhi⟩ := round32_spec (x := p / (c : ℚ))
    (by
      rcases ha with h | h
      · left
        have hp00 : p = 0 := by
          rw [h, zero_mul, zero_mul] at hphi
          linarith
        rw [hp00, zero_div]
      · right
        have h1 : (1 : ℚ) / 2 * (1 - 1 / 2 ^ 24) ≤ p := by nlinarith
        have h2 : (1 : ℚ) / 2 * (1 - 1 / 2 ^ 24) / 65500 ≤ p / (c : ℚ) :=
          div_le_div₀ hp0 h1 hcpos hcq2
        have h3 : (1 : ℚ) / 2 ^ 126 ≤ 1 / 2 * (1 - 1 / 2 ^ 24) / 65500 := by norm_num
        linarith)
    (by
      have : (2 : ℚ) ^ 31 * 2 ≤ 2 ^ 100 := by norm_num
      nlinarith)
  have hv0 : 0 ≤ v := by
    have : (0 : ℚ) ≤ p / (c : ℚ) * (1 - 1 / 2 ^ 24) := mul_nonneg hpc0 (by norm_num)
    linarith
  have hvhi2 : v ≤ a * (b : ℚ) / (c : ℚ) * (1 + 1 / 2 ^ 24) ^ 2 := by nlinarith
  have hvlo2 : a * (b : ℚ) / (c : ℚ) * (1 - 1 / 2 ^ 24) ^ 2 ≤ v := by nlinarith
  have hv1 : v ≤ 2 ^ 31 - 2 ^ 9 := by
    have e : a * (b : ℚ) / (c : ℚ) * (1 + 1 / 2 ^ 24) ^ 2 ≤
        (2 ^ 31 - 2 ^ 10) * (1 + 1 / 2 ^ 24) ^ 2 :=
      mul_le_mul_of_nonneg_right hX (by positivity)
    have e2 : ((2 : ℚ) ^ 31 - 2 ^ 10) * (1 + 1 / 2 ^ 24) ^ 2 ≤ 2 ^ 31 - 2 ^ 9 := by norm_num
    linarith
  have hval : float_div (float_mul (some a) (float_of_int b)) (float_of_int c) = some v := by
    rw [hfb, hfc]
    unfold float_mul float_div
    simp only
    rw [hp]
    simp only
    rw [if_neg (ne_of_gt hcpos), hv]
  rw [hval]
  obtain ⟨r0, r1, r2⟩ := ROUND_float_some hv0 hv1
  refine ⟨r0, ?_, ?_⟩
  · have : (1 / 2 + v) * (1 + 1 / 2 ^ 24) ≤
        (1 / 2 + a * (b : ℚ) / (c : ℚ) * (1 + 1 / 2 ^ 24) ^ 2) * (1 + 1 / 2 ^ 24) :=
      mul_le_mul_of_nonneg_right (by linarith) (by norm_num)
    linarith
  · have : (1 / 2 + a * (b : ℚ) / (c : ℚ) * (1 - 1 / 2 ^ 24) ^ 2) * (1 - 1 / 2 ^ 24) ≤
        (1 / 2 + v) * (1 - 1 / 2 ^ 24) :=
      mul_le_mul_of_nonneg_right (by linarith) (by norm_num)
    linarith

/-- The derived width lies within the rounding errors of `2 * h * jw / jh`. -/
theorem derived_width_spec (h jw jh : Int) (hh0 : 0 ≤ h) (hh1 : h < 2 ^ 23)
    (hjw : 1 ≤ jw ∧ jw ≤ 65500) (hjh : 1 ≤ jh ∧ jh ≤ 65500)
    (hX : 2 * (h : ℚ) * (jw : ℚ) / (jh : ℚ) ≤ 2 ^ 31 - 2 ^ 10) :
    0 ≤ derived_width h jw jh ∧
      (derived_width h jw jh : ℚ) ≤
        (1 / 2 + 2 * (h : ℚ) * (jw : ℚ) / (jh : ℚ) * (1 + 1 / 2 ^ 24) ^ 2) * (1 + 1 / 2 ^ 24) ∧
      (1 / 2 + 2 * (h : ℚ) * (jw : ℚ) / (jh : ℚ) * (1 - 1 / 2 ^ 24) ^ 2) * (1 - 1 / 2 ^ 24) - 1 <
        (derived_width h jw jh : ℚ) := by
  have hq0 : (0 : ℚ) ≤ (h : ℚ) := by exact_mod_cast hh0
  have hq1 : (h : ℚ) < 2 ^ 23 := by exact_mod_cast hh1
  have hfh : float_of_int h = some (h : ℚ) := float_of_int_exact h (by rw [abs_lt]; omega)
  have h2h : float_mul (some 2) (float_of_int h) = some (2 * (h : ℚ)) := by
    rw [hfh]
    unfold float_mul
    simp only
    have := round32_intCast (2 * h) (by rw [abs_lt]; omega)
    push_cast at this
    exact this
  unfold derived_width
  rw [h2h]
  refine ROUND_float_quotient (2 * (h : ℚ)) jw jh ?_ (by linarith) hjw.1 hjw.2 hjh.1 hjh.2 hX
  rcases eq_or_lt_of_le hh0 with h0 | h0
  · left
    rw [← h0]
    norm_num
  · right
    have : (1 : ℚ) ≤ (h : ℚ) := by exact_mod_cast (show (1 : Int) ≤ h by omega)
    linarith

/-- The derived height lies within the rounding errors of `w * jh / (2 * jw)`. -/
theorem derived_height_spec (w jw jh : Int) (hw0 : 0 ≤ w) (hw1 : w < 2 ^ 23)
    (hjw : 1 ≤ jw ∧ jw ≤ 65500) (hjh : 1 ≤ jh ∧ jh ≤ 65500)
    (hX : 1 / 2 * (w : ℚ) * (jh : ℚ) / (jw : ℚ) ≤ 2 ^ 31 - 2 ^ 10) :
    0 ≤ derived_height w jw jh ∧
      (derived_height w jw jh : ℚ) ≤
        (1 / 2 + 1 / 2 * (w : ℚ) * (jh : ℚ) / (jw : ℚ) * (1 + 1 / 2 ^ 24) ^ 2) *
          (1 + 1 / 2 ^ 24) ∧
      (1 / 2 + 1 / 2 * (w : ℚ) * (jh : ℚ) / (jw : ℚ) * (1 - 1 / 2 ^ 24) ^ 2) *
          (1 - 1 / 2 ^ 24) - 1 <
        (derived_height w jw jh : ℚ) := by
  have hq0 : (0 : ℚ) ≤ (w : ℚ) := by exact_mod_cast hw0
  have hq1 : (w : ℚ) < 2 ^ 23 := by exact_mod_cast hw1
  have hfw : float_of_int w = some (w : ℚ) := float_of_int_exact w (by rw [abs_lt]; omega)
  have h2w : float_mul (some (1 / 2)) (float_of_int w) = some (1 / 2 * (w : ℚ)) := by
    rw [hfw]
    unfold float_mul
    simp only
    have := round32_exact w 1 (by rw [abs_lt]; omega) (by omega)
    rw [pow_one] at this
    rw [show (1 : ℚ) / 2 * (w : ℚ) = (w : ℚ) / 2 by ring]
    exact this
  unfold derived_height
  rw [h2w]
  refine ROUND_float_quotient (1 / 2 * (w : ℚ)) jh jw ?_ (by linarith) hjh.1 hjh.2 hjw.1 hjw.2 hX
  rcases eq_or_lt_of_le hw0 with h0 | h0
  · left
    rw [← h0]
    norm_num
  · right
    have : (1 : ℚ) ≤ (w : ℚ) := by exact_mod_cast (show (1 : Int) ≤ w by omega)
    linarith

theorem derived_width_eventually (jw jh h : Int) (hjw : 1 ≤ jw ∧ jw ≤ 65500)
    (hjh : 1 ≤ jh ∧ jh ≤ 65500) (hh : 0 ≤ h) (hh1 : h ≤ 2 ^ 22)
    (hX : 2 * h * jw ≤ 2 ^ 30 * jh) :
    derived_width (h + jh) jw jh ≠ 0 := by
  have h1 : (0 : ℚ) ≤ (h : ℚ) := by exact_mod_cast hh
  have h2 : (1 : ℚ) ≤ (jw : ℚ) := by exact_mod_cast hjw.1
  have h2' : (jw : ℚ) ≤ 65500 := by exact_mod_cast hjw.2
  have h3 : (1 : ℚ) ≤ (jh : ℚ) := by exact_mod_cast hjh.1
  have hXq : 2 * (h : ℚ) * (jw : ℚ) ≤ 2 ^ 30 * (jh : ℚ) := by exact_mod_cast hX
  have hsplit : 2 * ((h + jh : Int) : ℚ) * (jw : ℚ) / (jh : ℚ) =
      2 * (h : ℚ) * (jw : ℚ) / (jh : ℚ) + 2 * (jw : ℚ) := by
    push_cast
    field_simp
    ring
  have hq : 2 * (h : ℚ) * (jw : ℚ) / (jh : ℚ) ≤ 2 ^ 30 := by
    rw [div_le_iff₀ (by linarith)]
    exact hXq
  have hq0 : 0 ≤ 2 * (h : ℚ) * (jw : ℚ) / (jh : ℚ) := by positivity
  obtain ⟨_, _, hlo⟩ := derived_width_spec (h + jh) jw jh (by omega) (by omega) hjw hjh
    (by
      rw [hsplit]
      have : (2 : ℚ) ^ 30 + 2 * 65500 ≤ 2 ^ 31 - 2 ^ 10 := by norm_num
      linarith)
  rw [hsplit] at hlo
  have hge : (2 : ℚ) ≤ 2 * (h : ℚ) * (jw : ℚ) / (jh : ℚ) + 2 * (jw : ℚ) := by linarith
  have hnum : (1 : ℚ) < (1 / 2 + 2 * (1 - 1 / 2 ^ 24) ^ 2) * (1 - 1 / 2 ^ 24) - 1 := by norm_num
  have hmono : (1 / 2 + 2 * (1 - 1 / 2 ^ 24) ^ 2) * (1 - 1 / 2 ^ 24) ≤
      (1 / 2 + (2 * (h : ℚ) * (jw : ℚ) / (jh : ℚ) + 2 * (jw : ℚ)) * (1 - 1 / 2 ^ 24) ^ 2) *
        (1 - 1 / 2 ^ 24) := by
    apply mul_le_mul_of_nonneg_right _ (by norm_num)
    have := mul_le_mul_of_nonneg_right hge (show (0 : ℚ) ≤ (1 - 1 / 2 ^ 24) ^ 2 by positivity)
    linarith
  have hpos : (1 : ℚ) < (derived_width (h + jh) jw jh : ℚ) := by linarith
  have : (1 : Int) < derived_width (h + jh) jw jh := by exact_mod_cast hpos
  omega

theorem derived_height_eventually (jw jh w : Int) (hjw : 1 ≤ jw ∧ jw ≤ 65500)
    (hjh : 1 ≤ jh ∧ jh ≤ 65500) (hw : 0 ≤ w) (hw1 : w ≤ 2 ^ 22)
    (hX : w * jh ≤ 2 ^ 31 * jw) :
    derived_height (w + 4 * jw) jw jh ≠ 0 := by
  have h1 : (0 : ℚ) ≤ (w : ℚ) := by exact_mod_cast hw
  have h2 : (1 : ℚ) ≤ (jw : ℚ) := by exact_mod_cast hjw.1
  have h3 : (1 : ℚ) ≤ (jh : ℚ) := by exact_mod_cast hjh.1
  have h3' : (jh : ℚ) ≤ 65500 := by exact_mod_cast hjh.2
  have hXq : (w : ℚ) * (jh : ℚ) ≤ 2 ^ 31 * (jw : ℚ) := by exact_mod_cast hX
  have hsplit : 1 / 2 * ((w + 4 * jw : Int) : ℚ) * (jh : ℚ) / (jw : ℚ) =
      1 / 2 * (w : ℚ) * (jh : ℚ) / (jw : ℚ) + 2 * (jh : ℚ) := by
    push_cast
    field_simp
    ring
  have hq : 1 / 2 * (w : ℚ) * (jh : ℚ) / (jw : ℚ) ≤ 2 ^ 30 := by
    rw [div_le_iff₀ (by linarith)]
    linarith
  have hq0 : 0 ≤ 1 / 2 * (w : ℚ) * (jh : ℚ) / (jw : ℚ) := by positivity
  obtain ⟨_, _, hlo⟩ := derived_height_spec (w + 4 * jw) jw jh (by omega) (by omega) hjw hjh
    (by
      rw [hsplit]
      have : (2 : ℚ) ^ 30 + 2 * 65500 ≤ 2 ^ 31 - 2 ^ 10 := by norm_num
      linarith)
  rw [hsplit] at hlo
  have hge : (2 : ℚ) ≤ 1 / 2 * (w : ℚ) * (jh : ℚ) / (jw : ℚ) + 2 * (jh : ℚ) := by linarith
  have hnum : (1 : ℚ) < (1 / 2 + 2 * (1 - 1 / 2 ^ 24) ^ 2) * (1 - 1 / 2 ^ 24) - 1 := by norm_num
  have hmono : (1 / 2 + 2 * (1 - 1 / 2 ^ 24) ^ 2) * (1 - 1 / 2 ^ 24) ≤
      (1 / 2 + (1 / 2 * (w : ℚ) * (jh : ℚ) / (jw : ℚ) + 2 * (jh : ℚ)) * (1 - 1 / 2 ^ 24) ^ 2) *
        (1 - 1 / 2 ^ 24) := by
    apply mul_le_mul_of_nonneg_right _ (by norm_num)
    have := mul_le_mul_of_nonneg_right hge (show (0 : ℚ) ≤ (1 - 1 / 2 ^ 24) ^ 2 by positivity)
    linarith
  have hpos : (1 : ℚ) < (derived_height (w + 4 * jw) jw jh : ℚ) := by linarith
  have : (1 : Int) < derived_height (w + 4 * jw) jw jh := by exact_mod_cast hpos
  omega

/-- The closeness of a rounded quotient to the exact one, from the bounds of
`ROUND_float_quotient`. -/
theorem rounded_close (x : ℚ) (r : Int) (hx : 0 ≤ x)
    (hhi : (r : ℚ) ≤ (1 / 2 + x * (1 + 1 / 2 ^ 24) ^ 2) * (1 + 1 / 2 ^ 24))
    (hlo : (1 / 2 + x * (1 - 1 / 2 ^ 24) ^ 2) * (1 - 1 / 2 ^ 24) - 1 < (r : ℚ)) :
    |(r : ℚ) - x| ≤ 1 / 2 + (x + 1) / 2 ^ 21 := by
  rw [abs_le]
  constructor <;> nlinarith

/-- With the width automatic and the height fixed at `1` or more, within the
range where no conversion overflows, the resolver returns for all
sufficiently large fuel, after raising the height by the least `k` that makes
the derived width non-zero. -/
theorem auto_width_resolves (jw jh : Int) (hjw : 1 ≤ jw ∧ jw ≤ 65500)
    (hjh : 1 ≤ jh ∧ jh ≤ 65500) (g : Globals)
    (haw : g.auto_width ≠ 0) (hah : g.auto_height = 0) (hh : 1 ≤ g.height)
    (hh1 : g.height ≤ 2 ^ 22) (hX : 2 * g.height * jw ≤ 2 ^ 30 * jh) :
    ∃ k : Nat,
      (∀ j : Nat, j < k → derived_width (g.height + j) jw jh = 0) ∧
      1 ≤ derived_width (g.height + k) jw jh ∧
      |(derived_width (g.height + k) jw jh : ℚ) -
          2 * ((g.height + k : Int) : ℚ) * (jw : ℚ) / (jh : ℚ)| ≤
        1 / 2 + (2 * ((g.height + k : Int) : ℚ) * (jw : ℚ) / (jh : ℚ) + 1) / 2 ^ 21 ∧
      ∀ fuel, 2 * k + 2 ≤ fuel →
        calc_aspect_ratio fuel jw jh g =
          some { g with height := g.height + k,
                        width := derived_width (g.height + k) jw jh } := by
  classical
  have hjhk : ((jh.toNat : Nat) : Int) = jh := Int.toNat_of_nonneg (by omega)
  have hat := derived_width_eventually jw jh g.height hjw hjh (by omega) hh1 hX
  have hex : ∃ k : Nat, derived_width (g.height + k) jw jh ≠ 0 := ⟨jh.toNat, by rw [hjhk]; exact hat⟩
  have hle : ((Nat.find hex : Nat) : Int) ≤ jh := by
    have := Nat.find_min' hex (show derived_width (g.height + (jh.toNat : Nat)) jw jh ≠ 0 by
      rw [hjhk]; exact hat)
    omega
  have h1 : (1 : ℚ) ≤ (g.height : ℚ) := by exact_mod_cast hh
  have h2 : (1 : ℚ) ≤ (jw : ℚ) := by exact_mod_cast hjw.1
  have h2' : (jw : ℚ) ≤ 65500 := by exact_mod_cast hjw.2
  have h3 : (1 : ℚ) ≤ (jh : ℚ) := by exact_mod_cast hjh.1
  have hkq : ((Nat.find hex : Nat) : ℚ) ≤ (jh : ℚ) := by exact_mod_cast hle
  have hk0 : (0 : ℚ) ≤ ((Nat.find hex : Nat) : ℚ) := Nat.cast_nonneg _
  have hXq : 2 * (g.height : ℚ) * (jw : ℚ) ≤ 2 ^ 30 * (jh : ℚ) := by exact_mod_cast hX
  have hx0 : 0 ≤ 2 * ((g.height + (Nat.find hex : Nat) : Int) : ℚ) * (jw : ℚ) / (jh : ℚ) := by
    push_cast
    positivity
  have hxb : 2 * ((g.height + (Nat.find hex : Nat) : Int) : ℚ) * (jw : ℚ) / (jh : ℚ) ≤
      2 ^ 31 - 2 ^ 10 := by
    rw [div_le_iff₀ (by linarith)]
    push_cast
    have e1 : 2 * ((Nat.find hex : Nat) : ℚ) * (jw : ℚ) ≤ 2 * 65500 * (jh : ℚ) := by nlinarith
    nlinarith
  obtain ⟨s0, shi, slo⟩ := derived_width_spec (g.height + (Nat.find hex : Nat)) jw jh (by omega)
    (by omega) hjw hjh hxb
  refine ⟨Nat.find hex, ?_, ?_, ?_, ?_⟩
  · intro j hj
    exact not_not.mp (Nat.find_min hex hj)
  · have := Nat.find_spec hex
    omega
  · exact rounded_close _ _ hx0 shi slo
  · intro fuel hf
    exact calc_aspect_ratio_auto_width jw jh _ g fuel haw hah (by omega) (by omega)
      (fun j hj => not_not.mp (Nat.find_min hex hj)) (Nat.find_spec hex) hf

/-- With the height automatic and the width fixed at `1` or more, within the
range where no conversion overflows, the resolver returns for all
sufficiently large fuel, after raising the width by the least `k` that makes
the derived height non-zero. -/
theorem auto_height_resolves (jw jh : Int) (hjw : 1 ≤ jw ∧ jw ≤ 65500)
    (hjh : 1 ≤ jh ∧ jh ≤ 65500) (g : Globals)
    (haw : g.auto_width = 0) (hah : g.auto_height ≠ 0) (hw : 1 ≤ g.width)
    (hw1 : g.width ≤ 2 ^ 22) (hX : g.width * jh ≤ 2 ^ 31 * jw) :
    ∃ k : Nat,
      (∀ j : Nat, j < k → derived_height (g.width + j) jw jh = 0) ∧
      1 ≤ derived_height (g.width + k) jw jh ∧
      |(derived_height (g.width + k) jw jh : ℚ) -
          1 / 2 * ((g.width + k : Int) : ℚ) * (jh : ℚ) / (jw : ℚ)| ≤
        1 / 2 + (1 / 2 * ((g.width + k : Int) : ℚ) * (jh : ℚ) / (jw : ℚ) + 1) / 2 ^ 21 ∧
      ∀ fuel, 2 * k + 2 ≤ fuel →
        calc_aspect_ratio fuel jw jh g =
          some { g with width := g.width + k,
                        height := derived_height (g.width + k) jw jh } := by
  classical
  have hjwk : (((4 * jw).toNat : Nat) : Int) = 4 * jw := Int.toNat_of_nonneg (by omega)
  have hat := derived_height_eventually jw jh g.width hjw hjh (by omega) hw1 hX
  have hex : ∃ k : Nat, derived_height (g.width + k) jw jh ≠ 0 :=
    ⟨(4 * jw).toNat, by rw [hjwk]; exact hat⟩
  have hle : ((Nat.find hex : Nat) : Int) ≤ 4 * jw := by
    have := Nat.find_min' hex
      (show derived_height (g.width + ((4 * jw).toNat : Nat)) jw jh ≠ 0 by rw [hjwk]; exact hat)
    omega
  have h1 : (1 : ℚ) ≤ (g.width : ℚ) := by exact_mod_cast hw
  have h2 : (1 : ℚ) ≤ (jw : ℚ) := by exact_mod_cast hjw.1
  have h3 : (1 : ℚ) ≤ (jh : ℚ) := by exact_mod_cast hjh.1
  have h3' : (jh : ℚ) ≤ 65500 := by exact_mod_cast hjh.2
  have hkq : ((Nat.find hex : Nat) : ℚ) ≤ 4 * (jw : ℚ) := by exact_mod_cast hle
  have hk0 : (0 : ℚ) ≤ ((Nat.find hex : Nat) : ℚ) := Nat.cast_nonneg _
  have hXq : (g.width : ℚ) * (jh : ℚ) ≤ 2 ^ 31 * (jw : ℚ) := by exact_mod_cast hX
  have hx0 : 0 ≤ 1 / 2 * ((g.width + (Nat.find hex : Nat) : Int) : ℚ) * (jh : ℚ) / (jw : ℚ) := by
    push_cast
    positivity
  have hxb : 1 / 2 * ((g.width + (Nat.find hex : Nat) : Int) : ℚ) * (jh : ℚ) / (jw : ℚ) ≤
      2 ^ 31 - 2 ^ 10 := by
    rw [div_le_iff₀ (by linarith)]
    push_cast
    have e1 : ((Nat.find hex : Nat) : ℚ) * (jh : ℚ) ≤ 4 * 65500 * (jw : ℚ) := by nlinarith
    nlinarith
  obtain ⟨s0, shi, slo⟩ := derived_height_spec (g.width + (Nat.find hex : Nat)) jw jh (by omega)
    (by omega) hjw hjh hxb
  refine ⟨Nat.find hex, ?_, ?_, ?_, ?_⟩
  · intro j hj
    exact not_not.mp (Nat.find_min hex hj)
  · have := Nat.find_spec hex
    omega
  · exact rounded_close _ _ hx0 shi slo
  · intro fuel hf
    exact calc_aspect_ratio_auto_height jw jh _ g fuel haw hah (by omega) (by omega)
      (fun j hj => not_not.mp (Nat.find_min hex hj)) (Nat.find_spec hex) hf

/-- C7 as stated fails: `--height=16400` on a source 65500 wide and 1 high
leaves the width automatic and the height fixed at 16400; the derived width
`2 * 16400 * 65500` is no `int`, its conversion delivers `INT_MIN`, the loop
`while ( width==0 )` is not entered and `calc_aspect_ratio` returns with
`width < 1`. -/
theorem calc_aspect_ratio_width_overflows :
    parse_options (fun _ => 0) ["jp2a", "--height=16400", "a.jpg"] initial_globals =
        (-1, { initial_globals with height := 16400, auto_height := 0, auto_width := 1 }) ∧
      (INT_MAX : ℚ) < 2 * 16400 * 65500 / 1 ∧
      (∀ fuel, 2 ≤ fuel →
        calc_aspect_ratio fuel 65500 1
            { initial_globals with height := 16400, auto_height := 0, auto_width := 1 } =
          some { initial_globals with
            height := 16400, auto_height := 0, auto_width := 1, width := -2147483648 }) ∧
      ¬ (1 : Int) ≤ -2147483648 := by
  refine ⟨rfl, by decide!, ?_, by decide⟩
  intro fuel hf
  have h := calc_aspect_ratio_auto_width 65500 1 0
    { initial_globals with height := 16400, auto_height := 0, auto_width := 1 } fuel
    (by decide) (by decide) (by decide) (by decide) (fun j hj => absurd hj (Nat.not_lt_zero j))
    (by decide!) (by omega)
  rw [h]
  decide!

/-- C7 as amended: for a source of width and height between 1 and 65500 and a
configuration in which exactly one target dimension is automatic and the
other is fixed at a value `d` between 1 and `2^22` for which the exact
derived dimension (`2 * d * W / H` for the width, `d * H / (2 * W)` for the
height) is at most `2^30`, `calc_aspect_ratio` returns (for every fuel above
a bound, with one and the same result) and leaves both `width` and `height`
at least 1. -/
theorem calc_aspect_ratio_terminates (jw jh : Int) (hjw : 1 ≤ jw ∧ jw ≤ 65500)
    (hjh : 1 ≤ jh ∧ jh ≤ 65500) (g : Globals)
    (hone : (g.auto_width ≠ 0 ∧ g.auto_height = 0 ∧ 1 ≤ g.height ∧ g.height ≤ 2 ^ 22 ∧
        2 * g.height * jw ≤ 2 ^ 30 * jh) ∨
      (g.auto_width = 0 ∧ g.auto_height ≠ 0 ∧ 1 ≤ g.width ∧ g.width ≤ 2 ^ 22 ∧
        g.width * jh ≤ 2 ^ 31 * jw)) :
    ∃ (bound : Nat) (g1 : Globals),
      (∀ fuel, bound ≤ fuel → calc_aspect_ratio fuel jw jh g = some g1) ∧
        1 ≤ g1.width ∧ 1 ≤ g1.height := by
  rcases hone with ⟨haw, hah, hh, hh1, hX⟩ | ⟨haw, hah, hw, hw1, hX⟩
  · obtain ⟨k, _, hk, _, hres⟩ := auto_width_resolves jw jh hjw hjh g haw hah hh hh1 hX
    exact ⟨2 * k + 2, _, hres, hk, by dsimp only; omega⟩
  · obtain ⟨k, _, hk, _, hres⟩ := auto_height_resolves jw jh hjw hjh g haw hah hw hw1 hX
    exact ⟨2 * k + 2, _, hres, by dsimp only; omega, hk⟩

/-- Witness for C7 as amended: a source 100 wide and 1 high, width fixed at
1, height automatic. -/
theorem calc_aspect_ratio_terminates_witness :
    ∃ (bound : Nat) (g1 : Globals),
      (∀ fuel, bound ≤ fuel →
        calc_aspect_ratio fuel 100 1 { initial_globals with width := 1 } = some g1) ∧
        1 ≤ g1.width ∧ 1 ≤ g1.height :=
  calc_aspect_ratio_terminates 100 1 (by decide) (by decide) { initial_globals with width := 1 }
    (Or.inr ⟨by decide, by decide, by decide, by decide, by decide⟩)

/-- C8 as stated fails: `--width=1003` on a source 1 wide and 65499 high
leaves the height automatic; the exact quotient `0.5 * 1003 * 65499 / 1` is
32847748.5, whose rounding is 32847749, while the single-precision product
is 32847748 and `calc_aspect_ratio` returns with the height 32847748. -/
theorem derived_height_is_not_exact_rounding :
    parse_options (fun _ => 0) ["jp2a", "--width=1003", "a.jpg"] initial_globals =
        (-1, { initial_globals with width := 1003, auto_width := 0, auto_height := 2 }) ∧
      round (1 / 2 * (1003 : ℚ) * 65499 / 1) = 32847749 ∧
      (∀ fuel, 2 ≤ fuel →
        calc_aspect_ratio fuel 1 65499
            { initial_globals with width := 1003, auto_width := 0, auto_height := 2 } =
          some { initial_globals with
            width := 1003, auto_width := 0, auto_height := 2, height := 32847748 }) := by
  refine ⟨rfl, ?_, ?_⟩
  · rw [round_eq]
    norm_num [Int.floor_eq_iff]
  · intro fuel hf
    have h := calc_aspect_ratio_auto_height 1 65499 0
      { initial_globals with width := 1003, auto_width := 0, auto_height := 2 } fuel
      (by decide) (by decide) (by decide) (by decide) (fun j hj => absurd hj (Nat.not_lt_zero j))
      (by decide!) (by omega)
    rw [h]
    decide!

/-- C8 as amended: for a source with both dimensions between 1 and 65500,
`calc_aspect_ratio` (a) with the height automatic and the width fixed at `d`,
`1 <= d <= 2^22` and `d * sourceHeight / (2 * sourceWidth) <= 2^30`, returns
with the width `w1` the smallest value `>= d` for which the single-precision
`ROUND(0.5f * w1 * sourceHeight / sourceWidth)` is `>= 1` and with that
rounding as the height, which differs from the exact quotient `x` by at most
`1/2 + (x + 1) / 2^21`; (b) with the width automatic and the height fixed at
`d`, `1 <= d <= 2^22` and `2 * d * sourceWidth / sourceHeight <= 2^30`,
returns with the height `h1` the smallest value `>= d` for which the
single-precision `ROUND(2.0f * h1 * sourceWidth / sourceHeight)` is `>= 1`
and with that rounding as the width, within the same distance of the exact
quotient; (c) with both dimensions explicit returns the configuration
unchanged. -/
theorem calc_aspect_ratio_result (jw jh : Int) (hjw : 1 ≤ jw ∧ jw ≤ 65500)
    (hjh : 1 ≤ jh ∧ jh ≤ 65500) (g : Globals) :
    (g.auto_width = 0 → g.auto_height ≠ 0 → 1 ≤ g.width → g.width ≤ 2 ^ 22 →
      g.width * jh ≤ 2 ^ 31 * jw →
      ∃ (w1 : Int) (bound : Nat), g.width ≤ w1 ∧
        (∀ d : Int, g.width ≤ d → d < w1 → derived_height d jw jh < 1) ∧
        1 ≤ derived_height w1 jw jh ∧
        |(derived_height w1 jw jh : ℚ) - 1 / 2 * (w1 : ℚ) * (jh : ℚ) / (jw : ℚ)| ≤
          1 / 2 + (1 / 2 * (w1 : ℚ) * (jh : ℚ) / (jw : ℚ) + 1) / 2 ^ 21 ∧
        ∀ fuel, bound ≤ fuel →
          calc_aspect_ratio fuel jw jh g =
            some { g with width := w1, height := derived_height w1 jw jh }) ∧
    (g.auto_width ≠ 0 → g.auto_height = 0 → 1 ≤ g.height → g.height ≤ 2 ^ 22 →
      2 * g.height * jw ≤ 2 ^ 30 * jh →
      ∃ (h1 : Int) (bound : Nat), g.height ≤ h1 ∧
        (∀ d : Int, g.height ≤ d → d < h1 → derived_width d jw jh < 1) ∧
        1 ≤ derived_width h1 jw jh ∧
        |(derived_width h1 jw jh : ℚ) - 2 * (h1 : ℚ) * (jw : ℚ) / (jh : ℚ)| ≤
          1 / 2 + (2 * (h1 : ℚ) * (jw : ℚ) / (jh : ℚ) + 1) / 2 ^ 21 ∧
        ∀ fuel, bound ≤ fuel →
          calc_aspect_ratio fuel jw jh g =
            some { g with height := h1, width := derived_width h1 jw jh }) ∧
    (g.auto_width = 0 → g.auto_height = 0 →
      ∀ fuel, 1 ≤ fuel → calc_aspect_ratio fuel jw jh g = some g) := by
  refine ⟨?_, ?_, ?_⟩
  · intro haw hah hw hw1 hX
    obtain ⟨k, hz, hk, hclose, hres⟩ := auto_height_resolves jw jh hjw hjh g haw hah hw hw1 hX
    refine ⟨g.width + k, 2 * k + 2, by omega, ?_, hk, hclose, hres⟩
    intro d hd1 hd2
    obtain ⟨j, rfl⟩ : ∃ j : Nat, d = g.width + j := ⟨(d - g.width).toNat, by omega⟩
    rw [hz j (by omega)]
    decide
  · intro haw hah hh hh1 hX
    obtain ⟨k, hz, hk, hclose, hres⟩ := auto_width_resolves jw jh hjw hjh g haw hah hh hh1 hX
    refine ⟨g.height + k, 2 * k + 2, by omega, ?_, hk, hclose, hres⟩
    intro d hd1 hd2
    obtain ⟨j, rfl⟩ : ∃ j : Nat, d = g.height + j := ⟨(d - g.height).toNat, by omega⟩
    rw [hz j (by omega)]
    decide
  · intro haw hah fuel hf
    obtain ⟨f, rfl⟩ : ∃ f, fuel = f + 1 := ⟨fuel - 1, by omega⟩
    exact calc_aspect_ratio_explicit f jw jh g (by simp [haw]) (by simp [hah])

/-- Witness for C8 as amended: a source 100 wide and 1 high, under the
default configuration (width 78, height automatic) and under an explicit
size. -/
theorem calc_aspect_ratio_result_witness :
    (∃ (w1 : Int) (bound : Nat), (78 : Int) ≤ w1 ∧
        (∀ d : Int, 78 ≤ d → d < w1 → derived_height d 100 1 < 1) ∧
        1 ≤ derived_height w1 100 1 ∧
        |(derived_height w1 100 1 : ℚ) - 1 / 2 * (w1 : ℚ) * ((1 : Int) : ℚ) / ((100 : Int) : ℚ)| ≤
          1 / 2 + (1 / 2 * (w1 : ℚ) * ((1 : Int) : ℚ) / ((100 : Int) : ℚ) + 1) / 2 ^ 21 ∧
        ∀ fuel, bound ≤ fuel →
          calc_aspect_ratio fuel 100 1 initial_globals =
            some { initial_globals with width := w1, height := derived_height w1 100 1 }) ∧
      (∀ fuel, 1 ≤ fuel → calc_aspect_ratio fuel 100 1 config_4x4 = some config_4x4) :=
  ⟨(calc_aspect_ratio_result 100 1 (by decide) (by decide) initial_globals).1
      (by decide) (by decide) (by decide) (by decide) (by decide),
    (calc_aspect_ratio_result 100 1 (by decide) (by decide) config_4x4).2.2
      (by decide) (by decide)⟩

/-! ## Renderer -/

theorem foldl_set_range {α : Type} (f : Nat → α) (n : Nat) :
    ∀ l : List α, n ≤ l.length →
      (List.range n).foldl (fun line x => line.set x (f x)) l
        = (List.range n).map f ++ l.drop n := by
  induction n with
  | zero => intro l _; simp
  | succ n ih =>
    intro l hl
    rw [List.range_succ, List.foldl_append, ih l (by omega)]
    simp only [List.foldl_cons, List.foldl_nil, List.map_append, List.map_cons, List.map_nil]
    rw [List.set_append_right _ _ (by simp)]
    simp only [List.length_map, List.length_range, Nat.sub_self, List.append_assoc,
      List.singleton_append]
    rw [List.drop_eq_getElem_cons (by omega : n < l.length), List.set_cons_zero]

theorem foldl_set_range_reverse {α : Type} (f : Nat → α) (n : Nat) :
    ∀ l : List α, n ≤ l.length →
      (List.range n).foldl (fun line x => line.set (l.length - 1 - x) (f x)) l
        = l.take (l.length - n) ++ ((List.range n).map f).reverse := by
  induction n with
  | zero => intro l _; simp
  | succ n ih =>
    intro l hl
    rw [List.range_succ, List.foldl_append, ih l (by omega)]
    simp only [List.foldl_cons, List.foldl_nil, List.map_append, List.map_cons, List.map_nil,
      List.reverse_append, List.reverse_cons, List.reverse_nil, List.nil_append, List.cons_append]
    rw [List.set_append_left _ _ (by simp; omega)]
    have h1 : l.length - n = (l.length - (n + 1)) + 1 := by omega
    have h2 : l.length - 1 - n = l.length - (n + 1) := by omega
    rw [h1, h2, List.take_succ]
    have h3 : l.length - (n + 1) < l.length := by omega
    rw [List.getElem?_eq_getElem h3]
    simp only [Option.toList_some]
    rw [List.set_append_right _ _ (by simp)]
    simp [List.length_take, Nat.min_eq_left (Nat.sub_le _ _)]

theorem print_image_line_eq (g : Globals) (i : Image) (chars y : Int) (h : g.flipx = 0) :
    print_image_line g i chars y =
      (List.range i.width.toNat).map
        (fun (x : Nat) => palette_at g (palette_index g i chars y x)) := by
  unfold print_image_line
  simp only [h, if_true, Int.toNat_ofNat]
  rw [foldl_set_range _ _ _ (by simp)]
  simp

theorem print_image_line_flipx (g : Globals) (i : Image) (chars y : Int) (h : g.flipx ≠ 0) :
    print_image_line g i chars y =
      ((List.range i.width.toNat).map
        (fun (x : Nat) => palette_at g (palette_index g i chars y x))).reverse := by
  unfold print_image_line
  simp only [h, if_false]
  rw [List.foldl_ext _
    (fun line (x : Nat) => line.set ((List.replicate i.width.toNat NUL).length - 1 - x)
      (palette_at g (palette_index g i chars y x)))]
  · rw [foldl_set_range_reverse _ _ _ (by simp)]
    simp
  · intro line x hx
    have hx1 : x < i.width.toNat := List.mem_range.mp hx
    have : (i.width - (x : Int) - 1).toNat = (List.replicate i.width.toNat NUL).length - 1 - x := by
      simp only [List.length_replicate]
      omega
    simp only [this]

theorem ROUND_mul_range (L : Int) (v : ℚ) (hL : 0 ≤ L) (h0 : 0 ≤ v) (h1 : v ≤ 1) :
    0 ≤ ROUND ((L : ℚ) * v) ∧ ROUND ((L : ℚ) * v) ≤ L := by
  have hLq : (0 : ℚ) ≤ (L : ℚ) := by exact_mod_cast hL
  have hx : (0 : ℚ) ≤ (L : ℚ) * v := mul_nonneg hLq h0
  refine ⟨ROUND_nonneg hx, ROUND_le_of_le hx ?_⟩
  calc (L : ℚ) * v ≤ (L : ℚ) * 1 := mul_le_mul_of_nonneg_left h1 hLq
    _ = (L : ℚ) := mul_one _

/-- The palette index of a cell with intensity in [0,1] lies in `[0, chars]`. -/
theorem palette_index_range (g : Globals) (i : Image) (chars y x : Int) (hc : 0 ≤ chars)
    (h0 : 0 ≤ i.pixel ((if g.flipy = 0 then y else i.height - y - 1) * i.width + x))
    (h1 : i.pixel ((if g.flipy = 0 then y else i.height - y - 1) * i.width + x) ≤ 1) :
    0 ≤ palette_index g i chars y x ∧ palette_index g i chars y x ≤ chars := by
  have h := ROUND_mul_range chars _ hc h0 h1
  unfold palette_index
  dsimp only
  split <;> omega

theorem palette_at_mem (g : Globals) (idx : Int) (h0 : 0 ≤ idx)
    (h1 : idx < g.ascii_palette.length) : palette_at g idx ∈ g.ascii_palette := by
  have h2 : idx.toNat < g.ascii_palette.length := by omega
  simp only [palette_at, h0, if_true, List.getD_eq_getElem?_getD, List.getElem?_eq_getElem h2,
    Option.getD_some]
  exact List.getElem_mem h2

theorem c_str_eq_self (l : List Char) (h : ∀ c ∈ l, c ≠ NUL) : c_str l = l := by
  unfold c_str
  rw [List.takeWhile_eq_self_iff]
  intro c hc
  simpa using h c hc

/-- The characters of an output row come from the palette when the cells
lie in [0,1] and the palette is not empty. -/
theorem row_chars_mem (g : Globals) (i : Image) (y : Nat) (hy : y < i.height.toNat)
    (hcells : cells_in_unit i) (hlen : 1 ≤ g.ascii_palette.length) :
    ∀ c ∈ (List.range i.width.toNat).map (fun (x : Nat) =>
        palette_at g (palette_index g i ((g.ascii_palette.length : Int) - 1) y x)),
      c ∈ g.ascii_palette := by
  intro c hc
  obtain ⟨x, hx, rfl⟩ := List.mem_map.mp hc
  have hx1 : x < i.width.toNat := List.mem_range.mp hx
  have hrow : 0 ≤ (if g.flipy = 0 then (y : Int) else i.height - y - 1) ∧
      (if g.flipy = 0 then (y : Int) else i.height - y - 1) < i.height := by
    split <;> omega
  have hv := hcells _ x hrow.1 hrow.2 (by omega) (by omega)
  have hr := palette_index_range g i ((g.ascii_palette.length : Int) - 1) y x (by omega) hv.1 hv.2
  exact palette_at_mem g _ hr.1 (by omega)

/-- The text written for an output row when the cells lie in [0,1] and the
palette holds no terminator: the row characters, in column order or reversed
under `flipx`, wrapped in bars under `border`. -/
theorem print_image_eq (g : Globals) (i : Image) (hcells : cells_in_unit i)
    (hlen : 1 ≤ g.ascii_palette.length) (hnul : ∀ c ∈ g.ascii_palette, c ≠ NUL) :
    print_image g i ((g.ascii_palette.length : Int) - 1) =
      (List.range i.height.toNat).map fun (y : Nat) =>
        let row := (List.range i.width.toNat).map fun (x : Nat) =>
          palette_at g (palette_index g i ((g.ascii_palette.length : Int) - 1) y x)
        let line := if g.flipx = 0 then row else row.reverse
        if g.border = 0 then line else '|' :: line ++ ['|'] := by
  unfold print_image
  apply List.map_congr_left
  intro y hy
  have hy1 : y < i.height.toNat := List.mem_range.mp hy
  have hmem := row_chars_mem g i y hy1 hcells hlen
  by_cases hx : g.flipx = 0
  · rw [print_image_line_eq g i _ _ hx, c_str_eq_self _ (fun c hc => hnul c (hmem c hc))]
    simp only [hx, if_true]
  · rw [print_image_line_flipx g i _ _ hx,
      c_str_eq_self _ (fun c hc => hnul c (hmem c (List.mem_reverse.mp hc)))]
    simp only [hx, if_false]

theorem print_border_eq (width : Int) (hw : 0 ≤ width) :
    print_border width = '+' :: List.replicate width.toNat '-' ++ ['+'] := by
  obtain ⟨n, rfl⟩ : ∃ n : Nat, width = n := ⟨width.toNat, by omega⟩
  have h1 : ((n : Int) + 2).toNat = n + 2 := by omega
  have h2 : ((n : Int) + 1).toNat = n + 1 := by omega
  have h3 : List.replicate (n + 2) '-' ++ [NUL] = '-' :: (List.replicate n '-' ++ ['-', NUL]) := by
    rw [List.replicate_succ, List.replicate_succ']
    simp
  have h4 : ∀ c ∈ List.replicate n '-', (fun c => decide (c ≠ NUL)) c = true := by
    intro c hc
    rw [List.eq_of_mem_replicate hc]
    decide
  unfold print_border c_str
  simp only [h1, h2, h3, Int.toNat_ofNat, List.set_cons_succ, List.set_cons_zero]
  rw [List.set_append_right _ _ (by simp), List.set_append_right _ _ (by simp)]
  simp only [List.length_replicate, Nat.sub_self, List.set_cons_zero, Nat.add_sub_cancel_left,
    List.set_cons_succ]
  rw [List.takeWhile_cons_of_pos (by decide), List.takeWhile_append_of_pos h4]
  rfl

/-- C6 as amended: for every target width `w >= 1` with `border` set, the line
`print_border` writes is `+`, then `w` dashes, then `+` (`w + 2` characters in
all); and, for a grid with cells in [0,1] and a palette of at least two
characters, each body line is `|`, then `w` palette characters, then `|`. -/
theorem border_frame (g : Globals) (i : Image) (hw : 1 ≤ i.width) (hb : g.border ≠ 0)
    (hcells : cells_in_unit i) (hlen : 2 ≤ g.ascii_palette.length)
    (hnul : ∀ c ∈ g.ascii_palette, c ≠ NUL) :
    print_border i.width = '+' :: List.replicate i.width.toNat '-' ++ ['+'] ∧
      ∀ line ∈ print_image g i ((g.ascii_palette.length : Int) - 1),
        ∃ body : List Char, line = '|' :: body ++ ['|'] ∧ body.length = i.width.toNat ∧
          ∀ c ∈ body, c ∈ g.ascii_palette := by
  refine ⟨print_border_eq _ (by omega), ?_⟩
  intro line hline
  rw [print_image_eq g i hcells (by omega) hnul] at hline
  obtain ⟨y, hy, rfl⟩ := List.mem_map.mp hline
  have hy1 : y < i.height.toNat := List.mem_range.mp hy
  have hmem := row_chars_mem g i y hy1 hcells (by omega)
  dsimp only
  rw [if_neg hb]
  refine ⟨_, rfl, ?_, ?_⟩
  · split <;> simp
  · intro c hc
    split at hc
    · exact hmem c hc
    · exact hmem c (List.mem_reverse.mp hc)

theorem spot_3x2_cells : cells_in_unit spot_3x2 := by
  intro r c _ _ _ _
  simp only [spot_3x2]
  split_ifs <;> norm_num

/-- Witness for C6: the grid `spot_3x2`, palette
"01", `border` set. -/
theorem border_frame_witness :
    print_border 3 = "+---+".toList ∧
      ∀ line ∈ print_image { config_4x4 with border := 1 }
          spot_3x2 1,
        ∃ body : List Char, line = '|' :: body ++ ['|'] ∧ body.length = 3 ∧
          ∀ c ∈ body, c ∈ ['0', '1'] :=
  border_frame { config_4x4 with border := 1 }
    spot_3x2
    (by decide) (by decide) spot_3x2_cells (by decide) (by decide)

theorem print_image_line_flipy (g : Globals) (i : Image) (chars : Int) (y : Nat)
    (hy : y < i.height.toNat) (hf : g.flipy ≠ 0) :
    print_image_line g i chars y =
      print_image_line { g with flipy := 0 } i chars ((0 + i.height.toNat - 1 - y : Nat) : Int) := by
  have h1 : ((0 + i.height.toNat - 1 - y : Nat) : Int) = i.height - y - 1 := by omega
  unfold print_image_line palette_index palette_at
  simp only [h1, hf, if_false, if_true]

/-- C10: the list of body lines `print_image` writes with `flipy` set is the
reverse of the list it writes with `flipy` unset; and, for a grid with cells
in [0,1], each body line it writes with `flipx` set is the character reversal
of the corresponding line written with `flipx` unset, in the same line order.
The renderer is a function of the image and returns only text: the grid is
the same before and after. -/
theorem print_image_flip (g : Globals) (i : Image) (chars : Int) :
    (g.flipy ≠ 0 →
      print_image g i chars = (print_image { g with flipy := 0 } i chars).reverse) ∧
    (g.flipx ≠ 0 → cells_in_unit i → 1 ≤ g.ascii_palette.length →
      (∀ c ∈ g.ascii_palette, c ≠ NUL) → chars = (g.ascii_palette.length : Int) - 1 →
      print_image g i chars =
        (print_image { g with flipx := 0 } i chars).map List.reverse) := by
  constructor
  · intro hf
    unfold print_image
    rw [← List.map_reverse, List.range_eq_range', List.reverse_range', ← List.range_eq_range',
      List.map_map]
    apply List.map_congr_left
    intro y hy
    have hy1 : y < i.height.toNat := List.mem_range.mp hy
    simp only [Function.comp_apply]
    rw [print_image_line_flipy g i chars y hy1 hf]
  · intro hf hcells hlen hnul hchars
    subst hchars
    rw [print_image_eq g i hcells hlen hnul,
      print_image_eq { g with flipx := 0 } i hcells hlen hnul, List.map_map]
    apply List.map_congr_left
    intro y _
    simp only [Function.comp_apply, hf, if_false, if_true]
    have hrow : ∀ x : Nat,
        palette_at { g with flipx := 0 }
            (palette_index { g with flipx := 0 } i ((g.ascii_palette.length : Int) - 1) y x) =
          palette_at g (palette_index g i ((g.ascii_palette.length : Int) - 1) y x) :=
      fun _ => rfl
    simp only [hrow]
    split <;> simp

/-- Witness for C10: the grid `spot_3x2`, palette
"01", both flips set. -/
theorem print_image_flip_witness :
    print_image { config_4x4 with flipx := 1, flipy := 1 }
        spot_3x2 1 =
      (print_image { config_4x4 with flipx := 1, flipy := 0 }
        spot_3x2 1).reverse ∧
    print_image { config_4x4 with flipx := 1, flipy := 1 }
        spot_3x2 1 =
      (print_image { config_4x4 with flipx := 0, flipy := 1 }
        spot_3x2 1).map List.reverse :=
  ⟨(print_image_flip { config_4x4 with flipx := 1, flipy := 1 } spot_3x2 1).1 (by decide),
    (print_image_flip { config_4x4 with flipx := 1, flipy := 1 } spot_3x2 1).2 (by decide)
      spot_3x2_cells (by decide) (by decide) (by decide)⟩

/-! ## Accumulator -/

theorem cell_index_inj (w r c r1 c1 : Int) (hc : 0 ≤ c ∧ c < w) (hc1 : 0 ≤ c1 ∧ c1 < w)
    (h : r * w + c = r1 * w + c1) : r = r1 ∧ c = c1 := by
  have hw : 0 < w := by omega
  have h1 : (r * w + c) / w = r := by
    rw [add_comm, Int.add_mul_ediv_right _ _ (by omega), Int.ediv_eq_zero_of_lt hc.1 hc.2]
    simp
  have h2 : (r1 * w + c1) / w = r1 := by
    rw [add_comm, Int.add_mul_ediv_right _ _ (by omega), Int.ediv_eq_zero_of_lt hc1.1 hc1.2]
    simp
  have hr : r = r1 := by rw [← h1, ← h2, h]
  subst hr
  exact ⟨rfl, by omega⟩

theorem cell_index_row (w r c l : Int) (hc : 0 ≤ c ∧ c < w) :
    (l * w ≤ r * w + c ∧ r * w + c < l * w + w) ↔ r = l := by
  constructor
  · intro ⟨h1, h2⟩
    have h3 : 0 ≤ r * w + c - l * w ∧ r * w + c - l * w < w := by omega
    have h4 := cell_index_inj w r c l (r * w + c - l * w) hc h3 (by ring)
    exact h4.1
  · rintro rfl
    omega

theorem foldl_modify_range {α : Type} (f : Nat → α → α) (base : Int) (n : Nat) (a : Int → α)
    (k : Int) :
    ((List.range n).foldl (fun px (x : Nat) => modify_at px (base + x) (f x)) a) k
      = if base ≤ k ∧ k < base + n then f (k - base).toNat (a k) else a k := by
  induction n with
  | zero =>
    have h : ¬ (base ≤ k ∧ k < base + ((0 : Nat) : Int)) := by omega
    rw [if_neg h]
    rfl
  | succ n ih =>
    rw [List.range_succ, List.foldl_append]
    simp only [List.foldl_cons, List.foldl_nil, modify_at]
    rw [ih]
    by_cases hk : k = base + n
    · subst hk
      have h1 : ¬ (base ≤ base + (n : Int) ∧ base + (n : Int) < base + (n : Int)) := by omega
      have h2 : base ≤ base + (n : Int) ∧ base + (n : Int) < base + ((n + 1 : Nat) : Int) := by
        omega
      have h3 : (base + (n : Int) - base).toNat = n := by omega
      simp only [if_true, if_neg h1, if_pos h2, h3]
    · rw [if_neg hk]
      by_cases h1 : base ≤ k ∧ k < base + (n : Int)
      · have h2 : base ≤ k ∧ k < base + ((n + 1 : Nat) : Int) := by omega
        rw [if_pos h1, if_pos h2]
      · have h2 : ¬ (base ≤ k ∧ k < base + ((n + 1 : Nat) : Int)) := by omega
        rw [if_neg h1, if_neg h2]

theorem store_intensity_add (source : Int → Nat) (dest : ℚ) (components : Int) :
    store_intensity source dest components = dest + store_intensity source 0 components := by
  simp [store_intensity]

theorem process_row_pixel (jpg : JpegInfo) (scanline : List Nat) (image : Image) (l r c : Int)
    (hc : 0 ≤ c ∧ c < image.width) :
    (process_row jpg scanline image l).pixel (r * image.width + c) =
      image.pixel (r * image.width + c) +
        (if r = l then column_intensity jpg scanline image.lookup_resx c else 0) := by
  have h := foldl_modify_range
    (fun (x : Nat) (d : ℚ) =>
      store_intensity (fun c => sample scanline (image.lookup_resx x + c)) d
        jpg.out_color_components)
    (l * image.width) image.width.toNat image.pixel (r * image.width + c)
  have hw : ((image.width.toNat : Nat) : Int) = image.width := by omega
  have hrow := cell_index_row image.width r c l hc
  rw [hw] at h
  unfold process_row
  dsimp only
  rw [h]
  by_cases hr : r = l
  · subst hr
    have h1 : (r * image.width + c - r * image.width).toNat = c.toNat := by
      congr 1
      ring
    have h2 : ((c.toNat : Nat) : Int) = c := by omega
    rw [if_pos (hrow.mpr rfl), if_pos rfl, store_intensity_add, h1, h2]
    rfl
  · rw [if_neg (fun hh => hr (hrow.mp hh)), if_neg hr, add_zero]

theorem process_row_yadds (jpg : JpegInfo) (scanline : List Nat) (image : Image) (l r : Int) :
    (process_row jpg scanline image l).yadds r = image.yadds r + (if r = l then 1 else 0) := by
  unfold process_row modify_at
  dsimp only
  split <;> simp

theorem process_row_frame (jpg : JpegInfo) (scanline : List Nat) (image : Image) (l : Int) :
    same_frame (process_row jpg scanline image l) image :=
  ⟨rfl, rfl, rfl, rfl, rfl⟩

theorem process_rows_frame (jpg : JpegInfo) (scanline : List Nat) (n : Nat) :
    ∀ (l : Int) (image : Image), same_frame (process_rows jpg scanline n l image).2 image := by
  induction n with
  | zero => intro l image; exact ⟨rfl, rfl, rfl, rfl, rfl⟩
  | succ n ih =>
    intro l image
    have h := ih (l + 1) (process_row jpg scanline image l)
    simpa [process_rows, same_frame, process_row] using h

theorem process_rows_pixel (jpg : JpegInfo) (scanline : List Nat) (n : Nat) :
    ∀ (l : Int) (image : Image) (r c : Int), 0 ≤ c ∧ c < image.width →
      (process_rows jpg scanline n l image).2.pixel (r * image.width + c) =
        image.pixel (r * image.width + c) +
          (if l ≤ r ∧ r < l + n then column_intensity jpg scanline image.lookup_resx c else 0) := by
  induction n with
  | zero =>
    intro l image r c _
    have h : ¬ (l ≤ r ∧ r < l + ((0 : Nat) : Int)) := by omega
    rw [if_neg h, add_zero]
    rfl
  | succ n ih =>
    intro l image r c hc
    have h := ih (l + 1) (process_row jpg scanline image l) r c hc
    have hp := process_row_pixel jpg scanline image l r c hc
    have hw : (process_row jpg scanline image l).width = image.width := rfl
    have hl : (process_row jpg scanline image l).lookup_resx = image.lookup_resx := rfl
    rw [hw, hl, hp] at h
    rw [process_rows, h]
    by_cases h1 : r = l
    · have h2 : ¬ (l + 1 ≤ r ∧ r < l + 1 + (n : Int)) := by omega
      have h3 : l ≤ r ∧ r < l + ((n + 1 : Nat) : Int) := by omega
      rw [if_pos h1, if_neg h2, if_pos h3, add_zero]
    · by_cases h2 : l + 1 ≤ r ∧ r < l + 1 + (n : Int)
      · have h3 : l ≤ r ∧ r < l + ((n + 1 : Nat) : Int) := by omega
        rw [if_neg h1, if_pos h2, if_pos h3, add_zero]
      · have h3 : ¬ (l ≤ r ∧ r < l + ((n + 1 : Nat) : Int)) := by omega
        rw [if_neg h1, if_neg h2, if_neg h3, add_zero]

theorem process_rows_yadds (jpg : JpegInfo) (scanline : List Nat) (n : Nat) :
    ∀ (l : Int) (image : Image) (r : Int),
      (process_rows jpg scanline n l image).2.yadds r =
        image.yadds r + (if l ≤ r ∧ r < l + n then 1 else 0) := by
  induction n with
  | zero =>
    intro l image r
    have h : ¬ (l ≤ r ∧ r < l + ((0 : Nat) : Int)) := by omega
    rw [if_neg h, add_zero]
    rfl
  | succ n ih =>
    intro l image r
    have h := ih (l + 1) (process_row jpg scanline image l) r
    rw [process_row_yadds] at h
    rw [process_rows, h]
    by_cases h1 : r = l
    · have h2 : ¬ (l + 1 ≤ r ∧ r < l + 1 + (n : Int)) := by omega
      have h3 : l ≤ r ∧ r < l + ((n + 1 : Nat) : Int) := by omega
      rw [if_pos h1, if_neg h2, if_pos h3, add_zero]
    · by_cases h2 : l + 1 ≤ r ∧ r < l + 1 + (n : Int)
      · have h3 : l ≤ r ∧ r < l + ((n + 1 : Nat) : Int) := by omega
        rw [if_neg h1, if_pos h2, if_pos h3, add_zero]
      · have h3 : ¬ (l ≤ r ∧ r < l + ((n + 1 : Nat) : Int)) := by omega
        rw [if_neg h1, if_neg h2, if_neg h3, add_zero]

/-- One call of `process_scanline`: the cursor becomes the row `y` of the
scanline, every cell of the rows from the old cursor to `y` receives the
intensity of its column, and the count of each of these rows grows by one. -/
theorem process_scanline_spec (jpg : JpegInfo) (scanline : List Nat) (l : Int) (image : Image) :
    (process_scanline jpg scanline (l, image)).1 = scanline_row jpg image ∧
    same_frame (process_scanline jpg scanline (l, image)).2 image ∧
    (∀ r : Int, (process_scanline jpg scanline (l, image)).2.yadds r =
      image.yadds r + (if l ≤ r ∧ r ≤ scanline_row jpg image then 1 else 0)) ∧
    (∀ r c : Int, 0 ≤ c ∧ c < image.width →
      (process_scanline jpg scanline (l, image)).2.pixel (r * image.width + c) =
        image.pixel (r * image.width + c) +
          (if l ≤ r ∧ r ≤ scanline_row jpg image then
            column_intensity jpg scanline image.lookup_resx c else 0)) := by
  have hiff : ∀ r : Int, (l ≤ r ∧ r < l + ((scanline_row jpg image + 1 - l).toNat : Int)) ↔
      (l ≤ r ∧ r ≤ scanline_row jpg image) := by
    intro r
    omega
  refine ⟨rfl, process_rows_frame _ _ _ _ _, ?_, ?_⟩
  · intro r
    have h := process_rows_yadds jpg scanline (scanline_row jpg image + 1 - l).toNat l image r
    simp only [hiff] at h
    exact h
  · intro r c hc
    have h := process_rows_pixel jpg scanline (scanline_row jpg image + 1 - l).toNat l image r c hc
    simp only [hiff] at h
    exact h

theorem sample_le (scanline : List Nat) (h : ∀ v ∈ scanline, v ≤ 255) (i : Int) :
    sample scanline i ≤ 255 := by
  unfold sample
  split
  · rw [List.getD_eq_getElem?_getD]
    cases hget : scanline[i.toNat]? with
    | none => simp
    | some v => exact h v (List.getElem?_mem hget)
  · omega

theorem sum_samples_bounds (source : Int → Nat) (h : ∀ i, source i ≤ 255) (m : Nat) :
    0 ≤ (List.range m).foldl (fun v (k : Nat) => v + (source ((k : Int) + 1) : ℚ)) (source 0 : ℚ) ∧
      (List.range m).foldl (fun v (k : Nat) => v + (source ((k : Int) + 1) : ℚ)) (source 0 : ℚ)
        ≤ 255 * ((m : ℚ) + 1) := by
  induction m with
  | zero =>
    have h0 : (source 0 : ℚ) ≤ 255 := by exact_mod_cast h 0
    simp only [List.range_zero, List.foldl_nil, Nat.cast_zero, zero_add, mul_one]
    exact ⟨by positivity, h0⟩
  | succ m ih =>
    have h1 : (source ((m : Int) + 1) : ℚ) ≤ 255 := by exact_mod_cast h ((m : Int) + 1)
    have h2 : (0 : ℚ) ≤ (source ((m : Int) + 1) : ℚ) := by positivity
    rw [List.range_succ, List.foldl_append]
    simp only [List.foldl_cons, List.foldl_nil]
    push_cast
    constructor <;> linarith [ih.1, ih.2]

/-- Each contribution of `store_intensity` lies in [0,1] when the samples are
8-bit values and there is at least one component per pixel. -/
theorem store_intensity_range (source : Int → Nat) (h : ∀ i, source i ≤ 255) (components : Int)
    (hN : 1 ≤ components) :
    0 ≤ store_intensity source 0 components ∧ store_intensity source 0 components ≤ 1 := by
  have hb := sum_samples_bounds source h (components - 1).toNat
  have hm : (((components - 1).toNat : Nat) : ℚ) + 1 = (components : ℚ) := by
    have : (((components - 1).toNat : Nat) : Int) + 1 = components := by omega
    exact_mod_cast this
  have hNq : (0 : ℚ) < 255 * (components : ℚ) := by
    have : (0 : ℚ) < (components : ℚ) := by exact_mod_cast (show (0 : Int) < components by omega)
    positivity
  rw [hm] at hb
  unfold store_intensity
  simp only [zero_add]
  exact ⟨div_nonneg hb.1 hNq.le, (div_le_one hNq).mpr hb.2⟩

theorem column_intensity_range (jpg : JpegInfo) (scanline : List Nat)
    (h : ∀ v ∈ scanline, v ≤ 255) (hN : 1 ≤ jpg.out_color_components) (lookup_resx : Int → Int)
    (x : Int) :
    0 ≤ column_intensity jpg scanline lookup_resx x ∧
      column_intensity jpg scanline lookup_resx x ≤ 1 :=
  store_intensity_range _ (fun _ => sample_le scanline h _) _ hN

theorem process_scanline_bounded (jpg : JpegInfo) (scanline : List Nat)
    (h : ∀ v ∈ scanline, v ≤ 255) (hN : 1 ≤ jpg.out_color_components) (l : Int) (image : Image)
    (hb : sums_bounded image) : sums_bounded (process_scanline jpg scanline (l, image)).2 := by
  obtain ⟨_, hf, hy, hp⟩ := process_scanline_spec jpg scanline l image
  intro r c hc
  rw [hf.1] at hc ⊢
  have hci := column_intensity_range jpg scanline h hN image.lookup_resx c
  have hold := hb r c hc
  rw [hp r c hc, hy r]
  split
  · push_cast
    constructor <;> linarith [hci.1, hci.2, hold.1, hold.2]
  · simpa using hold

theorem read_scanlines_succ (src : Source) (n : Nat) (st : Int × Image) :
    read_scanlines src (n + 1) st =
      process_scanline { src.jpg with output_scanline := n + 1 } (src.scanlines.getD n [])
        ((read_scanlines src n st).1, (read_scanlines src n st).2) := by
  unfold read_scanlines
  rw [List.range_succ, List.foldl_append]
  rfl

theorem scanline_8bit (src : Source) (hs : samples_8bit src) (n : Nat) :
    ∀ v ∈ src.scanlines.getD n [], v ≤ 255 := by
  rw [List.getD_eq_getElem?_getD]
  cases hget : src.scanlines[n]? with
  | none => simp
  | some sl => exact hs sl (List.getElem?_mem hget)

theorem read_scanlines_frame (src : Source) (n : Nat) (st : Int × Image) :
    same_frame (read_scanlines src n st).2 st.2 := by
  induction n with
  | zero => exact ⟨rfl, rfl, rfl, rfl, rfl⟩
  | succ n ih =>
    rw [read_scanlines_succ]
    obtain ⟨_, hf, _, _⟩ := process_scanline_spec { src.jpg with output_scanline := n + 1 }
      (src.scanlines.getD n []) (read_scanlines src n st).1 (read_scanlines src n st).2
    obtain ⟨a1, a2, a3, a4, a5⟩ := hf
    obtain ⟨b1, b2, b3, b4, b5⟩ := ih
    exact ⟨a1.trans b1, a2.trans b2, a3.trans b3, a4.trans b4, a5.trans b5⟩

theorem read_scanlines_bounded (src : Source) (hs : samples_8bit src)
    (hN : 1 ≤ src.jpg.out_color_components) (n : Nat) (st : Int × Image)
    (hb : sums_bounded st.2) : sums_bounded (read_scanlines src n st).2 := by
  induction n with
  | zero => exact hb
  | succ n ih =>
    rw [read_scanlines_succ]
    exact process_scanline_bounded { src.jpg with output_scanline := n + 1 }
      (src.scanlines.getD n []) (scanline_8bit src hs n) hN (read_scanlines src n st).1
      (read_scanlines src n st).2 ih

/-! ## Normalizer -/

theorem foldl_unchanged {α β : Type} (a : α) (l : List β) :
    l.foldl (fun (px : α) (_ : β) => px) a = a := by
  induction l with
  | nil => rfl
  | cons _ t ih => exact ih

/-- The inner loop of `normalize` for row `y`, read at the cell `(r, c)`. -/
theorem normalize_row (w : Int) (count : Int) (y : Nat) (px : Int → ℚ) (r c : Int)
    (hc : 0 ≤ c ∧ c < w) :
    ((List.range w.toNat).foldl
        (fun px (x : Nat) =>
          if count ≠ 0 then modify_at px ((y : Int) * w + x) (fun v => v / (count : ℚ)) else px)
        px) (r * w + c) =
      if r = y ∧ count ≠ 0 then px (r * w + c) / (count : ℚ) else px (r * w + c) := by
  by_cases h0 : count = 0
  · simp only [h0, ne_eq, not_true_eq_false, if_false, and_false]
    rw [foldl_unchanged]
  · simp only [ne_eq, h0, not_false_eq_true, if_true, and_true]
    have h := foldl_modify_range (fun (_ : Nat) (v : ℚ) => v / (count : ℚ)) ((y : Int) * w)
      w.toNat px (r * w + c)
    have hw : ((w.toNat : Nat) : Int) = w := by omega
    rw [hw] at h
    rw [h]
    have hrow := cell_index_row w r c y hc
    by_cases hr : r = y
    · rw [if_pos (hrow.mpr hr), if_pos hr]
    · rw [if_neg (fun hh => hr (hrow.mp hh)), if_neg hr]

theorem normalize_rows (image : Image) (m : Nat) (r c : Int) (hc : 0 ≤ c ∧ c < image.width) :
    ((List.range m).foldl
        (fun px (y : Nat) =>
          (List.range image.width.toNat).foldl
            (fun px (x : Nat) =>
              if image.yadds y ≠ 0 then
                modify_at px ((y : Int) * image.width + x) (fun v => v / (image.yadds y : ℚ))
              else px)
            px)
        image.pixel) (r * image.width + c) =
      if (0 ≤ r ∧ r < m) ∧ image.yadds r ≠ 0 then
        image.pixel (r * image.width + c) / (image.yadds r : ℚ)
      else image.pixel (r * image.width + c) := by
  induction m with
  | zero =>
    have h : ¬ ((0 ≤ r ∧ r < ((0 : Nat) : Int)) ∧ image.yadds r ≠ 0) := by omega
    rw [if_neg h]
    rfl
  | succ m ih =>
    rw [List.range_succ, List.foldl_append]
    simp only [List.foldl_cons, List.foldl_nil]
    rw [normalize_row image.width (image.yadds m) m _ r c hc, ih]
    by_cases hr : r = m
    · subst hr
      have h1 : ¬ ((0 ≤ (m : Int) ∧ (m : Int) < (m : Int)) ∧ image.yadds m ≠ 0) := by omega
      rw [if_neg h1]
      by_cases h0 : image.yadds (m : Int) ≠ 0
      · have h2 : (0 ≤ (m : Int) ∧ (m : Int) < ((m + 1 : Nat) : Int)) ∧ image.yadds m ≠ 0 :=
          ⟨by omega, h0⟩
        rw [if_pos ⟨rfl, h0⟩, if_pos h2]
      · have h2 : ¬ ((0 ≤ (m : Int) ∧ (m : Int) < ((m + 1 : Nat) : Int)) ∧ image.yadds m ≠ 0) :=
          fun hh => h0 hh.2
        rw [if_neg (fun hh => h0 hh.2), if_neg h2]
    · rw [if_neg (fun hh => hr hh.1)]
      by_cases h1 : (0 ≤ r ∧ r < (m : Int)) ∧ image.yadds r ≠ 0
      · have h2 : (0 ≤ r ∧ r < ((m + 1 : Nat) : Int)) ∧ image.yadds r ≠ 0 := ⟨by omega, h1.2⟩
        rw [if_pos h1, if_pos h2]
      · have h2 : ¬ ((0 ≤ r ∧ r < ((m + 1 : Nat) : Int)) ∧ image.yadds r ≠ 0) := by
          intro hh
          exact h1 ⟨by omega, hh.2⟩
        rw [if_neg h1, if_neg h2]

/-- `normalize` divides each cell of the grid by the count of its row when
that count is not zero, and leaves it as it is otherwise. -/
theorem normalize_pixel (image : Image) (r c : Int) (hr : 0 ≤ r ∧ r < image.height)
    (hc : 0 ≤ c ∧ c < image.width) :
    (normalize image).pixel (r * image.width + c) =
      if image.yadds r ≠ 0 then image.pixel (r * image.width + c) / (image.yadds r : ℚ)
      else image.pixel (r * image.width + c) := by
  have h := normalize_rows image image.height.toNat r c hc
  have hh : ((image.height.toNat : Nat) : Int) = image.height := by omega
  rw [hh] at h
  unfold normalize
  dsimp only
  rw [h]
  by_cases h0 : image.yadds r ≠ 0
  · rw [if_pos ⟨hr, h0⟩, if_pos h0]
  · rw [if_neg (fun hx => h0 hx.2), if_neg h0]

theorem normalize_cells_in_unit (image : Image) (hb : sums_bounded image) :
    cells_in_unit (normalize image) := by
  intro r c hr0 hr1 hc0 hc1
  have hw : (normalize image).width = image.width := rfl
  have hh : (normalize image).height = image.height := rfl
  rw [hw] at hc1 ⊢
  rw [hh] at hr1
  rw [normalize_pixel image r c ⟨hr0, hr1⟩ ⟨hc0, hc1⟩]
  have hcell := hb r c ⟨hc0, hc1⟩
  have hy : (0 : ℚ) ≤ (image.yadds r : ℚ) := hcell.1.trans hcell.2
  split
  · rename_i h0
    have hpos : (0 : ℚ) < (image.yadds r : ℚ) := by
      rcases hy.lt_or_eq with h | h
      · exact h
      · exact absurd (by exact_mod_cast h.symm) h0
    exact ⟨div_nonneg hcell.1 hy, (div_le_one hpos).mpr hcell.2⟩
  · rename_i h0
    have hz : image.yadds r = 0 := not_not.mp h0
    rw [hz] at hcell
    have : image.pixel (r * image.width + c) = 0 := le_antisymm (by exact_mod_cast hcell.2) hcell.1
    rw [this]
    exact ⟨le_refl _, zero_le_one⟩

/-- The grid `decompress` renders has every cell in [0,1], for 8-bit samples
and at least one component per pixel. -/
theorem decompress_image_cells (src : Source) (g : Globals) (hs : samples_8bit src)
    (hN : 1 ≤ src.jpg.out_color_components) : cells_in_unit (decompress_image src g).2 := by
  unfold decompress_image accumulate
  apply normalize_cells_in_unit
  apply read_scanlines_bounded src hs hN
  intro r c _
  exact ⟨le_refl _, le_refl _⟩

theorem decompress_image_size (src : Source) (g : Globals) :
    (decompress_image src g).2.width = g.width ∧ (decompress_image src g).2.height = g.height := by
  have h := read_scanlines_frame src src.jpg.output_height
    (g.lasty, init_image (clear (malloc_image g).1) src.jpg)
  exact ⟨h.1, h.2.1⟩

/-- C9: for the grid that `init_image`, `process_scanline` over all scanlines
(8-bit samples, at least one component per pixel) and `normalize` produce
under a configuration `g`, for every rendering configuration `gr` with a
palette of length `L + 1 >= 2` and either value of `invert` (and of the
flips), the index into `ascii_palette` that `print_image` computes for every
cell lies in `[0, L]`. -/
theorem palette_index_in_bounds (src : Source) (g gr : Globals) (hs : samples_8bit src)
    (hN : 1 ≤ src.jpg.out_color_components) (hlen : 2 ≤ gr.ascii_palette.length) (y x : Int)
    (hy : 0 ≤ y ∧ y < g.height) (hx : 0 ≤ x ∧ x < g.width) :
    0 ≤ palette_index gr (decompress_image src g).2 ((gr.ascii_palette.length : Int) - 1) y x ∧
      palette_index gr (decompress_image src g).2 ((gr.ascii_palette.length : Int) - 1) y x
        ≤ (gr.ascii_palette.length : Int) - 1 := by
  have hsize := decompress_image_size src g
  have hcells := decompress_image_cells src g hs hN
  have hrow : 0 ≤ (if gr.flipy = 0 then y else (decompress_image src g).2.height - y - 1) ∧
      (if gr.flipy = 0 then y else (decompress_image src g).2.height - y - 1)
        < (decompress_image src g).2.height := by
    rw [hsize.2]
    split <;> omega
  have hv := hcells _ x hrow.1 hrow.2 hx.1 (by rw [hsize.1]; exact hx.2)
  exact palette_index_range gr _ _ y x (by omega) hv.1 hv.2

/-! ## The accumulated grid in closed form -/

theorem unsigned_pred (n : Nat) (h1 : 1 ≤ n) (h2 : n < 2 ^ 32) :
    (n + 2 ^ 32 - 1) % 2 ^ 32 = n - 1 := by
  norm_num at h2 ⊢
  omega

theorem scanline_row_eq (jpg : JpegInfo) (image : Image) (s : Nat) (hs : s + 1 < 2 ^ 32) :
    scanline_row { jpg with output_scanline := s + 1 } image = row_of image.resize_y s := by
  unfold scanline_row row_of
  dsimp only
  rw [unsigned_pred (s + 1) (by omega) hs, Nat.add_sub_cancel]

/-- The cursor, the row counts and the cell sums after the first `n` scanlines
have been processed in order, from the cursor `l0` and the image `image`. -/
theorem read_scanlines_closed (src : Source) (l0 : Int) (image : Image) (n : Nat)
    (hn : n < 2 ^ 32) :
    (read_scanlines src n (l0, image)).1 = cursor_before image.resize_y l0 n ∧
    (∀ r : Int, (read_scanlines src n (l0, image)).2.yadds r =
      image.yadds r +
        Finset.sum (Finset.range n)
          (fun s => if contributes image.resize_y l0 s r then (1 : Int) else 0)) ∧
    (∀ r c : Int, 0 ≤ c ∧ c < image.width →
      (read_scanlines src n (l0, image)).2.pixel (r * image.width + c) =
        image.pixel (r * image.width + c) +
          Finset.sum (Finset.range n)
            (fun s => if contributes image.resize_y l0 s r then
              column_intensity src.jpg (src.scanlines.getD s []) image.lookup_resx c
              else (0 : ℚ))) := by
  induction n with
  | zero =>
    refine ⟨rfl, ?_, ?_⟩
    · intro r
      simp [read_scanlines]
    · intro r c _
      simp [read_scanlines]
  | succ n ih =>
    obtain ⟨ih1, ih2, ih3⟩ := ih (by omega)
    have hf := read_scanlines_frame src n (l0, image)
    obtain ⟨f1, _, f3, _, f5⟩ := hf
    dsimp only at f1 f3 f5
    obtain ⟨s1, _, s3, s4⟩ := process_scanline_spec { src.jpg with output_scanline := n + 1 }
      (src.scanlines.getD n []) (read_scanlines src n (l0, image)).1
      (read_scanlines src n (l0, image)).2
    rw [scanline_row_eq src.jpg _ n hn, f3, ih1] at s1 s3 s4
    rw [f1, f5] at s4
    rw [read_scanlines_succ, ih1]
    refine ⟨?_, ?_, ?_⟩
    · rw [s1]
      simp [cursor_before]
    · intro r
      rw [s3 r, ih2 r, Finset.sum_range_succ, add_assoc]
      rfl
    · intro r c hc
      rw [s4 r c hc, ih3 r c hc, Finset.sum_range_succ, add_assoc]
      rfl

theorem init_image_resize_y (g : Globals) (jpg : JpegInfo) (h1 : 1 ≤ jpg.output_height)
    (h2 : jpg.output_height < 2 ^ 32) :
    (init_image (clear (malloc_image g).1) jpg).resize_y =
      float_div (float_of_int (g.height - 1))
        (float_of_int ((jpg.output_height - 1 : Nat) : Int)) := by
  unfold init_image clear malloc_image
  dsimp only
  rw [unsigned_pred _ h1 h2]

/-- The row counts and the cell sums `accumulate` leaves. -/
theorem accumulate_closed (src : Source) (g : Globals) (h2 : src.jpg.output_height < 2 ^ 32) :
    (∀ r : Int, (accumulate src g).2.yadds r =
      Finset.sum (Finset.range src.jpg.output_height)
        (fun s => if contributes (init_image (clear (malloc_image g).1) src.jpg).resize_y
          g.lasty s r then (1 : Int) else 0)) ∧
    (∀ r c : Int, 0 ≤ c ∧ c < g.width →
      (accumulate src g).2.pixel (r * g.width + c) =
        Finset.sum (Finset.range src.jpg.output_height)
          (fun s => if contributes (init_image (clear (malloc_image g).1) src.jpg).resize_y
            g.lasty s r then
              column_intensity src.jpg (src.scanlines.getD s [])
                (init_image (clear (malloc_image g).1) src.jpg).lookup_resx c
            else (0 : ℚ))) := by
  obtain ⟨_, hy, hp⟩ := read_scanlines_closed src g.lasty
    (init_image (clear (malloc_image g).1) src.jpg) src.jpg.output_height h2
  have hw : (init_image (clear (malloc_image g).1) src.jpg).width = g.width := rfl
  have hy0 : ∀ r, (init_image (clear (malloc_image g).1) src.jpg).yadds r = 0 := fun _ => rfl
  have hp0 : ∀ k, (init_image (clear (malloc_image g).1) src.jpg).pixel k = 0 := fun _ => rfl
  constructor
  · intro r
    have h := hy r
    rw [hy0, zero_add] at h
    exact h
  · intro r c hc
    have h := hp r c (by rw [hw]; exact hc)
    rw [hw, hp0, zero_add] at h
    exact h

theorem jpeg_height_le (jpg : JpegInfo) : jpg.output_height ≤ 65500 := jpg.dimensions.2

theorem jpeg_width_le (jpg : JpegInfo) : jpg.output_width ≤ 65500 := jpg.dimensions.1

/-- The single-precision quotient of two integers that are not rounded: it
is finite and within the relative error `2^-24` of the exact quotient. -/
theorem float_div_int (a b : Int) (ha : 0 ≤ a) (ha2 : a < 2 ^ 24) (hb : 1 ≤ b)
    (hb2 : b < 2 ^ 24) :
    ∃ q : ℚ, float_div (float_of_int a) (float_of_int b) = some q ∧
      (a : ℚ) / (b : ℚ) * (1 - 1 / 2 ^ 24) ≤ q ∧ q ≤ (a : ℚ) / (b : ℚ) * (1 + 1 / 2 ^ 24) ∧
      (q = 0 ∨ 1 / 2 ^ 25 ≤ q) := by
  have hfa : float_of_int a = some (a : ℚ) := float_of_int_exact a (by rw [abs_lt]; omega)
  have hfb : float_of_int b = some (b : ℚ) := float_of_int_exact b (by rw [abs_lt]; omega)
  have haq : (0 : ℚ) ≤ (a : ℚ) := by exact_mod_cast ha
  have haq2 : (a : ℚ) < 2 ^ 24 := by exact_mod_cast ha2
  have hbq : (1 : ℚ) ≤ (b : ℚ) := by exact_mod_cast hb
  have hbq2 : (b : ℚ) < 2 ^ 24 := by exact_mod_cast hb2
  have hbpos : (0 : ℚ) < (b : ℚ) := by linarith
  have hq0 : (0 : ℚ) ≤ (a : ℚ) / (b : ℚ) := by positivity
  have hqle : (a : ℚ) / (b : ℚ) ≤ 2 ^ 24 := by
    rw [div_le_iff₀ hbpos]
    nlinarith
  have hcase : (a : ℚ) / (b : ℚ) = 0 ∨ 1 / 2 ^ 24 ≤ (a : ℚ) / (b : ℚ) := by
    rcases eq_or_lt_of_le ha with h0 | h0
    · left
      rw [← h0]
      simp
    · right
      have h1 : (1 : ℚ) ≤ (a : ℚ) := by exact_mod_cast (show (1 : Int) ≤ a by omega)
      rw [le_div_iff₀ hbpos]
      nlinarith
  obtain ⟨q, hq, hlo, hhi⟩ := round32_spec (x := (a : ℚ) / (b : ℚ))
    (by
      rcases hcase with h | h
      · exact Or.inl h
      · right
        have : (1 : ℚ) / 2 ^ 126 ≤ 1 / 2 ^ 24 := by norm_num
        linarith)
    (by
      have : (2 : ℚ) ^ 24 ≤ 2 ^ 100 := by norm_num
      linarith)
  refine ⟨q, ?_, hlo, hhi, ?_⟩
  · rw [hfa, hfb]
    unfold float_div
    simp only
    rw [if_neg (ne_of_gt hbpos), hq]
  · rcases hcase with h | h
    · left
      rw [h, zero_mul] at hlo hhi
      linarith
    · right
      have : (1 : ℚ) / 2 ^ 24 * (1 - 1 / 2 ^ 24) ≤ (a : ℚ) / (b : ℚ) * (1 - 1 / 2 ^ 24) :=
        mul_le_mul_of_nonneg_right h (by norm_num)
      have : (1 : ℚ) / 2 ^ 25 ≤ 1 / 2 ^ 24 * (1 - 1 / 2 ^ 24) := by norm_num
      linarith

/-- The destination row of source row `s` under a finite row scale `ry`: it
lies within the rounding errors of the product and the sum. -/
theorem row_of_bounds (ry : ℚ) (s : Nat) (hry : ry = 0 ∨ 1 / 2 ^ 25 ≤ ry) (hs : s < 2 ^ 24)
    (hb : ry * (s : ℚ) ≤ 2 ^ 31 - 2 ^ 10) :
    0 ≤ row_of (some ry) s ∧
      (row_of (some ry) s : ℚ) ≤ (1 / 2 + ry * (s : ℚ) * (1 + 1 / 2 ^ 24)) * (1 + 1 / 2 ^ 24) ∧
      (1 / 2 + ry * (s : ℚ) * (1 - 1 / 2 ^ 24)) * (1 - 1 / 2 ^ 24) - 1 <
        (row_of (some ry) s : ℚ) := by
  have hfs : float_of_int (s : Int) = some (s : ℚ) := by
    have := float_of_int_exact (s : Int) (by rw [abs_lt]; omega)
    simpa using this
  have hry0 : 0 ≤ ry := by
    rcases hry with h | h
    · rw [h]
    · have : (0 : ℚ) < 1 / 2 ^ 25 := by positivity
      linarith
  have hsq : (0 : ℚ) ≤ (s : ℚ) := Nat.cast_nonneg s
  have hx0 : 0 ≤ ry * (s : ℚ) := mul_nonneg hry0 hsq
  obtain ⟨v, hv, hvlo, hvhi⟩ := round32_spec (x := ry * (s : ℚ))
    (by
      rcases hry with h | h
      · left
        rw [h, zero_mul]
      · rcases Nat.eq_zero_or_pos s with h0 | h0
        · left
          rw [h0]
          simp
        · right
          have h1 : (1 : ℚ) ≤ (s : ℚ) := by exact_mod_cast h0
          have h2 : (1 : ℚ) / 2 ^ 126 ≤ 1 / 2 ^ 25 := by norm_num
          nlinarith)
    (by
      have : (2 : ℚ) ^ 31 ≤ 2 ^ 100 := by norm_num
      linarith)
  have hv0 : 0 ≤ v := by
    have : (0 : ℚ) ≤ ry * (s : ℚ) * (1 - 1 / 2 ^ 24) := mul_nonneg hx0 (by norm_num)
    linarith
  have hv1 : v ≤ 2 ^ 31 - 2 ^ 9 := by
    have e : ry * (s : ℚ) * (1 + 1 / 2 ^ 24) ≤ (2 ^ 31 - 2 ^ 10) * (1 + 1 / 2 ^ 24) :=
      mul_le_mul_of_nonneg_right hb (by norm_num)
    have e2 : ((2 : ℚ) ^ 31 - 2 ^ 10) * (1 + 1 / 2 ^ 24) ≤ 2 ^ 31 - 2 ^ 9 := by norm_num
    linarith
  have hval : float_mul (some ry) (float_of_int (s : Int)) = some v := by
    rw [hfs]
    unfold float_mul
    simp only
    exact hv
  unfold row_of
  rw [hval]
  obtain ⟨r0, r1, r2⟩ := ROUND_float_some hv0 hv1
  refine ⟨r0, ?_, ?_⟩
  · have : (1 / 2 + v) * (1 + 1 / 2 ^ 24) ≤
        (1 / 2 + ry * (s : ℚ) * (1 + 1 / 2 ^ 24)) * (1 + 1 / 2 ^ 24) :=
      mul_le_mul_of_nonneg_right (by linarith) (by norm_num)
    linarith
  · have : (1 / 2 + ry * (s : ℚ) * (1 - 1 / 2 ^ 24)) * (1 - 1 / 2 ^ 24) ≤
        (1 / 2 + v) * (1 - 1 / 2 ^ 24) :=
      mul_le_mul_of_nonneg_right (by linarith) (by norm_num)
    linarith

/-- The rows of a target height `h` between 1 and `2^21` and a source height
`H >= 2`: the row scale is finite, every source row maps into `[0, h)`, and
the last source row maps to the last destination row. -/
theorem rows_in_range (h : Int) (H : Nat) (hh : 1 ≤ h) (hh2 : h ≤ 2 ^ 21) (hH : 2 ≤ H)
    (hH2 : H ≤ 65500) :
    ∃ ry : ℚ, float_div (float_of_int (h - 1)) (float_of_int ((H - 1 : Nat) : Int)) = some ry ∧
      (∀ s : Nat, s < H → 0 ≤ row_of (some ry) s ∧ row_of (some ry) s ≤ h - 1) ∧
      row_of (some ry) (H - 1) = h - 1 := by
  obtain ⟨ry, hry, hlo, hhi, hcase⟩ := float_div_int (h - 1) ((H - 1 : Nat) : Int) (by omega)
    (by omega) (by omega) (by omega)
  have hm0 : (0 : ℚ) ≤ ((h - 1 : Int) : ℚ) := by exact_mod_cast (show (0 : Int) ≤ h - 1 by omega)
  have hm1 : ((h - 1 : Int) : ℚ) ≤ 2 ^ 21 - 1 := by
    exact_mod_cast (show h - 1 ≤ 2 ^ 21 - 1 by omega)
  have hn1 : (1 : ℚ) ≤ (((H - 1 : Nat) : Int) : ℚ) := by
    exact_mod_cast (show (1 : Int) ≤ ((H - 1 : Nat) : Int) by omega)
  have hnpos : (0 : ℚ) < (((H - 1 : Nat) : Int) : ℚ) := by linarith
  have hqn : ((h - 1 : Int) : ℚ) / (((H - 1 : Nat) : Int) : ℚ) * (((H - 1 : Nat) : Int) : ℚ) =
      ((h - 1 : Int) : ℚ) := div_mul_cancel₀ _ (ne_of_gt hnpos)
  have hry0 : 0 ≤ ry := by
    have : (0 : ℚ) ≤ ((h - 1 : Int) : ℚ) / (((H - 1 : Nat) : Int) : ℚ) * (1 - 1 / 2 ^ 24) :=
      mul_nonneg (by positivity) (by norm_num)
    linarith
  have hnhi : ry * (((H - 1 : Nat) : Int) : ℚ) ≤ ((h - 1 : Int) : ℚ) * (1 + 1 / 2 ^ 24) := by
    have := mul_le_mul_of_nonneg_right hhi hnpos.le
    calc ry * (((H - 1 : Nat) : Int) : ℚ)
        ≤ ((h - 1 : Int) : ℚ) / (((H - 1 : Nat) : Int) : ℚ) * (1 + 1 / 2 ^ 24) *
            (((H - 1 : Nat) : Int) : ℚ) := this
      _ = ((h - 1 : Int) : ℚ) / (((H - 1 : Nat) : Int) : ℚ) * (((H - 1 : Nat) : Int) : ℚ) *
            (1 + 1 / 2 ^ 24) := by ring
      _ = ((h - 1 : Int) : ℚ) * (1 + 1 / 2 ^ 24) := by rw [hqn]
  have hnlo : ((h - 1 : Int) : ℚ) * (1 - 1 / 2 ^ 24) ≤ ry * (((H - 1 : Nat) : Int) : ℚ) := by
    have := mul_le_mul_of_nonneg_right hlo hnpos.le
    calc ((h - 1 : Int) : ℚ) * (1 - 1 / 2 ^ 24)
        = ((h - 1 : Int) : ℚ) / (((H - 1 : Nat) : Int) : ℚ) * (((H - 1 : Nat) : Int) : ℚ) *
            (1 - 1 / 2 ^ 24) := by rw [hqn]
      _ = ((h - 1 : Int) : ℚ) / (((H - 1 : Nat) : Int) : ℚ) * (1 - 1 / 2 ^ 24) *
            (((H - 1 : Nat) : Int) : ℚ) := by ring
      _ ≤ ry * (((H - 1 : Nat) : Int) : ℚ) := this
  have hrow : ∀ s : Nat, s < H → ry * (s : ℚ) ≤ ((h - 1 : Int) : ℚ) * (1 + 1 / 2 ^ 24) := by
    intro s hs
    have hs1 : (s : ℚ) ≤ (((H - 1 : Nat) : Int) : ℚ) := by
      exact_mod_cast (show (s : Int) ≤ ((H - 1 : Nat) : Int) by omega)
    have := mul_le_mul_of_nonneg_left hs1 hry0
    linarith
  have hbig : ((2 : ℚ) ^ 21 - 1) * (1 + 1 / 2 ^ 24) ≤ 2 ^ 31 - 2 ^ 10 := by norm_num
  have hupper : ∀ s : Nat, s < H → row_of (some ry) s ≤ h - 1 ∧ 0 ≤ row_of (some ry) s := by
    intro s hs
    have hx := hrow s hs
    obtain ⟨r0, r1, _⟩ := row_of_bounds ry s hcase (by omega) (by nlinarith)
    refine ⟨?_, r0⟩
    have h1 : (1 / 2 + ry * (s : ℚ) * (1 + 1 / 2 ^ 24)) * (1 + 1 / 2 ^ 24) ≤
        (1 / 2 + ((h - 1 : Int) : ℚ) * (1 + 1 / 2 ^ 24) * (1 + 1 / 2 ^ 24)) * (1 + 1 / 2 ^ 24) := by
      apply mul_le_mul_of_nonneg_right _ (by norm_num)
      have := mul_le_mul_of_nonneg_right hx (show (0 : ℚ) ≤ 1 + 1 / 2 ^ 24 by norm_num)
      linarith
    have h2 : (row_of (some ry) s : ℚ) < ((h - 1 : Int) : ℚ) + 1 := by nlinarith
    have h3 : row_of (some ry) s < (h - 1) + 1 := by exact_mod_cast h2
    omega
  refine ⟨ry, hry, fun s hs => ⟨(hupper s hs).2, (hupper s hs).1⟩, ?_⟩
  have hle := (hupper (H - 1) (by omega)).1
  have hcast : ((H - 1 : Nat) : ℚ) = (((H - 1 : Nat) : Int) : ℚ) := by norm_cast
  obtain ⟨_, _, r2⟩ := row_of_bounds ry (H - 1) hcase (by omega)
    (by rw [hcast]; nlinarith)
  rw [hcast] at r2
  have h1 : (1 / 2 + ((h - 1 : Int) : ℚ) * (1 - 1 / 2 ^ 24) * (1 - 1 / 2 ^ 24)) *
        (1 - 1 / 2 ^ 24) ≤
      (1 / 2 + ry * (((H - 1 : Nat) : Int) : ℚ) * (1 - 1 / 2 ^ 24)) * (1 - 1 / 2 ^ 24) := by
    apply mul_le_mul_of_nonneg_right _ (by norm_num)
    have := mul_le_mul_of_nonneg_right hnlo (show (0 : ℚ) ≤ 1 - 1 / 2 ^ 24 by norm_num)
    linarith
  have h2 : ((h - 1 : Int) : ℚ) - 1 < (row_of (some ry) (H - 1) : ℚ) := by nlinarith
  have h3 : (h - 1) - 1 < row_of (some ry) (H - 1) := by exact_mod_cast h2
  omega

/-- C3 as stated fails: for the source 1 wide and 130 high under
`--size=1x8454210`, with the cursor starting from 0, the last source row maps
to destination row 8454208, and after all scanlines the last destination row
8454209 has `yadds = 0`. -/
theorem last_row_left_uncovered :
    row_of (init_image (clear (malloc_image config_1x8454210).1) black_1x130.jpg).resize_y 129 =
        8454208 ∧
      (accumulate black_1x130 config_1x8454210).2.yadds 8454209 = 0 := by
  refine ⟨by decide!, ?_⟩
  rw [(accumulate_closed black_1x130 config_1x8454210 (by decide)).1]
  apply Finset.sum_eq_zero
  intro s hs
  have hall : ∀ s : Nat, s < 130 →
      ¬ contributes (init_image (clear (malloc_image config_1x8454210).1) black_1x130.jpg).resize_y
        config_1x8454210.lasty s 8454209 := by
    decide!
  exact if_neg (hall s (Finset.mem_range.mp hs))

/-- C3 as amended: for a source of height at least 2 and a target height `h`
between 1 and `2^21`, with the cursor starting from 0, after
`process_scanline` has run once for each source row in order,
`yadds[r] >= 1` for every destination row `r` in `[0, h)`. -/
theorem rows_covered (src : Source) (g : Globals) (hH : 2 ≤ src.jpg.output_height)
    (hH32 : src.jpg.output_height < 2 ^ 32) (hh : 1 ≤ g.height) (hh2 : g.height ≤ 2 ^ 21)
    (hl : g.lasty = 0) (r : Int) (hr : 0 ≤ r ∧ r < g.height) :
    1 ≤ (accumulate src g).2.yadds r := by
  classical
  obtain ⟨ry, hval, _, hlast⟩ := rows_in_range g.height src.jpg.output_height hh hh2 hH
    (jpeg_height_le src.jpg)
  have hry := init_image_resize_y g src.jpg (by omega) hH32
  rw [hval] at hry
  rw [(accumulate_closed src g hH32).1 r, hry, hl]
  have hex : ∃ s : Nat, r ≤ row_of (some ry) s :=
    ⟨src.jpg.output_height - 1, by rw [hlast]; omega⟩
  have hfind := Nat.find_spec hex
  have hle : Nat.find hex ≤ src.jpg.output_height - 1 :=
    Nat.find_min' hex (by rw [hlast]; omega)
  have hcontrib : contributes (some ry) 0 (Nat.find hex) r := by
    refine ⟨?_, hfind⟩
    unfold cursor_before
    split
    · exact hr.1
    · rename_i hne
      have hmin := Nat.find_min hex (show Nat.find hex - 1 < Nat.find hex by omega)
      omega
  have hsingle := Finset.single_le_sum
    (f := fun s => if contributes (some ry) 0 s r then (1 : Int) else 0)
    (s := Finset.range src.jpg.output_height)
    (fun s _ => by dsimp only; split <;> decide)
    (Finset.mem_range.mpr (show Nat.find hex < src.jpg.output_height by omega))
  simp only [if_pos hcontrib] at hsingle
  convert hsingle using 2

/-! ## The column map -/

theorem modify_at_twice (tbl : Int → Int) (x a n : Int) :
    modify_at (modify_at tbl x (fun _ => a)) x (fun v => v * n) =
      modify_at tbl x (fun _ => a * n) := by
  funext k
  unfold modify_at
  split <;> rfl

/-- The column map `init_image` builds. -/
theorem init_image_lookup (i : Image) (jpg : JpegInfo) (c : Int) (hc : 0 ≤ c ∧ c < i.width) :
    (init_image i jpg).lookup_resx c =
      int_of_float
          (float_mul (float_of_int c)
            (float_div (float_of_int (jpg.output_width : Int)) (float_of_int i.width))) *
        jpg.out_color_components := by
  have h := foldl_modify_range
    (fun (x : Nat) (_ : Int) =>
      int_of_float
          (float_mul (float_of_int (x : Int))
            (float_div (float_of_int (jpg.output_width : Int)) (float_of_int i.width))) *
        jpg.out_color_components)
    0 i.width.toNat i.lookup_resx c
  have hin : 0 ≤ c ∧ c < 0 + ((i.width.toNat : Nat) : Int) := by omega
  have hc1 : (((c - 0).toNat : Nat) : Int) = c := by omega
  rw [if_pos hin, hc1] at h
  unfold init_image
  simp only [modify_at_twice]
  simp only [zero_add] at h
  exact h

theorem int_of_float_intCast (n : Int) (h0 : 0 ≤ n) (h1 : n < 2 ^ 31) :
    int_of_float (some (n : ℚ)) = n := by
  rw [int_of_float_floor (by exact_mod_cast h0) (by exact_mod_cast h1), Int.floor_intCast]

/-- The quotient of an integer by itself is 1 in single precision. -/
theorem float_div_self (n : Int) (h0 : 1 ≤ n) (h1 : n < 2 ^ 24) :
    float_div (float_of_int n) (float_of_int n) = some 1 := by
  have hn : float_of_int n = some (n : ℚ) := float_of_int_exact n (by rw [abs_lt]; omega)
  have hne : (n : ℚ) ≠ 0 := by
    have : (0 : ℚ) < (n : ℚ) := by exact_mod_cast (show (0 : Int) < n by omega)
    exact ne_of_gt this
  rw [hn]
  unfold float_div
  simp only
  rw [if_neg hne, div_self hne]
  have := round32_intCast 1 (by norm_num)
  simpa using this

/-! ## The 1:1 mapping -/

theorem row_of_one (s : Nat) (hs : s < 2 ^ 23) : row_of (some 1) s = s := by
  have hfs : float_of_int (s : Int) = some (s : ℚ) := by
    have := float_of_int_exact (s : Int) (by rw [abs_lt]; omega)
    simpa using this
  have hmul : round32 (1 * (s : ℚ)) = some (s : ℚ) := by
    rw [one_mul]
    have := round32_intCast (s : Int) (by rw [abs_lt]; omega)
    simpa using this
  have hadd : round32 (1 / 2 + (s : ℚ)) = some (1 / 2 + (s : ℚ)) := by
    have := round32_exact (2 * (s : Int) + 1) 1 (by rw [abs_lt]; omega) (by omega)
    have e : (((2 * (s : Int) + 1 : Int) : ℚ)) / 2 ^ 1 = 1 / 2 + (s : ℚ) := by
      push_cast
      ring
    rw [e] at this
    exact this
  have hsq : (0 : ℚ) ≤ (s : ℚ) := Nat.cast_nonneg s
  have hs2 : (s : ℚ) < 2 ^ 23 := by exact_mod_cast hs
  unfold row_of ROUND_float float_add float_mul
  rw [hfs]
  simp only
  rw [hmul]
  simp only
  rw [hadd, int_of_float_floor (by linarith) (by
    have : (2 : ℚ) ^ 23 + 1 ≤ 2 ^ 31 := by norm_num
    linarith)]
  rw [Int.floor_eq_iff]
  constructor
  · push_cast
    linarith
  · push_cast
    linarith

theorem contributes_one (s r : Nat) (hs : s < 2 ^ 23) :
    contributes (some 1) 0 s r ↔ (s = r ∨ s = r + 1) := by
  unfold contributes cursor_before
  rw [row_of_one s hs]
  by_cases h0 : s = 0
  · rw [if_pos h0]
    omega
  · rw [if_neg h0, row_of_one (s - 1) (by omega)]
    omega

theorem sum_two_rows {α : Type} [AddCommMonoid α] (f : Nat → α) (r n : Nat) :
    Finset.sum (Finset.range n) (fun s => if s = r ∨ s = r + 1 then f s else 0) =
      (if r < n then f r else 0) + (if r + 1 < n then f (r + 1) else 0) := by
  induction n with
  | zero => simp
  | succ n ih =>
    rw [Finset.sum_range_succ, ih]
    by_cases h1 : n = r
    · subst h1
      simp
    · by_cases h2 : n = r + 1
      · subst h2
        have h6 : r < r + 1 + 1 := by omega
        simp [h6]
      · have h3 : ¬ (n = r ∨ n = r + 1) := by omega
        have h4 : (r < n + 1) ↔ (r < n) := by omega
        have h5 : (r + 1 < n + 1) ↔ (r + 1 < n) := by omega
        simp only [if_neg h3, add_zero, h4, h5]

theorem one_to_one_column (src : Source) (g : Globals) (hw : g.width = src.jpg.output_width)
    (s c : Nat) (hc : c < src.jpg.output_width) :
    column_intensity src.jpg (src.scanlines.getD s [])
        (init_image (clear (malloc_image g).1) src.jpg).lookup_resx c =
      source_intensity src s c := by
  have hw1 : (clear (malloc_image g).1).width = g.width := rfl
  have hW := jpeg_width_le src.jpg
  have hl := init_image_lookup (clear (malloc_image g).1) src.jpg c (by rw [hw1, hw]; omega)
  rw [hw1, hw, float_div_self _ (by omega) (by omega)] at hl
  have hfc : float_of_int ((c : Nat) : Int) = some ((c : Nat) : ℚ) := by
    have := float_of_int_exact (c : Int) (by rw [abs_lt]; omega)
    simpa using this
  have hmul : float_mul (some ((c : Nat) : ℚ)) (some 1) = some (((c : Nat) : Int) : ℚ) := by
    unfold float_mul
    simp only
    rw [mul_one]
    have := round32_intCast (c : Int) (by rw [abs_lt]; omega)
    simpa using this
  rw [hfc, hmul, int_of_float_intCast _ (by omega) (by omega)] at hl
  unfold column_intensity source_intensity
  rw [hl]

theorem accumulate_size (src : Source) (g : Globals) :
    (accumulate src g).2.width = g.width ∧ (accumulate src g).2.height = g.height := by
  have h := read_scanlines_frame src src.jpg.output_height
    (g.lasty, init_image (clear (malloc_image g).1) src.jpg)
  exact ⟨h.1, h.2.1⟩

/-- The grid of sums of a 1:1 mapping: row `r` holds source row `r` plus, when
there is one, source row `r + 1`. -/
theorem one_to_one_sums (src : Source) (g : Globals) (hH : 2 ≤ src.jpg.output_height)
    (hH32 : src.jpg.output_height < 2 ^ 32) (hw : g.width = src.jpg.output_width)
    (hh : g.height = src.jpg.output_height) (hl : g.lasty = 0) (r c : Nat)
    (hc : c < src.jpg.output_width) :
    (accumulate src g).2.yadds r =
        (if r < src.jpg.output_height then 1 else 0) +
          (if r + 1 < src.jpg.output_height then 1 else 0) ∧
      (accumulate src g).2.pixel ((r : Int) * g.width + c) =
        (if r < src.jpg.output_height then source_intensity src r c else 0) +
          (if r + 1 < src.jpg.output_height then source_intensity src (r + 1) c else 0) := by
  have hHle := jpeg_height_le src.jpg
  have hry : (init_image (clear (malloc_image g).1) src.jpg).resize_y = some 1 := by
    rw [init_image_resize_y g src.jpg (by omega) hH32, hh]
    have h1 : ((src.jpg.output_height : Int) - 1 : Int) =
        ((src.jpg.output_height - 1 : Nat) : Int) := by omega
    rw [h1]
    exact float_div_self _ (by omega) (by omega)
  obtain ⟨hy, hp⟩ := accumulate_closed src g hH32
  constructor
  · rw [hy r, hry, hl]
    have e : Finset.sum (Finset.range src.jpg.output_height)
          (fun s => if contributes (some 1) 0 s (r : Int) then (1 : Int) else 0) =
        Finset.sum (Finset.range src.jpg.output_height)
          (fun s => if s = r ∨ s = r + 1 then (1 : Int) else 0) :=
      Finset.sum_congr rfl (fun s hs =>
        if_congr (contributes_one s r (by have := Finset.mem_range.mp hs; omega)) rfl rfl)
    rw [e]
    exact sum_two_rows (fun _ => (1 : Int)) r src.jpg.output_height
  · rw [hp r c (by omega), hry, hl]
    have e : Finset.sum (Finset.range src.jpg.output_height)
          (fun s => if contributes (some 1) 0 s (r : Int) then
            column_intensity src.jpg (src.scanlines.getD s [])
              (init_image (clear (malloc_image g).1) src.jpg).lookup_resx c
            else (0 : ℚ)) =
        Finset.sum (Finset.range src.jpg.output_height)
          (fun s => if s = r ∨ s = r + 1 then source_intensity src s c else 0) :=
      Finset.sum_congr rfl (fun s hs =>
        if_congr (contributes_one s r (by have := Finset.mem_range.mp hs; omega))
          (one_to_one_column src g hw s c hc) rfl)
    rw [e]
    exact sum_two_rows (fun s => source_intensity src s c) r src.jpg.output_height

/-- Witness for C3 as amended: the 8x8 source under `--size=4x4`, at the last
row. -/
theorem rows_covered_witness : 1 ≤ (accumulate white_8x8 config_4x4).2.yadds 3 :=
  rows_covered white_8x8 config_4x4 (by decide) (by decide) (by decide) (by decide) (by decide)
    3 (by decide)

/-- Witness for C9: the 8x8 source under `--size=4x4 --chars=01`, rendered
with `invert` set, at the top left cell. -/
theorem palette_index_in_bounds_witness :
    0 ≤ palette_index { config_4x4 with invert := 1 }
        (decompress_image white_8x8 config_4x4).2 1 0 0 ∧
      palette_index { config_4x4 with invert := 1 }
        (decompress_image white_8x8 config_4x4).2 1 0 0 ≤ 1 :=
  palette_index_in_bounds white_8x8 config_4x4 { config_4x4 with invert := 1 } (by decide)
    (by decide) (by decide) 0 0 (by decide) (by decide)

/-! ## `--width` with `--height` against `--size` -/

/-- C16: `--width=3 --height=2 a.jpg` is accepted with `auto_width = 1` and
`auto_height = 2`, while `--size=3x2 a.jpg` is accepted with both flags
cleared to 0; and `--width=0 --height=2 a.jpg` returns -1 (parsing OK) while
`--size=0x2 a.jpg` returns 1. -/
theorem width_height_differs_from_size (strlen_before : Nat → Nat) :
    parse_options strlen_before ["jp2a", "--width=3", "--height=2", "a.jpg"] initial_globals =
        (-1, { initial_globals with width := 3, height := 2, auto_width := 1, auto_height := 2 }) ∧
      parse_options strlen_before ["jp2a", "--size=3x2", "a.jpg"] initial_globals =
        (-1, { initial_globals with width := 3, height := 2, auto_width := 0, auto_height := 0 }) ∧
      (parse_options strlen_before ["jp2a", "--width=0", "--height=2", "a.jpg"]
        initial_globals).1 = -1 ∧
      (parse_options strlen_before ["jp2a", "--size=0x2", "a.jpg"] initial_globals).1 = 1 :=
  ⟨rfl, rfl, rfl, rfl⟩

/-! ## The scales of `init_image` -/

/-- For a source one row high the divisor of the row scale is 0: the scale is
not finite, and every destination row computed from it is `INT_MIN`. -/
theorem single_source_row_not_finite (i : Image) (jpg : JpegInfo) (h1 : jpg.output_height = 1)
    (jpg1 : JpegInfo) :
    (init_image i jpg).resize_y = none ∧ scanline_row jpg1 (init_image i jpg) = INT_MIN := by
  have hy : (init_image i jpg).resize_y = none := by
    unfold init_image
    dsimp only
    rw [h1]
    have h0 : float_of_int (((1 + 2 ^ 32 - 1) % 2 ^ 32 : Nat) : Int) = some 0 := by
      have := float_of_int_exact 0 (by norm_num)
      simpa using this
    rw [h0]
    unfold float_div
    cases float_of_int (i.height - 1) <;> simp
  refine ⟨hy, ?_⟩
  unfold scanline_row
  rw [hy]
  rfl

/-- C15 as stated fails: for a source 8 high and a target 4 high `init_image`
sets `resize_y` to the single-precision value of 3/7, which is
(4 - 1) / (8 - 1), and not to (8 - 1) / (4 - 1), exact or in single
precision; and for a source 23 high and a target 14 high `process_scanline`
maps source row 11 to destination row 6, while the row scale is 13/22 and
`round(13/22 * 11)` is 7. -/
theorem resize_y_is_not_source_over_target :
    (init_image (clear (malloc_image config_4x4).1) white_8x8.jpg).resize_y =
        some (14380471 / 33554432) ∧
      |(14380471 / 33554432 : ℚ) - 3 / 7| ≤ 3 / 7 / 2 ^ 24 ∧
      (init_image (clear (malloc_image config_4x4).1) white_8x8.jpg).resize_y ≠
        some (((8 : ℚ) - 1) / ((4 : ℚ) - 1)) ∧
      (init_image (clear (malloc_image config_4x4).1) white_8x8.jpg).resize_y ≠
        float_div (float_of_int (8 - 1)) (float_of_int (4 - 1)) ∧
      scanline_row { black_1x23.jpg with output_scanline := 11 + 1 }
        (init_image (clear (malloc_image config_1x14).1) black_1x23.jpg) = 6 ∧
      round ((((14 : Int) - 1 : Int) : ℚ) / (((23 : Nat) - 1 : Nat) : ℚ) * ((11 : Nat) : ℚ)) = 7 := by
  refine ⟨by decide!, by decide!, by decide!, by decide!, by decide!, ?_⟩
  rw [round_eq]
  norm_num [Int.floor_eq_iff]

/-- C15 as amended: for every source of height at least 2 and width at least
1 and every target grid of height between 1 and `2^24` and width between 1
and `2^24 - 1`, `init_image` sets `resize_y` to the single-precision quotient
of `targetHeight - 1` by `sourceHeight - 1` and `resize_x` to the
single-precision quotient of `sourceWidth` by `targetWidth`, each finite and
within the relative error `2^-24` of the exact quotient, and
`process_scanline` maps source row `s` to the destination row
`ROUND(resize_y * s)` evaluated in single precision, which differs from the
exact product `x = (targetHeight - 1) / (sourceHeight - 1) * s` by at most
`1/2 + (x + 1) / 2^21`. -/
theorem init_image_scales (i : Image) (jpg : JpegInfo) (hH : 2 ≤ jpg.output_height)
    (hW : 1 ≤ jpg.output_width) (hh : 1 ≤ i.height ∧ i.height ≤ 2 ^ 24)
    (hw : 1 ≤ i.width ∧ i.width < 2 ^ 24) :
    (∃ ry : ℚ, (init_image i jpg).resize_y = some ry ∧
      some ry = float_div (float_of_int (i.height - 1))
        (float_of_int ((jpg.output_height - 1 : Nat) : Int)) ∧
      |ry - ((i.height - 1 : Int) : ℚ) / ((jpg.output_height - 1 : Nat) : ℚ)| ≤
        ((i.height - 1 : Int) : ℚ) / ((jpg.output_height - 1 : Nat) : ℚ) / 2 ^ 24) ∧
    (∃ rx : ℚ, (init_image i jpg).resize_x = some rx ∧
      some rx = float_div (float_of_int (jpg.output_width : Int)) (float_of_int i.width) ∧
      |rx - (jpg.output_width : ℚ) / (i.width : ℚ)| ≤
        (jpg.output_width : ℚ) / (i.width : ℚ) / 2 ^ 24) ∧
    ∀ s : Nat, s < jpg.output_height →
      scanline_row { jpg with output_scanline := s + 1 } (init_image i jpg) =
          ROUND_float (float_mul (init_image i jpg).resize_y (float_of_int (s : Int))) ∧
        |(scanline_row { jpg with output_scanline := s + 1 } (init_image i jpg) : ℚ) -
            ((i.height - 1 : Int) : ℚ) / ((jpg.output_height - 1 : Nat) : ℚ) * (s : ℚ)| ≤
          1 / 2 +
            (((i.height - 1 : Int) : ℚ) / ((jpg.output_height - 1 : Nat) : ℚ) * (s : ℚ) + 1) /
              2 ^ 21 := by
  have hHle := jpeg_height_le jpg
  have hWle := jpeg_width_le jpg
  have hcast : (((jpg.output_height - 1 : Nat) : Int) : ℚ) = ((jpg.output_height - 1 : Nat) : ℚ) := by
    norm_cast
  have hcastW : (((jpg.output_width : Nat) : Int) : ℚ) = (jpg.output_width : ℚ) := by norm_cast
  obtain ⟨ry, hry, hlo, hhi, hcase⟩ := float_div_int (i.height - 1)
    ((jpg.output_height - 1 : Nat) : Int) (by omega) (by omega) (by omega) (by omega)
  obtain ⟨rx, hrx, hxlo, hxhi, _⟩ := float_div_int (jpg.output_width : Int) i.width (by omega)
    (by omega) hw.1 hw.2
  rw [hcast] at hlo hhi
  rw [hcastW] at hxlo hxhi
  have hy : (init_image i jpg).resize_y = some ry := by
    unfold init_image
    dsimp only
    rw [unsigned_pred _ (by omega) (by omega), hry]
  have hx : (init_image i jpg).resize_x = some rx := by
    unfold init_image
    dsimp only
    rw [hrx]
  have hm0 : (0 : ℚ) ≤ ((i.height - 1 : Int) : ℚ) := by
    exact_mod_cast (show (0 : Int) ≤ i.height - 1 by omega)
  have hm1 : ((i.height - 1 : Int) : ℚ) ≤ 2 ^ 24 := by
    exact_mod_cast (show i.height - 1 ≤ 2 ^ 24 by omega)
  have hn1 : (1 : ℚ) ≤ ((jpg.output_height - 1 : Nat) : ℚ) := by
    exact_mod_cast (show 1 ≤ jpg.output_height - 1 by omega)
  have hnpos : (0 : ℚ) < ((jpg.output_height - 1 : Nat) : ℚ) := by linarith
  have hq0 : (0 : ℚ) ≤ ((i.height - 1 : Int) : ℚ) / ((jpg.output_height - 1 : Nat) : ℚ) := by
    positivity
  refine ⟨⟨ry, hy, hry.symm, ?_⟩, ⟨rx, hx, hrx.symm, ?_⟩, ?_⟩
  · rw [abs_le]
    constructor <;> linarith
  · rw [abs_le]
    constructor <;> linarith
  · intro s hs
    have hrow := scanline_row_eq jpg (init_image i jpg) s (by omega)
    rw [hrow]
    refine ⟨rfl, ?_⟩
    rw [hy]
    have hsq0 : (0 : ℚ) ≤ (s : ℚ) := Nat.cast_nonneg s
    have hsn : (s : ℚ) ≤ ((jpg.output_height - 1 : Nat) : ℚ) := by
      exact_mod_cast (show s ≤ jpg.output_height - 1 by omega)
    have hxs : ((i.height - 1 : Int) : ℚ) / ((jpg.output_height - 1 : Nat) : ℚ) * (s : ℚ) ≤
        2 ^ 24 := by
      have h1 : ((i.height - 1 : Int) : ℚ) / ((jpg.output_height - 1 : Nat) : ℚ) * (s : ℚ) ≤
          ((i.height - 1 : Int) : ℚ) / ((jpg.output_height - 1 : Nat) : ℚ) *
            ((jpg.output_height - 1 : Nat) : ℚ) := mul_le_mul_of_nonneg_left hsn hq0
      rw [div_mul_cancel₀ _ (ne_of_gt hnpos)] at h1
      linarith
    have hrs_hi : ry * (s : ℚ) ≤
        ((i.height - 1 : Int) : ℚ) / ((jpg.output_height - 1 : Nat) : ℚ) * (s : ℚ) *
          (1 + 1 / 2 ^ 24) := by
      have := mul_le_mul_of_nonneg_right hhi hsq0
      linarith
    have hrs_lo : ((i.height - 1 : Int) : ℚ) / ((jpg.output_height - 1 : Nat) : ℚ) * (s : ℚ) *
          (1 - 1 / 2 ^ 24) ≤ ry * (s : ℚ) := by
      have := mul_le_mul_of_nonneg_right hlo hsq0
      linarith
    obtain ⟨_, r1, r2⟩ := row_of_bounds ry s hcase (by omega)
      (by
        have : (2 : ℚ) ^ 24 * (1 + 1 / 2 ^ 24) ≤ 2 ^ 31 - 2 ^ 10 := by norm_num
        nlinarith)
    apply rounded_close _ _ (mul_nonneg hq0 hsq0)
    · have : (1 / 2 + ry * (s : ℚ) * (1 + 1 / 2 ^ 24)) * (1 + 1 / 2 ^ 24) ≤
          (1 / 2 + ((i.height - 1 : Int) : ℚ) / ((jpg.output_height - 1 : Nat) : ℚ) * (s : ℚ) *
            (1 + 1 / 2 ^ 24) ^ 2) * (1 + 1 / 2 ^ 24) := by
        apply mul_le_mul_of_nonneg_right _ (by norm_num)
        have := mul_le_mul_of_nonneg_right hrs_hi (show (0 : ℚ) ≤ 1 + 1 / 2 ^ 24 by norm_num)
        nlinarith
      linarith
    · have : (1 / 2 + ((i.height - 1 : Int) : ℚ) / ((jpg.output_height - 1 : Nat) : ℚ) * (s : ℚ) *
            (1 - 1 / 2 ^ 24) ^ 2) * (1 - 1 / 2 ^ 24) ≤
          (1 / 2 + ry * (s : ℚ) * (1 - 1 / 2 ^ 24)) * (1 - 1 / 2 ^ 24) := by
        apply mul_le_mul_of_nonneg_right _ (by norm_num)
        have := mul_le_mul_of_nonneg_right hrs_lo (show (0 : ℚ) ≤ 1 - 1 / 2 ^ 24 by norm_num)
        nlinarith
      linarith

/-- Witness for C15 as amended: the descriptor of the 8x8 source and the
cleared 4x4 grid. -/
theorem init_image_scales_witness :
    (∃ ry : ℚ, (init_image (clear (malloc_image config_4x4).1) white_8x8.jpg).resize_y = some ry ∧
      some ry = float_div (float_of_int ((clear (malloc_image config_4x4).1).height - 1))
        (float_of_int ((white_8x8.jpg.output_height - 1 : Nat) : Int)) ∧
      |ry - (((clear (malloc_image config_4x4).1).height - 1 : Int) : ℚ) /
          ((white_8x8.jpg.output_height - 1 : Nat) : ℚ)| ≤
        (((clear (malloc_image config_4x4).1).height - 1 : Int) : ℚ) /
          ((white_8x8.jpg.output_height - 1 : Nat) : ℚ) / 2 ^ 24) ∧
    (∃ rx : ℚ, (init_image (clear (malloc_image config_4x4).1) white_8x8.jpg).resize_x = some rx ∧
      some rx = float_div (float_of_int (white_8x8.jpg.output_width : Int))
        (float_of_int (clear (malloc_image config_4x4).1).width) ∧
      |rx - (white_8x8.jpg.output_width : ℚ) / ((clear (malloc_image config_4x4).1).width : ℚ)| ≤
        (white_8x8.jpg.output_width : ℚ) / ((clear (malloc_image config_4x4).1).width : ℚ) /
          2 ^ 24) ∧
    ∀ s : Nat, s < white_8x8.jpg.output_height →
      scanline_row { white_8x8.jpg with output_scanline := s + 1 }
          (init_image (clear (malloc_image config_4x4).1) white_8x8.jpg) =
          ROUND_float
            (float_mul (init_image (clear (malloc_image config_4x4).1) white_8x8.jpg).resize_y
              (float_of_int (s : Int))) ∧
        |(scanline_row { white_8x8.jpg with output_scanline := s + 1 }
              (init_image (clear (malloc_image config_4x4).1) white_8x8.jpg) : ℚ) -
            (((clear (malloc_image config_4x4).1).height - 1 : Int) : ℚ) /
              ((white_8x8.jpg.output_height - 1 : Nat) : ℚ) * (s : ℚ)| ≤
          1 / 2 +
            ((((clear (malloc_image config_4x4).1).height - 1 : Int) : ℚ) /
              ((white_8x8.jpg.output_height - 1 : Nat) : ℚ) * (s : ℚ) + 1) / 2 ^ 21 :=
  init_image_scales (clear (malloc_image config_4x4).1) white_8x8.jpg (by decide) (by decide)
    (by decide) (by decide)

/-! ## Shape of the rendered lines -/

/-- C11: for every grid of width `w >= 1` and height `h >= 1` with cells in
[0,1] and every palette of at least two characters, `print_image` writes
exactly `h` body lines (each list entry is one line, ended by its line
break); without `border` each line is exactly `w` palette characters, with
`border` it is exactly `w + 2` characters: `|`, then `w` palette characters,
then `|`. -/
theorem print_image_shape (g : Globals) (i : Image) (hw : 1 ≤ i.width) (hh : 1 ≤ i.height)
    (hcells : cells_in_unit i) (hlen : 2 ≤ g.ascii_palette.length)
    (hnul : ∀ c ∈ g.ascii_palette, c ≠ NUL) :
    ((print_image g i ((g.ascii_palette.length : Int) - 1)).length : Int) = i.height ∧
      ∀ line ∈ print_image g i ((g.ascii_palette.length : Int) - 1),
        (g.border = 0 → (line.length : Int) = i.width ∧ ∀ c ∈ line, c ∈ g.ascii_palette) ∧
        (g.border ≠ 0 → (line.length : Int) = i.width + 2 ∧
          ∃ body : List Char, line = '|' :: body ++ ['|'] ∧ (body.length : Int) = i.width ∧
            ∀ c ∈ body, c ∈ g.ascii_palette) := by
  have hwn : ((i.width.toNat : Nat) : Int) = i.width := by omega
  have hhn : ((i.height.toNat : Nat) : Int) = i.height := by omega
  constructor
  · simp [print_image, hhn]
  · intro line hline
    rw [print_image_eq g i hcells (by omega) hnul] at hline
    obtain ⟨y, hy, rfl⟩ := List.mem_map.mp hline
    have hy1 : y < i.height.toNat := List.mem_range.mp hy
    have hmem := row_chars_mem g i y hy1 hcells (by omega)
    have hbody : ∀ c ∈ (if g.flipx = 0 then
        (List.range i.width.toNat).map fun (x : Nat) =>
          palette_at g (palette_index g i ((g.ascii_palette.length : Int) - 1) y x)
        else ((List.range i.width.toNat).map fun (x : Nat) =>
          palette_at g (palette_index g i ((g.ascii_palette.length : Int) - 1) y x)).reverse),
        c ∈ g.ascii_palette := by
      intro c hc
      split at hc
      · exact hmem c hc
      · exact hmem c (List.mem_reverse.mp hc)
    have hblen : (if g.flipx = 0 then
        (List.range i.width.toNat).map fun (x : Nat) =>
          palette_at g (palette_index g i ((g.ascii_palette.length : Int) - 1) y x)
        else ((List.range i.width.toNat).map fun (x : Nat) =>
          palette_at g (palette_index g i ((g.ascii_palette.length : Int) - 1) y x)).reverse).length
        = i.width.toNat := by
      split <;> simp
    dsimp only
    constructor
    · intro hb
      rw [if_pos hb, hblen]
      exact ⟨hwn, hbody⟩
    · intro hb
      rw [if_neg hb]
      refine ⟨?_, _, rfl, by rw [hblen]; exact hwn, hbody⟩
      simp only [List.length_cons, List.length_append, List.length_nil, hblen]
      omega

/-- Witness for C11: the grid `spot_3x2` with palette "01" and `border` set. -/
theorem print_image_shape_witness :
    ((print_image { config_4x4 with border := 1 } spot_3x2 1).length : Int) = 2 ∧
      ∀ line ∈ print_image { config_4x4 with border := 1 } spot_3x2 1,
        ((1 : Int) = 0 → (line.length : Int) = 3 ∧ ∀ c ∈ line, c ∈ ['0', '1']) ∧
        ((1 : Int) ≠ 0 → (line.length : Int) = 3 + 2 ∧
          ∃ body : List Char, line = '|' :: body ++ ['|'] ∧ (body.length : Int) = 3 ∧
            ∀ c ∈ body, c ∈ ['0', '1']) :=
  print_image_shape { config_4x4 with border := 1 } spot_3x2 (by decide) (by decide)
    spot_3x2_cells (by decide) (by decide)

/-! ## Invert and the reversed palette -/

theorem palette_at_reverse (g : Globals) (k : Int) (h0 : 0 ≤ k)
    (h1 : k < g.ascii_palette.length) :
    palette_at { g with invert := 0, ascii_palette := g.ascii_palette.reverse }
        ((g.ascii_palette.length : Int) - 1 - k) = palette_at g k := by
  have hk : k.toNat < g.ascii_palette.length := by omega
  have hk2 : ((g.ascii_palette.length : Int) - 1 - k).toNat < g.ascii_palette.reverse.length := by
    rw [List.length_reverse]
    omega
  have hidx : g.ascii_palette.length - 1 - ((g.ascii_palette.length : Int) - 1 - k).toNat
      = k.toNat := by omega
  unfold palette_at
  dsimp only
  rw [if_pos (by omega), if_pos h0, List.getD_eq_getElem?_getD, List.getD_eq_getElem?_getD,
    List.getElem?_eq_getElem hk2, List.getElem?_eq_getElem hk, List.getElem_reverse]
  simp only [hidx]

/-- C19: for every grid whose cells lie in [0,1] and every palette `P` of
length at least 2, the lines `print_image` writes with `invert` set and
palette `P` are the lines it writes with `invert` unset and the palette
`reverse(P)`, all other flags equal. -/
theorem invert_is_palette_reversal (g : Globals) (i : Image) (hinv : g.invert ≠ 0)
    (hcells : cells_in_unit i) (hlen : 2 ≤ g.ascii_palette.length) :
    print_image g i ((g.ascii_palette.length : Int) - 1) =
      print_image { g with invert := 0, ascii_palette := g.ascii_palette.reverse } i
        ((g.ascii_palette.reverse.length : Int) - 1) := by
  rw [List.length_reverse]
  unfold print_image
  apply List.map_congr_left
  intro y hy
  have hy1 : y < i.height.toNat := List.mem_range.mp hy
  have hline : print_image_line g i ((g.ascii_palette.length : Int) - 1) y =
      print_image_line { g with invert := 0, ascii_palette := g.ascii_palette.reverse } i
        ((g.ascii_palette.length : Int) - 1) y := by
    unfold print_image_line
    apply List.foldl_ext
    intro line x hx
    have hx1 : x < i.width.toNat := List.mem_range.mp hx
    have hrow : 0 ≤ (if g.flipy = 0 then (y : Int) else i.height - y - 1) ∧
        (if g.flipy = 0 then (y : Int) else i.height - y - 1) < i.height := by
      split <;> omega
    have hv := hcells _ x hrow.1 hrow.2 (by omega) (by omega)
    have hpos := ROUND_mul_range ((g.ascii_palette.length : Int) - 1) _ (by omega) hv.1 hv.2
    have hidx : palette_index { g with invert := 0, ascii_palette := g.ascii_palette.reverse } i
        ((g.ascii_palette.length : Int) - 1) y x =
          (g.ascii_palette.length : Int) - 1 - palette_index g i
            ((g.ascii_palette.length : Int) - 1) y x := by
      unfold palette_index
      dsimp only
      rw [if_pos rfl, if_neg hinv]
    have hk : palette_index g i ((g.ascii_palette.length : Int) - 1) y x =
        ROUND ((((g.ascii_palette.length : Int) - 1 : Int) : ℚ) *
          i.pixel ((if g.flipy = 0 then (y : Int) else i.height - y - 1) * i.width + x)) := by
      unfold palette_index
      dsimp only
      rw [if_neg hinv]
    dsimp only
    rw [hidx, palette_at_reverse g _ (by rw [hk]; exact hpos.1) (by rw [hk]; omega)]
  dsimp only
  rw [hline]

/-- Witness for C19: the grid `spot_3x2` with palette "01" and `invert` set. -/
theorem invert_is_palette_reversal_witness :
    print_image { config_4x4 with invert := 1 } spot_3x2 1 =
      print_image { config_4x4 with invert := 0, ascii_palette := ['1', '0'] } spot_3x2 1 :=
  invert_is_palette_reversal { config_4x4 with invert := 1 } spot_3x2 (by decide)
    spot_3x2_cells (by decide)

/-! ## Return codes of the option parser -/

theorem parse_argument_code (strlen_before : Nat) (s : List Char) (files : Int) (g : Globals)
    (code : Int) (g1 : Globals)
    (h : parse_argument strlen_before s files g = .return_ code g1) : code = 0 ∨ code = 1 := by
  unfold parse_argument at h
  by_cases c0 : s.head? ≠ some '-'
  · rw [if_pos c0] at h
    cases h
  rw [if_neg c0] at h
  by_cases c1 : s = "-".toList
  · rw [if_pos c1] at h
    cases h
  rw [if_neg c1] at h
  by_cases c2 : s = "-h".toList ∨ s = "--help".toList
  · rw [if_pos c2] at h
    cases h
    exact Or.inl rfl
  rw [if_neg c2] at h
  by_cases c3 : s = "-v".toList ∨ s = "--verbose".toList
  · rw [if_pos c3] at h
    cases h
  rw [if_neg c3] at h
  by_cases c4 : s = "-d".toList ∨ s = "--debug".toList
  · rw [if_pos c4] at h
    cases h
  rw [if_neg c4] at h
  by_cases c5 : s = "--html".toList
  · rw [if_pos c5] at h
    cases h
  rw [if_neg c5] at h
  by_cases c6 : s = "-b".toList ∨ s = "--border".toList
  · rw [if_pos c6] at h
    cases h
  rw [if_neg c6] at h
  by_cases c7 : s = "-i".toList ∨ s = "--invert".toList
  · rw [if_pos c7] at h
    cases h
  rw [if_neg c7] at h
  by_cases c8 : s = "--flipx".toList
  · rw [if_pos c8] at h
    cases h
  rw [if_neg c8] at h
  by_cases c9 : s = "--flipy".toList
  · rw [if_pos c9] at h
    cases h
  rw [if_neg c9] at h
  by_cases c10 : s = "-V".toList ∨ s = "--version".toList
  · rw [if_pos c10] at h
    cases h
    exact Or.inl rfl
  rw [if_neg c10] at h
  cases hw : sscanf_d "--width=".toList s with
  | some v =>
    rw [hw] at h
    cases h
  | none =>
    rw [hw] at h
    dsimp only at h
    cases hh : sscanf_d "--height=".toList s with
    | some v => rw [hh] at h; cases h
    | none =>
      rw [hh] at h
      dsimp only at h
      cases hf : sscanf_d "--html-fontsize=".toList s with
      | some v => rw [hf] at h; cases h
      | none =>
        rw [hf] at h
        dsimp only at h
        rcases hsz : sscanf_size s with ⟨_ | v1, _ | v2⟩ <;> rw [hsz] at h <;> dsimp only at h <;>
          first
            | (exact LoopStep.noConfusion h)
            | (split at h <;> first
                | (exact LoopStep.noConfusion h)
                | (cases h; exact Or.inr rfl)
                | (split at h <;> first
                    | (exact LoopStep.noConfusion h)
                    | (cases h; exact Or.inr rfl)))

theorem parse_arguments_code (strlen_before : Nat → Nat) (args : List (List Char)) :
    ∀ (n : Nat) (files : Int) (g : Globals) (code : Int) (g1 : Globals),
      parse_arguments strlen_before n args files g = .return_ code g1 → code = 0 ∨ code = 1 := by
  induction args with
  | nil =>
    intro n files g code g1 h
    simp [parse_arguments] at h
  | cons s rest ih =>
    intro n files g code g1 h
    rw [parse_arguments] at h
    cases hstep : parse_argument (strlen_before n) s files g with
    | return_ c g2 =>
      rw [hstep] at h
      injection h with h1 h2
      subst h1
      exact parse_argument_code _ _ _ _ _ _ hstep
    | continue_ f2 g2 =>
      rw [hstep] at h
      exact ih _ _ _ _ _ h

theorem parse_options_final_check (g3 : Globals) :
    (((if g3.ascii_palette.length < 2 then ((1 : Int), g3)
        else if (g3.width < 1 ∧ g3.auto_width = 0) ∨ (g3.height < 1 ∧ g3.auto_height = 0) then
          ((1 : Int), g3)
        else ((-1 : Int), g3)).1 = 0 ∨
      (if g3.ascii_palette.length < 2 then ((1 : Int), g3)
        else if (g3.width < 1 ∧ g3.auto_width = 0) ∨ (g3.height < 1 ∧ g3.auto_height = 0) then
          ((1 : Int), g3)
        else ((-1 : Int), g3)).1 = 1) ∨
      ((if g3.ascii_palette.length < 2 then ((1 : Int), g3)
        else if (g3.width < 1 ∧ g3.auto_width = 0) ∨ (g3.height < 1 ∧ g3.auto_height = 0) then
          ((1 : Int), g3)
        else ((-1 : Int), g3)).1 = -1 ∧
       2 ≤ (if g3.ascii_palette.length < 2 then ((1 : Int), g3)
        else if (g3.width < 1 ∧ g3.auto_width = 0) ∨ (g3.height < 1 ∧ g3.auto_height = 0) then
          ((1 : Int), g3)
        else ((-1 : Int), g3)).2.ascii_palette.length)) := by
  by_cases hp : g3.ascii_palette.length < 2
  · rw [if_pos hp]
    exact Or.inl (Or.inr rfl)
  · rw [if_neg hp]
    by_cases hd : (g3.width < 1 ∧ g3.auto_width = 0) ∨ (g3.height < 1 ∧ g3.auto_height = 0)
    · rw [if_pos hd]
      exact Or.inl (Or.inr rfl)
    · rw [if_neg hd]
      exact Or.inr ⟨rfl, by show 2 ≤ g3.ascii_palette.length; omega⟩

/-- `parse_options` returns 0, 1 or -1, and -1 only with a palette of at
least two characters. -/
theorem parse_options_code (strlen_before : Nat → Nat) (argv : List String) (g : Globals) :
    ((parse_options strlen_before argv g).1 = 0 ∨ (parse_options strlen_before argv g).1 = 1) ∨
      ((parse_options strlen_before argv g).1 = -1 ∧
        2 ≤ (parse_options strlen_before argv g).2.ascii_palette.length) := by
  unfold parse_options
  cases hloop : parse_arguments strlen_before 1 ((argv.drop 1).map String.toList) 0 g with
  | return_ code g1 =>
    exact Or.inl (parse_arguments_code _ _ _ _ _ _ _ hloop)
  | continue_ files g1 =>
    dsimp only
    by_cases hf : files = 0
    · rw [if_pos hf]
      exact Or.inl (Or.inr rfl)
    · rw [if_neg hf]
      exact parse_options_final_check _

/-- C12: for every argument list after which the palette in effect has fewer
than 2 characters, `parse_options` does not return -1 (parsing OK), and
`main`, which starts from the initial option variables, returns the code of
`parse_options` without a single call of `decompress`: no image is decoded
and no grid is allocated. -/
theorem short_palette_rejected (strlen_before : Nat → Nat) (argv : List String) (g : Globals)
    (h : (parse_options strlen_before argv g).2.ascii_palette.length < 2) :
    (parse_options strlen_before argv g).1 ≠ -1 ∧
      (g = initial_globals → ∀ (fuel : Nat) (env : Env),
        main strlen_before fuel env argv = some ((parse_options strlen_before argv g).1, [])) := by
  have hcode : (parse_options strlen_before argv g).1 = 0 ∨
      (parse_options strlen_before argv g).1 = 1 := by
    rcases parse_options_code strlen_before argv g with h1 | ⟨_, h2⟩
    · exact h1
    · omega
  refine ⟨by omega, ?_⟩
  rintro rfl fuel env
  unfold main
  dsimp only
  rw [if_pos (by omega)]

/-- Witness for C12: the arguments `--chars=# a.jpg`, with `a.jpg` an
existing image. -/
theorem short_palette_rejected_witness :
    (parse_options (fun _ => 0) ["jp2a", "--chars=#", "a.jpg"] initial_globals).1 ≠ -1 ∧
      (initial_globals = initial_globals → ∀ (fuel : Nat) (env : Env),
        main (fun _ => 0) fuel env ["jp2a", "--chars=#", "a.jpg"] =
          some ((parse_options (fun _ => 0) ["jp2a", "--chars=#", "a.jpg"] initial_globals).1, [])) :=
  short_palette_rejected (fun _ => 0) ["jp2a", "--chars=#", "a.jpg"] initial_globals (by decide)

/-! ## A single destination row -/

theorem row_of_zero (t : Nat) (ht : t < 2 ^ 24) : row_of (some 0) t = 0 := by
  obtain ⟨r0, r1, _⟩ := row_of_bounds 0 t (Or.inl rfl) ht (by norm_num)
  rw [zero_mul, zero_mul, add_zero] at r1
  have h1 : (row_of (some 0) t : ℚ) < 1 := by
    have : (1 : ℚ) / 2 * (1 + 1 / 2 ^ 24) < 1 := by norm_num
    linarith
  have h2 : row_of (some 0) t < 1 := by exact_mod_cast h1
  omega

theorem contributes_zero (s : Nat) (hs : s < 2 ^ 24) : contributes (some 0) 0 s 0 := by
  unfold contributes cursor_before
  rw [row_of_zero s hs]
  split
  · exact ⟨le_refl _, le_refl _⟩
  · rw [row_of_zero (s - 1) (by omega)]
    exact ⟨le_refl _, le_refl _⟩

theorem decompress_image_lookup (src : Source) (g : Globals) :
    (decompress_image src g).2.lookup_resx =
      (init_image (clear (malloc_image g).1) src.jpg).lookup_resx :=
  (read_scanlines_frame src src.jpg.output_height
    (g.lasty, init_image (clear (malloc_image g).1) src.jpg)).2.2.2.2

theorem process_scanlines_invariant (calls : List (JpegInfo × List Nat))
    (hcalls : ∀ call ∈ calls, 1 ≤ call.1.out_color_components ∧ ∀ v ∈ call.2, v ≤ 255) :
    ∀ st : Int × Image, sums_bounded st.2 →
      sums_bounded (process_scanlines calls st).2 ∧
        same_frame (process_scanlines calls st).2 st.2 := by
  induction calls with
  | nil =>
    intro st hb
    exact ⟨hb, rfl, rfl, rfl, rfl, rfl⟩
  | cons call rest ih =>
    intro st hb
    have hc := hcalls call (List.mem_cons_self _ _)
    have hstep := process_scanline_bounded call.1 call.2 hc.2 hc.1 st.1 st.2 hb
    obtain ⟨_, hf, _, _⟩ := process_scanline_spec call.1 call.2 st.1 st.2
    have hrest := ih (fun c hc1 => hcalls c (List.mem_cons_of_mem _ hc1))
      (process_scanline call.1 call.2 (st.1, st.2)) hstep
    obtain ⟨a1, a2, a3, a4, a5⟩ := hrest.2
    obtain ⟨b1, b2, b3, b4, b5⟩ := hf
    exact ⟨hrest.1, a1.trans b1, a2.trans b2, a3.trans b3, a4.trans b4, a5.trans b5⟩

/-- C14: for 8-bit samples and at least one component per pixel (so for 1 to
4 components), after `clear`, any sequence of `process_scanline` calls from
any cursor and one `normalize` call, every cell of the grid lies in [0,1]:
each `store_intensity` contribution is in [0,1], each cell sum lies between 0
and `yadds` of its row, and the cells of a row with `yadds = 0` are 0 before
and after `normalize`. -/
theorem cells_stay_in_unit (calls : List (JpegInfo × List Nat))
    (hcalls : ∀ call ∈ calls, 1 ≤ call.1.out_color_components ∧ ∀ v ∈ call.2, v ≤ 255)
    (image : Image) (l0 : Int) :
    (∀ call ∈ calls, ∀ off : Int,
      0 ≤ store_intensity (fun c => sample call.2 (off + c)) 0 call.1.out_color_components ∧
        store_intensity (fun c => sample call.2 (off + c)) 0 call.1.out_color_components ≤ 1) ∧
    sums_bounded (process_scanlines calls (l0, clear image)).2 ∧
    (∀ r c : Int, 0 ≤ r ∧ r < image.height → 0 ≤ c ∧ c < image.width →
      (process_scanlines calls (l0, clear image)).2.yadds r = 0 →
        (process_scanlines calls (l0, clear image)).2.pixel (r * image.width + c) = 0 ∧
        (normalize (process_scanlines calls (l0, clear image)).2).pixel (r * image.width + c) = 0) ∧
    cells_in_unit (normalize (process_scanlines calls (l0, clear image)).2) := by
  have h0 : sums_bounded (l0, clear image).2 := fun r c _ => ⟨le_refl _, le_refl _⟩
  obtain ⟨hb, hf⟩ := process_scanlines_invariant calls hcalls (l0, clear image) h0
  have hw : (process_scanlines calls (l0, clear image)).2.width = image.width := hf.1
  have hh : (process_scanlines calls (l0, clear image)).2.height = image.height := hf.2.1
  refine ⟨?_, hb, ?_, normalize_cells_in_unit _ hb⟩
  · intro call hcall off
    have hc := hcalls call hcall
    exact store_intensity_range _ (fun _ => sample_le call.2 hc.2 _) _ hc.1
  · intro r c hr hc hz
    have hcell := hb r c (by rw [hw]; exact hc)
    rw [hw, hz] at hcell
    have hzero : (process_scanlines calls (l0, clear image)).2.pixel (r * image.width + c) = 0 :=
      le_antisymm (by exact_mod_cast hcell.2) hcell.1
    have hn := normalize_pixel (process_scanlines calls (l0, clear image)).2 r c
      (by rw [hh]; exact hr) (by rw [hw]; exact hc)
    rw [hw, hz] at hn
    rw [if_neg (by simp)] at hn
    exact ⟨hzero, by rw [hn, hzero]⟩

/-- Witness for C14: two calls on a cleared 3x2 grid, for the first and the
second scanline; the three-component samples are 8-bit. -/
theorem cells_stay_in_unit_witness :
    cells_in_unit (normalize (process_scanlines
      [({ white_8x8.jpg with out_color_components := 3, output_scanline := 1 },
          [255, 0, 7, 1, 2, 3, 9, 9, 9]),
        ({ white_8x8.jpg with out_color_components := 3, output_scanline := 2 },
          [0, 0, 0, 255, 255, 255, 4, 5, 6])]
      (0, clear spot_3x2)).2) :=
  (cells_stay_in_unit
    [({ white_8x8.jpg with out_color_components := 3, output_scanline := 1 },
        [255, 0, 7, 1, 2, 3, 9, 9, 9]),
      ({ white_8x8.jpg with out_color_components := 3, output_scanline := 2 },
        [0, 0, 0, 255, 255, 255, 4, 5, 6])]
    (by decide) spot_3x2 0).2.2.2

/-! ## Bounds of the column map -/

theorem below_width (W t p x : ℚ) (ht : 0 < t) (hW : W ≤ t * 2 ^ 22)
    (h1 : x * (1 + 1 / 2 ^ 24) ^ 2 ≤ (W - t) * (1 + 1 / 2 ^ 24) ^ 2)
    (hp : p ≤ x * (1 + 1 / 2 ^ 24) ^ 2) : p < W := by
  have hu : (1 + 1 / 2 ^ 24 : ℚ) ^ 2 = 1 + 1 / 2 ^ 23 + 1 / 2 ^ 48 := by norm_num
  rw [hu] at h1 hp
  have e : (W - t) * (1 + 1 / 2 ^ 23 + 1 / 2 ^ 48) =
      W + W * (1 / 2 ^ 23 + 1 / 2 ^ 48) - t * (1 + 1 / 2 ^ 23 + 1 / 2 ^ 48) := by ring
  have h2 : W * (1 / 2 ^ 23 + 1 / 2 ^ 48) ≤ t * 2 ^ 22 * (1 / 2 ^ 23 + 1 / 2 ^ 48) :=
    mul_le_mul_of_nonneg_right hW (by norm_num)
  have h3 : t * 2 ^ 22 * (1 / 2 ^ 23 + 1 / 2 ^ 48) = t * (1 / 2 + 1 / 2 ^ 26) := by ring
  have h4 : t * (1 / 2 + 1 / 2 ^ 26) < t * (1 + 1 / 2 ^ 23 + 1 / 2 ^ 48) :=
    mul_lt_mul_of_pos_left (by norm_num) ht
  linarith

/-- C17 as stated fails: for a source 2 wide with one component per pixel and
a target 82 wide, the column scale is the single-precision value of 2/82,
which is below 1/41; its product with 41 is rounded to a value below 1, and
`lookup_resx[41]` is 0, while `floor(41 * 2 / 82) * 1` is 1. -/
theorem column_map_is_not_floor :
    (init_image (clear (malloc_image config_82x2).1) white_2x2.jpg).resize_x =
        some (3273603 / 134217728) ∧
      (3273603 / 134217728 : ℚ) < 1 / 41 ∧
      (init_image (clear (malloc_image config_82x2).1) white_2x2.jpg).lookup_resx 41 = 0 ∧
      ⌊(((41 : Int) : ℚ)) * (white_2x2.jpg.output_width : ℚ) /
          ((clear (malloc_image config_82x2).1).width : ℚ)⌋ *
        white_2x2.jpg.out_color_components = 1 := by
  refine ⟨by decide!, by decide!, ?_, by decide!⟩
  rw [init_image_lookup _ _ 41 (by decide)]
  decide!

/-- C17 as amended: for every source width `W >= 1`, components per pixel
`N >= 1` and target width `w` between 1 and `2^22`, every entry of the column
map `init_image` builds is `lookup_resx[c] = (int)((float) c * resize_x) * N`
with the product in single precision; the entry is `k * N` for a `k` in
`[0, W)` with `x * (1 - 2^-24)^2 - 1 < k <= x * (1 + 2^-24)^2` for
`x = c * W / w`, and `lookup_resx[c] + N <= W * N`, for all `c` in `[0, w)`;
so each of the `N` samples `store_intensity` reads from
`&scanline[lookup_resx[c]]` has an index in `[0, W * N)`. -/
theorem column_map_in_bounds (i : Image) (jpg : JpegInfo) (hW : 1 ≤ jpg.output_width)
    (hN : 1 ≤ jpg.out_color_components) (hw : 1 ≤ i.width) (hw2 : i.width ≤ 2 ^ 22) (c : Int)
    (hc : 0 ≤ c ∧ c < i.width) :
    (init_image i jpg).lookup_resx c =
        int_of_float (float_mul (float_of_int c) (init_image i jpg).resize_x) *
          jpg.out_color_components ∧
      (∃ k : Int, (init_image i jpg).lookup_resx c = k * jpg.out_color_components ∧
        0 ≤ k ∧ k < jpg.output_width ∧
        (k : ℚ) ≤ (c : ℚ) * (jpg.output_width : ℚ) / (i.width : ℚ) * (1 + 1 / 2 ^ 24) ^ 2 ∧
        (c : ℚ) * (jpg.output_width : ℚ) / (i.width : ℚ) * (1 - 1 / 2 ^ 24) ^ 2 - 1 < (k : ℚ)) ∧
      (init_image i jpg).lookup_resx c + jpg.out_color_components ≤
        (jpg.output_width : Int) * jpg.out_color_components ∧
      ∀ k : Int, 0 ≤ k → k < jpg.out_color_components →
        0 ≤ (init_image i jpg).lookup_resx c + k ∧
          (init_image i jpg).lookup_resx c + k <
            (jpg.output_width : Int) * jpg.out_color_components := by
  have hWle := jpeg_width_le jpg
  have hwq1 : (1 : ℚ) ≤ (i.width : ℚ) := by exact_mod_cast hw
  have hwq2 : (i.width : ℚ) ≤ 2 ^ 22 := by exact_mod_cast hw2
  have hwq : (0 : ℚ) < (i.width : ℚ) := by linarith
  have hWq1 : (1 : ℚ) ≤ (jpg.output_width : ℚ) := by exact_mod_cast hW
  have hWq2 : (jpg.output_width : ℚ) ≤ 65500 := by exact_mod_cast hWle
  have hcq : (0 : ℚ) ≤ (c : ℚ) := by exact_mod_cast hc.1
  have hcw : (c : ℚ) ≤ (i.width : ℚ) - 1 := by
    exact_mod_cast (show c ≤ i.width - 1 by omega)
  have hcastW : (((jpg.output_width : Nat) : Int) : ℚ) = (jpg.output_width : ℚ) := by norm_cast
  obtain ⟨rx, hrx, hxlo, hxhi, hxcase⟩ := float_div_int (jpg.output_width : Int) i.width
    (by omega) (by omega) hw (by omega)
  rw [hcastW] at hxlo hxhi
  have ht0 : (0 : ℚ) < (jpg.output_width : ℚ) / (i.width : ℚ) := by positivity
  have htw : (jpg.output_width : ℚ) / (i.width : ℚ) * (i.width : ℚ) = (jpg.output_width : ℚ) :=
    div_mul_cancel₀ _ (ne_of_gt hwq)
  have htlow : (jpg.output_width : ℚ) ≤ (jpg.output_width : ℚ) / (i.width : ℚ) * 2 ^ 22 := by
    have := mul_le_mul_of_nonneg_left hwq2 ht0.le
    linarith
  have hrx0 : 0 ≤ rx := by
    have : (0 : ℚ) ≤ (jpg.output_width : ℚ) / (i.width : ℚ) * (1 - 1 / 2 ^ 24) :=
      mul_nonneg ht0.le (by norm_num)
    linarith
  have hrxpos : 1 / 2 ^ 25 ≤ rx := by
    rcases hxcase with h | h
    · have : (0 : ℚ) < (jpg.output_width : ℚ) / (i.width : ℚ) * (1 - 1 / 2 ^ 24) :=
        mul_pos ht0 (by norm_num)
      linarith
    · exact h
  have hx : (init_image i jpg).resize_x = some rx := by
    unfold init_image
    dsimp only
    rw [hrx]
  have hfc : float_of_int c = some (c : ℚ) := float_of_int_exact c (by rw [abs_lt]; omega)
  have hct : (c : ℚ) * ((jpg.output_width : ℚ) / (i.width : ℚ)) ≤
      (jpg.output_width : ℚ) - (jpg.output_width : ℚ) / (i.width : ℚ) := by
    have := mul_le_mul_of_nonneg_right hcw ht0.le
    linarith
  have hcrx_hi : (c : ℚ) * rx ≤
      (c : ℚ) * ((jpg.output_width : ℚ) / (i.width : ℚ)) * (1 + 1 / 2 ^ 24) := by
    have := mul_le_mul_of_nonneg_left hxhi hcq
    linarith
  have hcrx_lo : (c : ℚ) * ((jpg.output_width : ℚ) / (i.width : ℚ)) * (1 - 1 / 2 ^ 24) ≤
      (c : ℚ) * rx := by
    have := mul_le_mul_of_nonneg_left hxlo hcq
    linarith
  have hcrx0 : 0 ≤ (c : ℚ) * rx := mul_nonneg hcq hrx0
  obtain ⟨p, hp, hplo, hphi⟩ := round32_spec (x := (c : ℚ) * rx)
    (by
      rcases eq_or_lt_of_le hc.1 with h0 | h0
      · left
        rw [← h0]
        simp
      · right
        have h1 : (1 : ℚ) ≤ (c : ℚ) := by exact_mod_cast (show (1 : Int) ≤ c by omega)
        have h2 : (1 : ℚ) / 2 ^ 126 ≤ 1 / 2 ^ 25 := by norm_num
        nlinarith)
    (by
      have : (2 : ℚ) ^ 17 * 2 ≤ 2 ^ 100 := by norm_num
      nlinarith)
  have hp0 : 0 ≤ p := by
    have : (0 : ℚ) ≤ (c : ℚ) * rx * (1 - 1 / 2 ^ 24) := mul_nonneg hcrx0 (by norm_num)
    linarith
  have hphi2 : p ≤ (c : ℚ) * ((jpg.output_width : ℚ) / (i.width : ℚ)) * (1 + 1 / 2 ^ 24) ^ 2 := by
    have := mul_le_mul_of_nonneg_right hcrx_hi (show (0 : ℚ) ≤ 1 + 1 / 2 ^ 24 by norm_num)
    nlinarith
  have hplo2 : (c : ℚ) * ((jpg.output_width : ℚ) / (i.width : ℚ)) * (1 - 1 / 2 ^ 24) ^ 2 ≤ p := by
    have := mul_le_mul_of_nonneg_right hcrx_lo (show (0 : ℚ) ≤ 1 - 1 / 2 ^ 24 by norm_num)
    nlinarith
  have hpW : p < (jpg.output_width : ℚ) :=
    below_width _ _ _ _ ht0 htlow (mul_le_mul_of_nonneg_right hct (by positivity)) hphi2
  have hfl : int_of_float (some p) = ⌊p⌋ :=
    int_of_float_floor hp0 (by
      have : (65500 : ℚ) < 2 ^ 31 := by norm_num
      linarith)
  have hl := init_image_lookup i jpg c hc
  rw [hrx, hfc] at hl
  have hmul : float_mul (some (c : ℚ)) (some rx) = some p := by
    unfold float_mul
    simp only
    exact hp
  rw [hmul, hfl] at hl
  have hk0 : 0 ≤ ⌊p⌋ := Int.floor_nonneg.mpr hp0
  have hk1 : ⌊p⌋ < (jpg.output_width : Int) := Int.floor_lt.mpr (by push_cast; exact hpW)
  have hN0 : 0 ≤ jpg.out_color_components := by omega
  have hmulN : (⌊p⌋ + 1) * jpg.out_color_components ≤
      (jpg.output_width : Int) * jpg.out_color_components :=
    Int.mul_le_mul_of_nonneg_right (by omega) hN0
  have hprod : 0 ≤ ⌊p⌋ * jpg.out_color_components := Int.mul_nonneg hk0 hN0
  have hmulN' : ⌊p⌋ * jpg.out_color_components + jpg.out_color_components ≤
      (jpg.output_width : Int) * jpg.out_color_components := by
    have e : (⌊p⌋ + 1) * jpg.out_color_components =
        ⌊p⌋ * jpg.out_color_components + jpg.out_color_components := by ring
    rw [← e]
    exact hmulN
  have hxeq : (c : ℚ) * (jpg.output_width : ℚ) / (i.width : ℚ) =
      (c : ℚ) * ((jpg.output_width : ℚ) / (i.width : ℚ)) := by ring
  refine ⟨?_, ⟨⌊p⌋, hl, hk0, hk1, ?_, ?_⟩, ?_, ?_⟩
  · rw [hl, hx, hfc, hmul, hfl]
  · rw [hxeq]
    linarith only [Int.floor_le p, hphi2]
  · rw [hxeq]
    linarith only [Int.lt_floor_add_one p, hplo2]
  · rw [hl]
    exact hmulN'
  · intro k hk0' hk1'
    rw [hl]
    constructor
    · exact Int.add_nonneg hprod hk0'
    · have h9 := Int.add_lt_add_left hk1' (⌊p⌋ * jpg.out_color_components)
      exact Int.lt_of_lt_of_le h9 hmulN'

/-- Witness for C17 as amended: the 8x8 source on a grid 3 wide, at the last
column. -/
theorem column_map_in_bounds_witness :
    (init_image spot_3x2 white_8x8.jpg).lookup_resx 2 =
        int_of_float (float_mul (float_of_int 2) (init_image spot_3x2 white_8x8.jpg).resize_x) *
          white_8x8.jpg.out_color_components ∧
      (∃ k : Int, (init_image spot_3x2 white_8x8.jpg).lookup_resx 2 =
          k * white_8x8.jpg.out_color_components ∧
        0 ≤ k ∧ k < white_8x8.jpg.output_width ∧
        (k : ℚ) ≤ ((2 : Int) : ℚ) * (white_8x8.jpg.output_width : ℚ) / (spot_3x2.width : ℚ) *
          (1 + 1 / 2 ^ 24) ^ 2 ∧
        ((2 : Int) : ℚ) * (white_8x8.jpg.output_width : ℚ) / (spot_3x2.width : ℚ) *
          (1 - 1 / 2 ^ 24) ^ 2 - 1 < (k : ℚ)) ∧
      (init_image spot_3x2 white_8x8.jpg).lookup_resx 2 + white_8x8.jpg.out_color_components ≤
        (white_8x8.jpg.output_width : Int) * white_8x8.jpg.out_color_components ∧
      ∀ k : Int, 0 ≤ k → k < white_8x8.jpg.out_color_components →
        0 ≤ (init_image spot_3x2 white_8x8.jpg).lookup_resx 2 + k ∧
          (init_image spot_3x2 white_8x8.jpg).lookup_resx 2 + k <
            (white_8x8.jpg.output_width : Int) * white_8x8.jpg.out_color_components :=
  column_map_in_bounds spot_3x2 white_8x8.jpg (by decide) (by decide) (by decide) (by decide) 2
    (by decide)

/-! ## Rows written by the accumulator -/

/-- The sizes of the blocks of `malloc_image` when the product
`width * height` is an `int`. -/
theorem malloc_image_sizes (g : Globals) (hw : 0 ≤ g.width) (hh : 0 ≤ g.height)
    (hw2 : g.width < 2 ^ 31) (hh2 : g.height < 2 ^ 31) (hwh : g.width * g.height < 2 ^ 31) :
    ((malloc_image g).2.pixel : Int) = 4 * (g.width * g.height) ∧
      ((malloc_image g).2.yadds : Int) = 4 * g.height ∧
      ((malloc_image g).2.lookup_resx : Int) = 4 * g.width := by
  have hp0 : 0 ≤ g.width * g.height := Int.mul_nonneg hw hh
  have hwrap : wrap_int (g.width * g.height) = g.width * g.height :=
    wrap_int_id _ (by omega) hwh
  unfold malloc_image size_of_int
  dsimp only
  rw [hwrap]
  generalize g.width * g.height = a at hp0 hwh
  refine ⟨?_, ?_, ?_⟩ <;> omega

/-- A call of `process_scanline` during the accumulation writes exactly the
rows from the cursor to the row of its scanline. -/
theorem row_written_iff (src : Source) (g : Globals) (s : Nat) (hs : s + 1 < 2 ^ 32) (r : Int) :
    row_written { src.jpg with output_scanline := s + 1 } (src.scanlines.getD s [])
        (state_before src g s) r ↔
      contributes (init_image (clear (malloc_image g).1) src.jpg).resize_y g.lasty s r := by
  obtain ⟨hcur, _, _⟩ := read_scanlines_closed src g.lasty
    (init_image (clear (malloc_image g).1) src.jpg) s (by omega)
  have hf := (read_scanlines_frame src s
    (g.lasty, init_image (clear (malloc_image g).1) src.jpg)).2.2.1
  dsimp only at hf
  have hy := scanline_row_eq src.jpg
    (read_scanlines src s (g.lasty, init_image (clear (malloc_image g).1) src.jpg)).2 s hs
  rw [hf] at hy
  obtain ⟨_, _, hspec, _⟩ := process_scanline_spec { src.jpg with output_scanline := s + 1 }
    (src.scanlines.getD s [])
    (read_scanlines src s (g.lasty, init_image (clear (malloc_image g).1) src.jpg)).1
    (read_scanlines src s (g.lasty, init_image (clear (malloc_image g).1) src.jpg)).2
  have h := hspec r
  rw [hy] at h
  unfold row_written state_before contributes
  rw [show (read_scanlines src s (g.lasty, init_image (clear (malloc_image g).1) src.jpg)) =
    ((read_scanlines src s (g.lasty, init_image (clear (malloc_image g).1) src.jpg)).1,
      (read_scanlines src s (g.lasty, init_image (clear (malloc_image g).1) src.jpg)).2) from rfl,
    h, hcur]
  constructor
  · intro hne
    by_contra hc
    rw [if_neg hc, add_zero] at hne
    exact hne rfl
  · intro hc
    rw [if_pos hc]
    simp

end Jp2a
